import Mathlib

/-!
# The chunk grid of `src/voxels/Chunks.cpp`

A shallow embedding of `Chunks` (the sliding window of voxel columns) and
theorems about it.

Conventions of the embedding.

* `int32_t` values are `Int` and their arithmetic is exact: signed overflow is
  undefined in C++, so the theorems speak about the executions in which the
  arithmetic of the source is defined.  The window sizes `w`, `d` are `Nat`;
  `int(w)` is the cast to `Int` and the slot index `z * w + x` is exact.
* `std::vector<std::shared_ptr<Chunk>>` is a `List (Option Chunk)`: `none` is
  the null pointer.  A column is held by value; the fields of `Chunk` that
  `Chunks.cpp` reads or writes are the fields of the record.  Under the
  slot-identity invariant a column object is referenced by one slot only, so
  nothing is lost by holding it by value.
* The calls made on the collaborators are recorded in the state:
  `hidden` lists the columns passed to `events->trigger(EVT_CHUNK_HIDDEN, _)`
  and `regions` the columns passed to `regions.put(_)`, oldest first.
* `CHUNK_W`, `CHUNK_H`, `CHUNK_D` are declared in a header that is not part of
  the sources at hand; they are the fields of `Constants`.
* `float` values are rational numbers and their arithmetic is exact; the loops
  of the ray casts run for at most `fuel` passes and the theorems say which
  `fuel` suffices.
-/

set_option autoImplicit false

namespace VoxelEngine

/-! ## Data model -/

/-- The column dimensions `CHUNK_W`, `CHUNK_H`, `CHUNK_D`. -/
structure Constants where
  CHUNK_W : Int
  CHUNK_H : Int
  CHUNK_D : Int
deriving DecidableEq, Repr

/-- A voxel: a block id and a byte of packed states.  The header declaring
`voxel` is not among the sources; the `id` field holds the `uint32_t` argument of
`set` as it is (the data model says `blockId: integer`). -/
structure voxel where
  id : Nat
  states : Nat
deriving DecidableEq, Repr

/-- A `glm::vec3` whose components are taken exactly, as rational numbers. -/
structure Vec3 where
  x : ℚ
  y : ℚ
  z : ℚ
deriving DecidableEq, Repr

/-- A `glm::ivec3`. -/
structure IVec3 where
  x : Int
  y : Int
  z : Int
deriving DecidableEq, Repr

/-- An axis-aligned box, given by two corners. -/
structure AABB where
  a : Vec3
  b : Vec3
deriving DecidableEq, Repr

/-- The fields of a block definition that `Chunks.cpp` consults.  `solid` is
`rt.solid`, `rtHitboxes` is `rt.hitboxes`, indexed by the rotation. -/
structure Block where
  obstacle : Bool
  selectable : Bool
  replaceable : Bool
  rotatable : Bool
  solid : Bool
  inventorySize : Nat
  hitboxes : List AABB
  modelBoxes : List AABB
  rtHitboxes : List (List AABB)
deriving DecidableEq, Repr

/-- The block registry behind `contentIds->getBlockDef(id)`. -/
structure ContentIndices where
  getBlockDef : Nat → Block

/-- A voxel column.  `x`, `z` are its own world column coordinates, `voxels` its
voxel array, `lightmap` one packed light value per voxel, `inventories` the
block inventories keyed by voxel index, `bottom`/`top` the occupied range and
the four booleans its flags. -/
structure Chunk where
  x : Int
  z : Int
  bottom : Int
  top : Int
  voxels : List voxel
  lightmap : List Nat
  inventories : List (Nat × Nat)
  unsaved : Bool
  modified : Bool
  lighted : Bool
  loadedLights : Bool
deriving DecidableEq, Repr

/-- The persistence store as far as `Chunks.cpp` queries it. -/
structure WorldFiles where
  doesWriteLights : Bool
deriving DecidableEq, Repr

/-- The grid `Chunks`.  `worldFiles = none` is the null store pointer. -/
structure Chunks where
  chunks : List (Option Chunk)
  chunksSecond : List (Option Chunk)
  volume : Nat
  chunksCount : Int
  w : Nat
  d : Nat
  ox : Int
  oz : Int
  worldFiles : Option WorldFiles
  hidden : List Chunk
  regions : List Chunk
deriving DecidableEq, Repr

/-! ## Helpers that live outside `Chunks.cpp` -/

/-- Modelled from the spec: `floordiv` (declared in `maths/voxmaths.h`, not among
the sources).  Truncating division, special-cased for a negative numerator
that is not a multiple of the divisor. -/
def floordiv (a b : Int) : Int :=
  if a < 0 ∧ Int.tmod a b ≠ 0 then Int.tdiv a b - 1 else Int.tdiv a b

/-- The index of voxel `(lx, ly, lz)` in a column's arrays,
`(ly * CHUNK_D + lz) * CHUNK_W + lx`. -/
def voxIndex (K : Constants) (lx ly lz : Int) : Nat :=
  ((ly * K.CHUNK_D + lz) * K.CHUNK_W + lx).toNat

/-- Modelled from the spec: `Chunk::setUnsaved` (class `Chunk` is not among the
sources) sets the persistence-dirty flag. -/
def Chunk.setUnsaved (c : Chunk) (b : Bool) : Chunk := { c with unsaved := b }

/-- Modelled from the spec: `Chunk::setModified` sets the flag that triggers a
mesh rebuild. -/
def Chunk.setModified (c : Chunk) (b : Bool) : Chunk := { c with modified := b }

/-- Modelled from the spec: `Chunk::removeBlockInventory` releases any
block-inventory entry at the position. -/
def Chunk.removeBlockInventory (K : Constants) (c : Chunk) (lx y lz : Int) : Chunk :=
  { c with inventories := c.inventories.filter (fun e => e.1 ≠ voxIndex K lx y lz) }

/-- The height level of the voxel at array index `i`. -/
def levelOf (K : Constants) (i : Nat) : Int :=
  (i : Int) / (K.CHUNK_D * K.CHUNK_W)

/-- Modelled from the spec: `Chunk::updateHeights`, the full height rescan.
`bottom` becomes the level of the first non-air voxel and `top` one more than
the level of the last one; a column without a non-air voxel keeps its bounds. -/
def Chunk.updateHeights (K : Constants) (c : Chunk) : Chunk :=
  let occupied := (List.range c.voxels.length).filter
    (fun i => (c.voxels.getD i ⟨0, 0⟩).id ≠ 0)
  match occupied.head?, occupied.getLast? with
  | some lo, some hi => { c with bottom := levelOf K lo, top := levelOf K hi + 1 }
  | _, _ => c

/-- Modelled from the spec: `Lightmap::get(x, y, z)`, the packed light value
stored for a voxel. -/
def Chunk.light (K : Constants) (c : Chunk) (lx ly lz : Int) : Nat :=
  c.lightmap.getD (voxIndex K lx ly lz) 0

/-- Modelled from the spec: `Lightmap::get(x, y, z, channel)`, the four bits of
one channel of the packed light value. -/
def Chunk.lightChannel (K : Constants) (c : Chunk) (lx ly lz : Int) (channel : Nat) : Nat :=
  (Chunk.light K c lx ly lz >>> (channel * 4)) % 16

/-! ## `Chunks` -/

/-- The constructor `Chunks::Chunks(w, d, ox, oz, wfile, events, content)`. -/
def Chunks.new (w d : Nat) (ox oz : Int) (wfile : Option WorldFiles) : Chunks :=
  { chunks := List.replicate (w * d) none
    chunksSecond := List.replicate (w * d) none
    volume := w * d
    chunksCount := 0
    w := w
    d := d
    ox := ox
    oz := oz
    worldFiles := wfile
    hidden := []
    regions := [] }

/-- The read `chunks[i]` of a slot. -/
def Chunks.at (g : Chunks) (i : Nat) : Option Chunk := g.chunks.getD i none

/-- `Chunks::get(x, y, z)`: the voxel at a world coordinate, `none` for the null
pointer. -/
def Chunks.get (K : Constants) (g : Chunks) (x y z : Int) : Option voxel :=
  let x := x - g.ox * K.CHUNK_W
  let z := z - g.oz * K.CHUNK_D
  let cx := floordiv x K.CHUNK_W
  let cy := floordiv y K.CHUNK_H
  let cz := floordiv z K.CHUNK_D
  if cx < 0 ∨ cy < 0 ∨ cz < 0 ∨ cx ≥ (g.w : Int) ∨ cy ≥ 1 ∨ cz ≥ (g.d : Int) then none
  else
    match g.at (cz * g.w + cx).toNat with
    | none => none
    | some chunk =>
      let lx := x - cx * K.CHUNK_W
      let ly := y - cy * K.CHUNK_H
      let lz := z - cz * K.CHUNK_D
      some (chunk.voxels.getD (voxIndex K lx ly lz) ⟨0, 0⟩)

/-- `Chunks::isSolidBlock`. -/
def Chunks.isSolidBlock (K : Constants) (content : ContentIndices) (g : Chunks)
    (x y z : Int) : Bool :=
  match g.get K x y z with
  | none => false
  | some v => (content.getBlockDef v.id).solid

/-- `Chunks::isReplaceableBlock`. -/
def Chunks.isReplaceableBlock (K : Constants) (content : ContentIndices) (g : Chunks)
    (x y z : Int) : Bool :=
  match g.get K x y z with
  | none => false
  | some v => (content.getBlockDef v.id).replaceable

/-- `Chunks::isObstacleBlock`. -/
def Chunks.isObstacleBlock (K : Constants) (content : ContentIndices) (g : Chunks)
    (x y z : Int) : Bool :=
  match g.get K x y z with
  | none => false
  | some v => (content.getBlockDef v.id).obstacle

/-- `Chunks::getLight(x, y, z, channel)`. -/
def Chunks.getLightChannel (K : Constants) (g : Chunks) (x y z : Int) (channel : Nat) : Nat :=
  let x := x - g.ox * K.CHUNK_W
  let z := z - g.oz * K.CHUNK_D
  let cx := floordiv x K.CHUNK_W
  let cy := floordiv y K.CHUNK_H
  let cz := floordiv z K.CHUNK_D
  if cx < 0 ∨ cy < 0 ∨ cz < 0 ∨ cx ≥ (g.w : Int) ∨ cy ≥ 1 ∨ cz ≥ (g.d : Int) then 0
  else
    match g.at ((cy * g.d + cz) * g.w + cx).toNat with
    | none => 0
    | some chunk =>
      let lx := x - cx * K.CHUNK_W
      let ly := y - cy * K.CHUNK_H
      let lz := z - cz * K.CHUNK_D
      chunk.lightChannel K lx ly lz channel

/-- `Chunks::getLight(x, y, z)`. -/
def Chunks.getLight (K : Constants) (g : Chunks) (x y z : Int) : Nat :=
  let x := x - g.ox * K.CHUNK_W
  let z := z - g.oz * K.CHUNK_D
  let cx := floordiv x K.CHUNK_W
  let cy := floordiv y K.CHUNK_H
  let cz := floordiv z K.CHUNK_D
  if cx < 0 ∨ cy < 0 ∨ cz < 0 ∨ cx ≥ (g.w : Int) ∨ cy ≥ 1 ∨ cz ≥ (g.d : Int) then 0
  else
    match g.at ((cy * g.d + cz) * g.w + cx).toNat with
    | none => 0
    | some chunk =>
      let lx := x - cx * K.CHUNK_W
      let ly := y - cy * K.CHUNK_H
      let lz := z - cz * K.CHUNK_D
      chunk.light K lx ly lz

/-- `Chunks::getChunk(x, z)`: the column at a world column coordinate. -/
def Chunks.getChunk (g : Chunks) (x z : Int) : Option Chunk :=
  let x := x - g.ox
  let z := z - g.oz
  if x < 0 ∨ z < 0 ∨ x ≥ (g.w : Int) ∨ z ≥ (g.d : Int) then none
  else g.at (z * g.w + x).toNat

/-- The statement `if (cond && (chunk = getChunk(x, z))) chunk->setModified(true)`
of `Chunks::set`. -/
def Chunks.touchNeighbour (g : Chunks) (cond : Bool) (x z : Int) : Chunks :=
  if cond then
    match g.getChunk x z with
    | none => g
    | some chunk =>
      { g with chunks := g.chunks.set ((z - g.oz) * g.w + (x - g.ox)).toNat
                  (some (chunk.setModified true)) }
  else g

/-- The update of the occupied range in `Chunks::set`: lower `bottom`, else raise
`top`, else rescan when air was written. -/
def Chunk.setHeights (K : Constants) (chunk : Chunk) (y : Int) (id : Nat) : Chunk :=
  if y < chunk.bottom then { chunk with bottom := y }
  else if y + 1 > chunk.top then { chunk with top := y + 1 }
  else if id = 0 then chunk.updateHeights K
  else chunk

/-- The writes `Chunks::set` makes to the addressed column, up to the update of
the occupied range. -/
def Chunk.write (K : Constants) (content : ContentIndices) (chunk : Chunk)
    (lx y lz : Int) (id states : Nat) : Chunk :=
  let vox := chunk.voxels.getD (voxIndex K lx y lz) ⟨0, 0⟩
  let def_ := content.getBlockDef vox.id
  let chunk := if def_.inventorySize = 0 then chunk.removeBlockInventory K lx y lz else chunk
  let chunk := { chunk with voxels := chunk.voxels.set (voxIndex K lx y lz) ⟨id, states⟩ }
  let chunk := chunk.setUnsaved true
  let chunk := chunk.setModified true
  chunk.setHeights K y id

/-- `Chunks::set(x, y, z, id, states)`. -/
def Chunks.set (K : Constants) (content : ContentIndices) (g : Chunks)
    (x y z : Int) (id states : Nat) : Chunks :=
  if y < 0 ∨ y ≥ K.CHUNK_H then g
  else
    let x := x - g.ox * K.CHUNK_W
    let z := z - g.oz * K.CHUNK_D
    let cx := floordiv x K.CHUNK_W
    let cz := floordiv z K.CHUNK_D
    if cx < 0 ∨ cz < 0 ∨ cx ≥ (g.w : Int) ∨ cz ≥ (g.d : Int) then g
    else
      match g.at (cz * g.w + cx).toNat with
      | none => g
      | some chunk =>
        let lx := x - cx * K.CHUNK_W
        let lz := z - cz * K.CHUNK_D
        let g := { g with chunks := g.chunks.set (cz * g.w + cx).toNat
                            (some (chunk.write K content lx y lz id states)) }
        let g := g.touchNeighbour (lx = 0) (cx + g.ox - 1) (cz + g.oz)
        let g := g.touchNeighbour (lz = 0) (cx + g.ox) (cz + g.oz - 1)
        let g := g.touchNeighbour (lx = K.CHUNK_W - 1) (cx + g.ox + 1) (cz + g.oz)
        g.touchNeighbour (lz = K.CHUNK_D - 1) (cx + g.ox) (cz + g.oz + 1)

/-- The body of the double loop of `Chunks::translate` for the slot `(x, z)`. -/
def Chunks.translateSlot (g : Chunks) (dx dz : Int) (z x : Nat) : Chunks :=
  let nx : Int := (x : Int) - dx
  let nz : Int := (z : Int) - dz
  match g.at (z * g.w + x) with
  | none => g
  | some chunk =>
    if nx < 0 ∨ nz < 0 ∨ nx ≥ (g.w : Int) ∨ nz ≥ (g.d : Int) then
      { g with
        hidden := g.hidden ++ [chunk]
        regions := if g.worldFiles.isSome then g.regions ++ [chunk] else g.regions
        chunksCount := g.chunksCount - 1 }
    else
      { g with chunksSecond := g.chunksSecond.set (nz * g.w + nx).toNat (some chunk) }

/-- `Chunks::translate(dx, dz)`: clear the scratch array, sweep the slots, swap
the arrays and advance the origin. -/
def Chunks.translate (g : Chunks) (dx dz : Int) : Chunks :=
  let g0 := { g with chunksSecond :=
    (List.range g.volume).foldl (fun l i => l.set i none) g.chunksSecond }
  let g1 := (List.range g.d).foldl
    (fun acc z => (List.range g.w).foldl (fun acc x => acc.translateSlot dx dz z x) acc) g0
  { g1 with
    chunks := g1.chunksSecond
    chunksSecond := g1.chunks
    ox := g1.ox + dx
    oz := g1.oz + dz }

/-- `Chunks::setCenter(x, z)`.  The test `cx | cz` is nonzero exactly when one of
the two deltas is. -/
def Chunks.setCenter (K : Constants) (g : Chunks) (x z : Int) : Chunks :=
  let cx := floordiv x K.CHUNK_W
  let cz := floordiv z K.CHUNK_D
  let cx := cx - (g.ox + ((g.w / 2 : Nat) : Int))
  let cz := cz - (g.oz + ((g.d / 2 : Nat) : Int))
  if cx ≠ 0 ∨ cz ≠ 0 then g.translate cx cz else g

/-- The copy loop of `Chunks::resize` into the fresh array `newChunks`. -/
def Chunks.resizeCopy (g : Chunks) (newW newD : Nat) : List (Option Chunk) :=
  (List.range (min g.d newD)).foldl
    (fun l z => (List.range (min g.w newW)).foldl
      (fun l x => l.set (z * newW + x) (g.at (z * g.w + x))) l)
    (List.replicate (newW * newD) none)

/-- The first block of `Chunks::resize`: when the width shrinks, the three calls
of `translate` along `x`. -/
def Chunks.shrinkW (g : Chunks) (newW : Nat) : Chunks :=
  if newW < g.w then
    let delta : Int := (g.w : Int) - (newW : Int)
    ((g.translate (Int.tdiv delta 2) 0).translate (-delta) 0).translate delta 0
  else g

/-- The second block of `Chunks::resize`: when the depth shrinks, the three calls
of `translate` along `z`. -/
def Chunks.shrinkD (g : Chunks) (newD : Nat) : Chunks :=
  if newD < g.d then
    let delta : Int := (g.d : Int) - (newD : Int)
    ((g.translate 0 (Int.tdiv delta 2)).translate 0 (-delta)).translate 0 delta
  else g

/-- The last block of `Chunks::resize`: allocate the arrays of the new size, copy
the overlapping rectangle and install them. -/
def Chunks.reallocate (g : Chunks) (newW newD : Nat) : Chunks :=
  { g with
    chunks := g.resizeCopy newW newD
    chunksSecond := List.replicate (newW * newD) none
    w := newW
    d := newD
    volume := newW * newD }

/-- `Chunks::resize(newW, newD)`. -/
def Chunks.resize (g : Chunks) (newW newD : Nat) : Chunks :=
  ((g.shrinkW newW).shrinkD newD).reallocate newW newD

/-- `Chunks::putChunk(chunk)`; the boolean is the returned value. -/
def Chunks.putChunk (g : Chunks) (chunk : Chunk) : Bool × Chunks :=
  let x := chunk.x - g.ox
  let z := chunk.z - g.oz
  if x < 0 ∨ z < 0 ∨ x ≥ (g.w : Int) ∨ z ≥ (g.d : Int) then (false, g)
  else
    (true, { g with
      chunks := g.chunks.set (z * g.w + x).toNat (some chunk)
      chunksCount := g.chunksCount + 1 })

/-- The body of the loop of `Chunks::saveAndClear` for slot `i`.  Binding the
reference `regions` reads nothing; the store is consulted by
`worldFiles->doesWriteLights()` and by `regions.put`, and the result is `none`
when that happens through a null `worldFiles`. -/
def Chunks.saveSlot (g : Chunks) (i : Nat) : Option Chunks :=
  let chunk := g.at i
  let g := { g with chunks := g.chunks.set i none }
  match chunk with
  | none => some g
  | some chunk =>
    if !chunk.lighted then some g
    else
      match g.worldFiles with
      | none => if chunk.loadedLights && !chunk.unsaved then some g else none
      | some wf =>
        let lightsUnsaved := !chunk.loadedLights && wf.doesWriteLights
        if !chunk.unsaved && !lightsUnsaved then some g
        else some { g with regions := g.regions ++ [chunk] }

/-- `Chunks::saveAndClear()`. -/
def Chunks.saveAndClear (g : Chunks) : Option Chunks :=
  ((List.range g.volume).foldlM (fun (g : Chunks) i => g.saveSlot i) g).map
    (fun (g : Chunks) => { g with chunksCount := 0 })

/-! ## Predicates used by the statements -/

/-- Every column held by the grid has a voxel array of
`CHUNK_W * CHUNK_H * CHUNK_D` entries (in the source the array has that fixed
size). -/
def Chunks.ColumnsSized (K : Constants) (g : Chunks) : Prop :=
  ∀ i c, g.at i = some c → c.voxels.length = (K.CHUNK_W * K.CHUNK_H * K.CHUNK_D).toNat

/-- The world column `(cx, cz)` lies outside the window of the grid. -/
def Chunks.outsideWindow (g : Chunks) (cx cz : Int) : Prop :=
  cx - g.ox < 0 ∨ cz - g.oz < 0 ∨ cx - g.ox ≥ (g.w : Int) ∨ cz - g.oz ≥ (g.d : Int)

instance (g : Chunks) (cx cz : Int) : Decidable (g.outsideWindow cx cz) := by
  unfold Chunks.outsideWindow; infer_instance

/-- The slot index of the world column `(cx, cz)`. -/
def Chunks.slotOf (g : Chunks) (cx cz : Int) : Nat :=
  ((cz - g.oz) * g.w + (cx - g.ox)).toNat

/-- The slots `(z, x)` in the order of the loops `for z < d`, `for x < w`. -/
def slotPairs (w d : Nat) : List (Nat × Nat) := List.range d ×ˢ List.range w

/-- A sequence of array writes `l[i] = v`, first write first. -/
def applyWrites (l : List (Option Chunk)) (ws : List (Nat × Option Chunk)) :
    List (Option Chunk) :=
  ws.foldl (fun l iv => l.set iv.1 iv.2) l

/-- The eviction test of `translate` for the slot `p = (z, x)`: the new slot
`(x - dx, z - dz)` is outside `[0, w) x [0, d)`. -/
def Chunks.leaves (g : Chunks) (dx dz : Int) (p : Nat × Nat) : Prop :=
  (p.2 : Int) - dx < 0 ∨ (p.1 : Int) - dz < 0 ∨ (p.2 : Int) - dx ≥ (g.w : Int) ∨
    (p.1 : Int) - dz ≥ (g.d : Int)

instance (g : Chunks) (dx dz : Int) (p : Nat × Nat) : Decidable (g.leaves dx dz p) := by
  unfold Chunks.leaves; infer_instance

/-- The column that the sweep of `translate` evicts at slot `p`, if any. -/
def Chunks.evictedAt (g : Chunks) (dx dz : Int) (p : Nat × Nat) : Option Chunk :=
  match g.at (p.1 * g.w + p.2) with
  | none => none
  | some c => if g.leaves dx dz p then some c else none

/-- The write into the scratch array that the sweep of `translate` makes at slot
`p`, if any. -/
def Chunks.movedAt (g : Chunks) (dx dz : Int) (p : Nat × Nat) : Option (Nat × Option Chunk) :=
  match g.at (p.1 * g.w + p.2) with
  | none => none
  | some c =>
    if g.leaves dx dz p then none
    else some ((((p.1 : Int) - dz) * g.w + ((p.2 : Int) - dx)).toNat, some c)

/-- The columns evicted by `translate(dx, dz)`, in the order of the sweep. -/
def Chunks.evicted (g : Chunks) (dx dz : Int) : List Chunk :=
  (slotPairs g.w g.d).filterMap (g.evictedAt dx dz)

/-- The arrays of the grid have `w * d` entries and `volume` is `w * d`, as the
constructor and `resize` establish. -/
def Chunks.Sized (g : Chunks) : Prop :=
  g.chunks.length = g.w * g.d ∧ g.chunksSecond.length = g.w * g.d ∧ g.volume = g.w * g.d

/-- The slot-identity invariant: the column in slot `(x, z)` has the coordinates
`(x + ox, z + oz)`. -/
def Chunks.SlotIdentity (g : Chunks) : Prop :=
  ∀ x z : Nat, x < g.w → z < g.d → ∀ c, g.at (z * g.w + x) = some c →
    c.x = (x : Int) + g.ox ∧ c.z = (z : Int) + g.oz

/-- The number of columns by which `resize` moves the origin along a dimension
that shrinks from `old` to `new`: half the difference, rounded down. -/
def shrinkOffset (old new : Nat) : Nat :=
  if new < old then (old - new) / 2 else 0

/-- The world column `(X, Z)` lies in the window of origin `(ox, oz)` and size
`w x d`. -/
def inWindow (ox oz : Int) (w d : Nat) (X Z : Int) : Prop :=
  0 ≤ X - ox ∧ X - ox < (w : Int) ∧ 0 ≤ Z - oz ∧ Z - oz < (d : Int)

/-- The grid `r` shows the columns of `g` at the world coordinates satisfying `P`
and nothing elsewhere, and on the way from `g` to `r` every live column of `g`
outside `P` was notified as hidden exactly once and no other column was. -/
def Refocus (g r : Chunks) (P : Int → Int → Prop) : Prop :=
  r.Sized ∧ r.SlotIdentity ∧ r.worldFiles = g.worldFiles ∧
  (∀ X Z, P X Z → r.getChunk X Z = g.getChunk X Z) ∧
  (∀ X Z, ¬ P X Z → r.getChunk X Z = none) ∧
  (∀ c, g.getChunk c.x c.z = some c → ¬ P c.x c.z →
    r.hidden.count c = g.hidden.count c + 1) ∧
  (∀ c, ¬ (g.getChunk c.x c.z = some c ∧ ¬ P c.x c.z) →
    r.hidden.count c = g.hidden.count c)

/-- The grid `r` has the size, origin and array lengths of `g`, and every column
of `r` sits in a slot where `g` holds a column with the same coordinates. -/
def Chunks.Keeps (g r : Chunks) : Prop :=
  r.w = g.w ∧ r.d = g.d ∧ r.ox = g.ox ∧ r.oz = g.oz ∧
  r.chunks.length = g.chunks.length ∧ r.chunksSecond.length = g.chunksSecond.length ∧
  r.volume = g.volume ∧
  ∀ j c', r.at j = some c' → ∃ c, g.at j = some c ∧ c'.x = c.x ∧ c'.z = c.z

/-- The states reachable from a freshly constructed grid by `putChunk`, `set`,
`setCenter`, `translate`, `resize` and `saveAndClear`. -/
inductive Reachable (K : Constants) (content : ContentIndices) : Chunks → Prop
  | fresh (w d : Nat) (ox oz : Int) (wfile : Option WorldFiles) :
      Reachable K content (Chunks.new w d ox oz wfile)
  | putChunk (g : Chunks) (chunk : Chunk) :
      Reachable K content g → Reachable K content (g.putChunk chunk).2
  | set (g : Chunks) (x y z : Int) (id states : Nat) :
      Reachable K content g → Reachable K content (g.set K content x y z id states)
  | setCenter (g : Chunks) (x z : Int) :
      Reachable K content g → Reachable K content (g.setCenter K x z)
  | translate (g : Chunks) (dx dz : Int) :
      Reachable K content g → Reachable K content (g.translate dx dz)
  | resize (g : Chunks) (newW newD : Nat) :
      Reachable K content g → Reachable K content (g.resize newW newD)
  | saveAndClear (g g' : Chunks) :
      Reachable K content g → g.saveAndClear = some g' → Reachable K content g'

/-! ## Ray casting

The `float` arithmetic of the ray casts is taken exactly.  The start, the
direction and `maxDist` are rational.  The variables `t`, `t?Max` and
`t?Delta` only ever hold a rational or `+infinity` (`RayT`); the coordinates
written to `end` are computed as `p + t * d`, which for an infinite `t` is an
infinity or, for `d = 0`, not a number (`ExFloat`). -/

/-- A `float` holding a ray parameter: a rational or `+infinity`. -/
inductive RayT where
  | fin (q : ℚ)
  | inf
deriving DecidableEq, Repr

/-- The comparison `a < b` of two ray parameters. -/
def RayT.lt : RayT → RayT → Bool
  | .fin a, .fin b => decide (a < b)
  | .fin _, .inf => true
  | .inf, _ => false

/-- The comparison `a <= b` of two ray parameters. -/
def RayT.le : RayT → RayT → Bool
  | .fin a, .fin b => decide (a ≤ b)
  | _, .inf => true
  | .inf, .fin _ => false

/-- The sum `a + b` of two ray parameters. -/
def RayT.add : RayT → RayT → RayT
  | .fin a, .fin b => .fin (a + b)
  | .fin _, .inf => .inf
  | .inf, _ => .inf

/-- A `float` result: a rational, an infinity or not a number. -/
inductive ExFloat where
  | fin (q : ℚ)
  | posInf
  | negInf
  | nan
deriving DecidableEq, Repr

/-- The expression `p + t * d` for rational `p`, `d` and a ray parameter `t`. -/
def RayT.along (p : ℚ) (t : RayT) (d : ℚ) : ExFloat :=
  match t with
  | .fin τ => .fin (p + τ * d)
  | .inf => if d = 0 then .nan else if 0 < d then .posInf else .negInf

/-- A `glm::vec3` of results. -/
structure EVec3 where
  x : ExFloat
  y : ExFloat
  z : ExFloat
deriving DecidableEq, Repr

/-- The expression `start + dir * glm::vec3(distance)`. -/
def Vec3.advance (start dir : Vec3) (distance : ℚ) : EVec3 :=
  ⟨.fin (start.x + dir.x * distance), .fin (start.y + dir.y * distance),
    .fin (start.z + dir.z * distance)⟩

/-- The helpers of headers that are not among the sources, taken as parameters:
`voxel::rotation()`, `AABB::contains` and `Ray::intersectAABB`.  The last one
gets the ray's start and direction, the cell, the box and `maxDist`, and yields
the normal and the distance it writes when its result is above
`RayRelation::None`, and `none` otherwise. -/
structure Externals where
  rotation : voxel → Nat
  contains : AABB → Vec3 → Bool
  intersectAABB : Vec3 → Vec3 → IVec3 → AABB → ℚ → Option (IVec3 × ℚ)

/-- The result of `isObstacleAt`: the null pointer, the address of the function's
static `empty` box, or the address of a hitbox of the registry. -/
inductive BoxRef where
  | null
  | empty
  | box (b : AABB)
deriving DecidableEq, Repr

/-- `Chunks::isObstacleAt(x, y, z)`. -/
def Chunks.isObstacleAt (K : Constants) (content : ContentIndices) (ext : Externals)
    (g : Chunks) (x y z : ℚ) : BoxRef :=
  let ix : Int := ⌊x⌋
  let iy : Int := ⌊y⌋
  let iz : Int := ⌊z⌋
  match g.get K ix iy iz with
  | none => if iy ≥ K.CHUNK_H then .null else .empty
  | some v =>
    let def_ := content.getBlockDef v.id
    if def_.obstacle then
      let boxes := if def_.rotatable then def_.rtHitboxes.getD (ext.rotation v) [] else def_.hitboxes
      match boxes.find? (fun hitbox => ext.contains hitbox ⟨x - ix, y - iy, z - iz⟩) with
      | some hitbox => .box hitbox
      | none => .null
    else .null

/-- The locals of a ray cast that are fixed before the loop. -/
structure RayConsts where
  px : ℚ
  py : ℚ
  pz : ℚ
  dx : ℚ
  dy : ℚ
  dz : ℚ
  stepx : Int
  stepy : Int
  stepz : Int
  txDelta : RayT
  tyDelta : RayT
  tzDelta : RayT
deriving DecidableEq, Repr

/-- The locals of `rayCast` that change in the loop, together with the three
reference parameters `end`, `norm`, `iend`. -/
structure RayState where
  t : RayT
  ix : Int
  iy : Int
  iz : Int
  txMax : RayT
  tyMax : RayT
  tzMax : RayT
  steppedIndex : Int
  endp : EVec3
  norm : IVec3
  iend : IVec3
deriving DecidableEq, Repr

/-- What `rayCast` hands back: the returned pointer and the reference parameters
`end`, `norm`, `iend` as it leaves them. -/
structure RayResult where
  voxel : Option voxel
  endp : EVec3
  norm : IVec3
  iend : IVec3
deriving DecidableEq, Repr

/-- One pass through the loop of `rayCast`: it returns, or it goes on. -/
inductive RayStep where
  | done (r : RayResult)
  | next (s : RayState)
deriving DecidableEq, Repr

/-- Lines 198 to 219 of `rayCast`. -/
def rayCastConsts (start dir : Vec3) : RayConsts :=
  { px := start.x
    py := start.y
    pz := start.z
    dx := dir.x
    dy := dir.y
    dz := dir.z
    stepx := if dir.x > 0 then 1 else -1
    stepy := if dir.y > 0 then 1 else -1
    stepz := if dir.z > 0 then 1 else -1
    txDelta := if dir.x = 0 then .inf else .fin |1 / dir.x|
    tyDelta := if dir.y = 0 then .inf else .fin |1 / dir.y|
    tzDelta := if dir.z = 0 then .inf else .fin |1 / dir.z| }

/-- The initial `t?Max` of an axis: `(delta < infinity) ? delta * dist : infinity`. -/
def RayT.firstMax (delta : RayT) (dist : ℚ) : RayT :=
  match delta with
  | .fin a => .fin (a * dist)
  | .inf => .inf

/-- Lines 206 to 229 of `rayCast`: the state in which the loop is entered. -/
def rayCastInit (start dir : Vec3) (end0 : EVec3) (norm0 iend0 : IVec3) : RayState :=
  let c := rayCastConsts start dir
  let ix : Int := ⌊c.px⌋
  let iy : Int := ⌊c.py⌋
  let iz : Int := ⌊c.pz⌋
  let xdist : ℚ := if c.stepx > 0 then (ix : ℚ) + 1 - c.px else c.px - (ix : ℚ)
  let ydist : ℚ := if c.stepy > 0 then (iy : ℚ) + 1 - c.py else c.py - (iy : ℚ)
  let zdist : ℚ := if c.stepz > 0 then (iz : ℚ) + 1 - c.pz else c.pz - (iz : ℚ)
  { t := .fin 0
    ix := ix
    iy := iy
    iz := iz
    txMax := c.txDelta.firstMax xdist
    tyMax := c.tyDelta.firstMax ydist
    tzMax := c.tzDelta.firstMax zdist
    steppedIndex := -1
    endp := end0
    norm := norm0
    iend := iend0 }

/-- Lines 278 to 302 of `rayCast`: the step to the next cell. -/
def rayCastAdvance (c : RayConsts) (s : RayState) : RayState :=
  if s.txMax.lt s.tyMax then
    if s.txMax.lt s.tzMax then
      { s with ix := s.ix + c.stepx, t := s.txMax, txMax := s.txMax.add c.txDelta,
               steppedIndex := 0 }
    else
      { s with iz := s.iz + c.stepz, t := s.tzMax, tzMax := s.tzMax.add c.tzDelta,
               steppedIndex := 2 }
  else
    if s.tyMax.lt s.tzMax then
      { s with iy := s.iy + c.stepy, t := s.tyMax, tyMax := s.tyMax.add c.tyDelta,
               steppedIndex := 1 }
    else
      { s with iz := s.iz + c.stepz, t := s.tzMax, tzMax := s.tzMax.add c.tzDelta,
               steppedIndex := 2 }

/-- The locals of the hitbox loop of `rayCast` together with `norm` and `end`. -/
structure HitScan where
  hit : Bool
  distance : ℚ
  norm : IVec3
  endp : EVec3
deriving DecidableEq, Repr

/-- The body of the hitbox loop of `rayCast` (lines 254 to 263). -/
def rayCastScanBox (ext : Externals) (start dir : Vec3) (iend : IVec3) (maxDist : ℚ)
    (acc : HitScan) (box : AABB) : HitScan :=
  match ext.intersectAABB start dir iend box maxDist with
  | some (boxNorm, boxDistance) =>
    if boxDistance < acc.distance then
      { hit := true, distance := boxDistance, norm := boxNorm,
        endp := start.advance dir boxDistance }
    else acc
  | none => acc

/-- The body of the loop of `rayCast` (lines 232 to 302). -/
def Chunks.rayCastBody (K : Constants) (content : ContentIndices) (ext : Externals)
    (g : Chunks) (start dir : Vec3) (maxDist : ℚ) (s : RayState) : RayStep :=
  let c := rayCastConsts start dir
  match g.get K s.ix s.iy s.iz with
  | none => .done ⟨none, s.endp, s.norm, s.iend⟩
  | some voxel =>
    let def_ := content.getBlockDef voxel.id
    if def_.selectable then
      let s := { s with
        endp := ⟨RayT.along c.px s.t c.dx, RayT.along c.py s.t c.dy, RayT.along c.pz s.t c.dz⟩
        iend := ⟨s.ix, s.iy, s.iz⟩ }
      if !def_.solid then
        let hitboxes :=
          if def_.rotatable then def_.rtHitboxes.getD (ext.rotation voxel) [] else def_.hitboxes
        let scan := hitboxes.foldl (rayCastScanBox ext start dir s.iend maxDist)
          ⟨false, maxDist, s.norm, s.endp⟩
        if scan.hit then .done ⟨some voxel, scan.endp, scan.norm, s.iend⟩
        else .next (rayCastAdvance c { s with norm := scan.norm, endp := scan.endp })
      else
        let norm : IVec3 := ⟨0, 0, 0⟩
        let norm := if s.steppedIndex = (0 : Int) then { norm with x := -c.stepx } else norm
        let norm := if s.steppedIndex = (1 : Int) then { norm with y := -c.stepy } else norm
        let norm := if s.steppedIndex = (2 : Int) then { norm with z := -c.stepz } else norm
        .done ⟨some voxel, s.endp, norm, ⟨s.ix, s.iy, s.iz⟩⟩
    else .next (rayCastAdvance c s)

/-- The loop of `rayCast` and the lines after it, run for at most `fuel` passes;
`none` when the passes do not suffice. -/
def Chunks.rayCastLoop (K : Constants) (content : ContentIndices) (ext : Externals)
    (g : Chunks) (start dir : Vec3) (maxDist : ℚ) : Nat → RayState → Option RayResult
  | 0, _ => none
  | fuel + 1, s =>
    if s.t.le (.fin maxDist) then
      match g.rayCastBody K content ext start dir maxDist s with
      | .done r => some r
      | .next s' => Chunks.rayCastLoop K content ext g start dir maxDist fuel s'
    else
      let c := rayCastConsts start dir
      some ⟨none, ⟨RayT.along c.px s.t c.dx, RayT.along c.py s.t c.dy, RayT.along c.pz s.t c.dz⟩,
        ⟨0, 0, 0⟩, ⟨s.ix, s.iy, s.iz⟩⟩

/-- `Chunks::rayCast(start, dir, maxDist, end, norm, iend)`, run for at most `fuel`
passes of its loop.  `end0`, `norm0`, `iend0` are the values the reference
parameters hold at the call. -/
def Chunks.rayCast (K : Constants) (content : ContentIndices) (ext : Externals)
    (g : Chunks) (fuel : Nat) (start dir : Vec3) (maxDist : ℚ)
    (end0 : EVec3) (norm0 iend0 : IVec3) : Option RayResult :=
  g.rayCastLoop K content ext start dir maxDist fuel (rayCastInit start dir end0 norm0 iend0)

/-- The locals of `rayCastToObstacle` that change in the loop. -/
structure ObstState where
  t : RayT
  ix : Int
  iy : Int
  iz : Int
  txMax : RayT
  tyMax : RayT
  tzMax : RayT
deriving DecidableEq, Repr

/-- One pass through the loop of `rayCastToObstacle`. -/
inductive ObstStep where
  | done (r : EVec3)
  | next (s : ObstState)
deriving DecidableEq, Repr

/-- Lines 316 to 337 of `rayCastToObstacle`. -/
def obstacleConsts (start dir : Vec3) : RayConsts :=
  { px := start.x
    py := start.y
    pz := start.z
    dx := dir.x
    dy := dir.y
    dz := dir.z
    stepx := if dir.x > 0 then 1 else -1
    stepy := if dir.y > 0 then 1 else -1
    stepz := if dir.z > 0 then 1 else -1
    txDelta := if dir.x = 0 then .inf else .fin |1 / dir.x|
    tyDelta := if dir.y = 0 then .inf else .fin |1 / dir.y|
    tzDelta := if dir.z = 0 then .inf else .fin |1 / dir.z| }

/-- Lines 324 to 345 of `rayCastToObstacle`: the state in which the loop is
entered. -/
def obstacleInit (start dir : Vec3) : ObstState :=
  let c := obstacleConsts start dir
  let ix : Int := ⌊c.px⌋
  let iy : Int := ⌊c.py⌋
  let iz : Int := ⌊c.pz⌋
  let xdist : ℚ := if c.stepx > 0 then (ix : ℚ) + 1 - c.px else c.px - (ix : ℚ)
  let ydist : ℚ := if c.stepy > 0 then (iy : ℚ) + 1 - c.py else c.py - (iy : ℚ)
  let zdist : ℚ := if c.stepz > 0 then (iz : ℚ) + 1 - c.pz else c.pz - (iz : ℚ)
  { t := .fin 0
    ix := ix
    iy := iy
    iz := iz
    txMax := c.txDelta.firstMax xdist
    tyMax := c.tyDelta.firstMax ydist
    tzMax := c.tzDelta.firstMax zdist }

/-- Lines 373 to 396 of `rayCastToObstacle`: the step to the next cell. -/
def obstacleAdvance (c : RayConsts) (s : ObstState) : ObstState :=
  if s.txMax.lt s.tyMax then
    if s.txMax.lt s.tzMax then
      { s with ix := s.ix + c.stepx, t := s.txMax, txMax := s.txMax.add c.txDelta }
    else
      { s with iz := s.iz + c.stepz, t := s.tzMax, tzMax := s.tzMax.add c.tzDelta }
  else
    if s.tyMax.lt s.tzMax then
      { s with iy := s.iy + c.stepy, t := s.tyMax, tyMax := s.tyMax.add c.tyDelta }
    else
      { s with iz := s.iz + c.stepz, t := s.tzMax, tzMax := s.tzMax.add c.tzDelta }

/-- The body of the loop of `rayCastToObstacle` (lines 348 to 396). -/
def Chunks.obstacleBody (K : Constants) (content : ContentIndices) (ext : Externals)
    (g : Chunks) (start dir : Vec3) (maxDist : ℚ) (s : ObstState) : ObstStep :=
  let c := obstacleConsts start dir
  let here : EVec3 :=
    ⟨RayT.along c.px s.t c.dx, RayT.along c.py s.t c.dy, RayT.along c.pz s.t c.dz⟩
  match g.get K s.ix s.iy s.iz with
  | none => .done here
  | some voxel =>
    let def_ := content.getBlockDef voxel.id
    if def_.obstacle then
      if !def_.solid then
        let hitboxes :=
          if def_.rotatable then def_.rtHitboxes.getD (ext.rotation voxel) [] else def_.modelBoxes
        match hitboxes.findSome?
            (fun box => ext.intersectAABB start dir ⟨s.ix, s.iy, s.iz⟩ box maxDist) with
        | some (_, distance) => .done (start.advance dir distance)
        | none => .next (obstacleAdvance c s)
      else .done here
    else .next (obstacleAdvance c s)

/-- The loop of `rayCastToObstacle` and the line after it, run for at most `fuel`
passes; `none` when the passes do not suffice. -/
def Chunks.obstacleLoop (K : Constants) (content : ContentIndices) (ext : Externals)
    (g : Chunks) (start dir : Vec3) (maxDist : ℚ) : Nat → ObstState → Option EVec3
  | 0, _ => none
  | fuel + 1, s =>
    if s.t.le (.fin maxDist) then
      match g.obstacleBody K content ext start dir maxDist s with
      | .done r => some r
      | .next s' => Chunks.obstacleLoop K content ext g start dir maxDist fuel s'
    else
      let c := obstacleConsts start dir
      some ⟨.fin (c.px + maxDist * c.dx), .fin (c.py + maxDist * c.dy),
        .fin (c.pz + maxDist * c.dz)⟩

/-- `Chunks::rayCastToObstacle(start, dir, maxDist)`, run for at most `fuel`
passes of its loop. -/
def Chunks.rayCastToObstacle (K : Constants) (content : ContentIndices) (ext : Externals)
    (g : Chunks) (fuel : Nat) (start dir : Vec3) (maxDist : ℚ) : Option EVec3 :=
  g.obstacleLoop K content ext start dir maxDist fuel (obstacleInit start dir)

/-! ## A small grid for worked instances -/

/-- Columns of `2 x 2 x 2` voxels. -/
def sampleK : Constants := ⟨2, 2, 2⟩

/-- A registry in which every block is plain and carries no inventory. -/
def sampleContent : ContentIndices :=
  ⟨fun _ => ⟨false, false, false, false, false, 0, [], [], []⟩⟩

/-- An all-air column at the world column `(x, z)`, lighted and unsaved. -/
def sampleColumn (x z : Int) : Chunk :=
  { x := x
    z := z
    bottom := 0
    top := 0
    voxels := List.replicate 8 ⟨0, 0⟩
    lightmap := List.replicate 8 0
    inventories := []
    unsaved := true
    modified := false
    lighted := true
    loadedLights := false }

/-- A `2 x 1` window at the origin with a store attached and the column `(0, 0)`
loaded. -/
def sampleGrid : Chunks :=
  ((Chunks.new 2 1 0 0 (some ⟨true⟩)).putChunk (sampleColumn 0 0)).2

/-- The same window without a store. -/
def sampleGridNoStore : Chunks :=
  ((Chunks.new 2 1 0 0 none).putChunk (sampleColumn 0 0)).2

/-- A registry in which block `1` is a chest with an inventory of 27 slots and
every other block is plain. -/
def chestContent : ContentIndices :=
  ⟨fun id => ⟨false, false, false, false, false, if id = 1 then 27 else 0, [], [], []⟩⟩

/-- The column `(0, 0)` with a chest at the voxel `(0, 0, 0)` and its inventory
registered under the voxel index `0`. -/
def chestColumn : Chunk :=
  { sampleColumn 0 0 with
    voxels := ⟨1, 0⟩ :: List.replicate 7 ⟨0, 0⟩
    inventories := [(0, 42)]
    top := 1 }

/-- A `2 x 1` window at the origin holding the chest column. -/
def chestGrid : Chunks :=
  ((Chunks.new 2 1 0 0 none).putChunk chestColumn).2

/-- Columns of `1 x 3 x 1` voxels. -/
def towerK : Constants := ⟨1, 3, 1⟩

/-- A column of three voxels whose only block is at the level `2`, with the exact
bounds `[2, 3)`. -/
def towerColumn : Chunk :=
  { sampleColumn 0 0 with
    voxels := [⟨0, 0⟩, ⟨0, 0⟩, ⟨5, 0⟩]
    lightmap := [0, 0, 0]
    bottom := 2
    top := 3 }

/-- A `1 x 1` window holding the tower column. -/
def towerGrid : Chunks :=
  ((Chunks.new 1 1 0 0 none).putChunk towerColumn).2

/-- The column that `Chunks::set` hands to the update of the occupied range: the
voxel written, the inventory entry dealt with and both flags set. -/
def Chunk.stored (K : Constants) (content : ContentIndices) (chunk : Chunk)
    (lx y lz : Int) (id states : Nat) : Chunk :=
  let vox := chunk.voxels.getD (voxIndex K lx y lz) ⟨0, 0⟩
  let def_ := content.getBlockDef vox.id
  let chunk := if def_.inventorySize = 0 then chunk.removeBlockInventory K lx y lz else chunk
  let chunk := { chunk with voxels := chunk.voxels.set (voxIndex K lx y lz) ⟨id, states⟩ }
  let chunk := chunk.setUnsaved true
  chunk.setModified true

/-- The locals a pass of `rayCast` shares with a pass of `rayCastToObstacle`. -/
def RayState.toObst (s : RayState) : ObstState :=
  ⟨s.t, s.ix, s.iy, s.iz, s.txMax, s.tyMax, s.tzMax⟩

/-- Helpers of other headers that never report a rotation, a containment or an
intersection. -/
def sampleExt : Externals := ⟨fun _ => 0, fun _ _ => false, fun _ _ _ _ _ => none⟩

/-- The hitbox list `rayCast` and `isObstacleAt` select for a voxel. -/
def Block.selectedHitboxes (ext : Externals) (b : Block) (v : voxel) : List AABB :=
  if b.rotatable then b.rtHitboxes.getD (ext.rotation v) [] else b.hitboxes

/-- A registry in which every block but air is a fence: an obstacle that is
selectable, not solid and has no hitbox. -/
def fenceContent : ContentIndices :=
  ⟨fun id => ⟨id != 0, id != 0, false, false, false, 0, [], [], []⟩⟩

/-- A registry in which every block but air is a solid selectable obstacle. -/
def stoneContent : ContentIndices :=
  ⟨fun id => ⟨id != 0, id != 0, false, false, id != 0, 0, [], [], []⟩⟩

/-- The locals of `rayCast` after `n` steps to a next cell, when no pass in
between has written `end`, `norm` or `iend`. -/
def rayCastSteps (start dir : Vec3) (end0 : EVec3) (norm0 iend0 : IVec3) (n : Nat) : RayState :=
  (rayCastAdvance (rayCastConsts start dir))^[n] (rayCastInit start dir end0 norm0 iend0)

/-- The point `start + t * dir` as `rayCast` computes it. -/
def rayPoint (start dir : Vec3) (t : RayT) : EVec3 :=
  ⟨RayT.along start.x t dir.x, RayT.along start.y t dir.y, RayT.along start.z t dir.z⟩

/-- The cell the locals `ix`, `iy`, `iz` name. -/
def RayState.cell (s : RayState) : IVec3 := ⟨s.ix, s.iy, s.iz⟩

/-- The cell `(floor(px), floor(py), floor(pz))` in which a ray starts. -/
def Vec3.cell (p : Vec3) : IVec3 := ⟨⌊p.x⌋, ⌊p.y⌋, ⌊p.z⌋⟩

/-- The state of one axis between two passes: `t` is not above the axis's
`tMax`, which is infinite for a zero direction component and otherwise the
parameter at which the ray meets the next cell boundary of the axis. -/
def AxisInv (p d : ℚ) (i : Int) (tMax t : RayT) : Prop :=
  t.le tMax = true ∧
  ((d = 0 ∧ tMax = .inf) ∨
    (d ≠ 0 ∧ ∃ m : ℚ, tMax = .fin m ∧ p + m * d = (if 0 < d then (i : ℚ) + 1 else (i : ℚ))))

/-- The ray at the parameter `t` lies on the face through which a step along the
axis enters the cell `i`: the low face for a positive direction component, the
high face for a negative one. -/
def OnEntryFace (p d : ℚ) (i : Int) (t : RayT) : Prop :=
  d ≠ 0 ∧ ∃ τ : ℚ, t = .fin τ ∧ p + τ * d = (if 0 < d then (i : ℚ) else (i : ℚ) + 1)

/-- What holds of the locals of a ray cast after `n` steps. -/
def RayInv (start dir : Vec3) (n : Nat) (s : RayState) : Prop :=
  AxisInv start.x dir.x s.ix s.txMax s.t ∧
  AxisInv start.y dir.y s.iy s.tyMax s.t ∧
  AxisInv start.z dir.z s.iz s.tzMax s.t ∧
  0 ≤ (rayCastConsts start dir).stepx * (s.ix - ⌊start.x⌋) ∧
  0 ≤ (rayCastConsts start dir).stepy * (s.iy - ⌊start.y⌋) ∧
  0 ≤ (rayCastConsts start dir).stepz * (s.iz - ⌊start.z⌋) ∧
  (rayCastConsts start dir).stepx * (s.ix - ⌊start.x⌋) +
    (rayCastConsts start dir).stepy * (s.iy - ⌊start.y⌋) +
    (rayCastConsts start dir).stepz * (s.iz - ⌊start.z⌋) = n ∧
  ((n = 0 ∧ s.steppedIndex = -1 ∧ s.t = .fin 0) ∨
    (0 < n ∧ s.steppedIndex = 0 ∧ OnEntryFace start.x dir.x s.ix s.t) ∨
    (0 < n ∧ s.steppedIndex = 1 ∧ OnEntryFace start.y dir.y s.iy s.t) ∨
    (0 < n ∧ s.steppedIndex = 2 ∧ (s.t = .inf ∨ OnEntryFace start.z dir.z s.iz s.t)))

/-- An axis whose `tMax` exceeds `maxDist` after at most `N` more steps along
it: the `tMax` is infinite, or it is finite with a positive delta and
`maxDist < tMax + N * delta`. -/
def AxisBound (maxDist : ℚ) (tMax delta : RayT) (N : Nat) : Prop :=
  tMax = .inf ∨
    ∃ m e : ℚ, tMax = .fin m ∧ delta = .fin e ∧ 0 < e ∧ maxDist < m + (N : ℚ) * e

/-- The three axes exceed `maxDist` after at most `N` more steps in all. -/
def StepsBound (c : RayConsts) (maxDist : ℚ) (s : RayState) (N : Nat) : Prop :=
  ∃ Nx Ny Nz : Nat, Nx + Ny + Nz = N ∧ AxisBound maxDist s.txMax c.txDelta Nx ∧
    AxisBound maxDist s.tyMax c.tyDelta Ny ∧ AxisBound maxDist s.tzMax c.tzDelta Nz

/-- The `norm` that `rayCast` writes on a solid hit (lines 269 to 272): zero,
but for the component of the axis stepped last, which is minus that axis's step. -/
def hitNorm (c : RayConsts) (steppedIndex : Int) : IVec3 :=
  let norm : IVec3 := ⟨0, 0, 0⟩
  let norm := if steppedIndex = (0 : Int) then { norm with x := -c.stepx } else norm
  let norm := if steppedIndex = (1 : Int) then { norm with y := -c.stepy } else norm
  if steppedIndex = (2 : Int) then { norm with z := -c.stepz } else norm

/-- The coordinate of the face of the cell `c` that a ray with the direction
component `d` meets first: the low face for `d > 0`, the high face otherwise. -/
def nearFace (d : ℚ) (c : Int) : ℚ := if 0 < d then (c : ℚ) else (c : ℚ) + 1

/-- Every non-air voxel of the column lies in its occupied range `[bottom, top)`. -/
def Chunk.RangeCovers (K : Constants) (c : Chunk) : Prop :=
  ∀ i, i < c.voxels.length → (c.voxels.getD i ⟨0, 0⟩).id ≠ 0 →
    c.bottom ≤ levelOf K i ∧ levelOf K i < c.top

/-- The number of occupied slots `(x, z)` of the window. -/
def Chunks.occupied (g : Chunks) : Nat :=
  (slotPairs g.w g.d).countP (fun p => (g.at (p.1 * g.w + p.2)).isSome)

/-- No slot with `x >= newW` or `z >= newD` is occupied. -/
def Chunks.EmptyBeyond (g : Chunks) (newW newD : Nat) : Prop :=
  ∀ x z : Nat, x < g.w → z < g.d → (newW ≤ x ∨ newD ≤ z) → g.at (z * g.w + x) = none

theorem floordiv_eq_ediv (a b : Int) (hb : 0 < b) : floordiv a b = a / b := by
  unfold floordiv
  by_cases ha : 0 ≤ a
  · have h1 : ¬ (a < 0 ∧ Int.tmod a b ≠ 0) := by omega
    rw [if_neg h1, Int.tdiv_eq_ediv ha hb.le]
  · have hna : 0 ≤ -a := by omega
    have ht : Int.tdiv a b = -((-a) / b) := by
      have := Int.neg_tdiv (-a) b
      rw [neg_neg] at this
      rw [this, Int.tdiv_eq_ediv hna hb.le]
    have hq := Int.ediv_add_emod (-a) b
    have hr0 := Int.emod_nonneg (-a) hb.ne'
    have hr1 := Int.emod_lt_of_pos (-a) hb
    rw [Int.tmod_def, ht]
    generalize (-a) / b = q at *
    generalize (-a) % b = r at *
    have hbq : b * -q = -(b * q) := by ring
    rw [hbq]
    split_ifs with h
    · have e : (b - r) + b * (-q - 1) = a := by ring_nf; ring_nf at hq; omega
      exact ((Int.ediv_emod_unique (r := b - r) hb).2 ⟨e, by omega, by omega⟩).1.symm
    · have e : 0 + b * (-q) = a := by ring_nf; ring_nf at hq; omega
      exact ((Int.ediv_emod_unique (r := 0) hb).2 ⟨e, by omega, by omega⟩).1.symm

theorem floordiv_shift (x o b : Int) (hb : 0 < b) :
    floordiv (x - o * b) b = x / b - o := by
  rw [floordiv_eq_ediv _ _ hb]
  have := Int.add_mul_ediv_right x (-o) hb.ne'
  have e : x - o * b = x + -o * b := by ring
  rw [e, this]; ring

theorem local_shift (x o b : Int) : x - o * b - (x / b - o) * b = x % b := by
  have := Int.ediv_add_emod x b
  have e : x - o * b - (x / b - o) * b = x - b * (x / b) := by ring
  rw [e]; omega

theorem floordiv_height (y h : Int) (hh : 0 < h) :
    (floordiv y h < 0 ∨ floordiv y h ≥ 1) ↔ (y < 0 ∨ y ≥ h) := by
  rw [floordiv_eq_ediv _ _ hh]
  constructor
  · intro hc
    by_contra hn
    have : y / h = 0 := Int.ediv_eq_zero_of_lt (by omega) (by omega)
    omega
  · rintro (hy | hy)
    · left; exact Int.ediv_neg' hy hh
    · right; exact Int.le_ediv_of_mul_le hh (by omega)

theorem floordiv_height_zero (y h : Int) (hh : 0 < h) (h0 : 0 ≤ y) (h1 : y < h) :
    floordiv y h = 0 := by
  rw [floordiv_eq_ediv _ _ hh]; exact Int.ediv_eq_zero_of_lt h0 h1

theorem voxIndex_lt (K : Constants) (lx ly lz : Int)
    (hx0 : 0 ≤ lx) (hx1 : lx < K.CHUNK_W) (hy0 : 0 ≤ ly) (hy1 : ly < K.CHUNK_H)
    (hz0 : 0 ≤ lz) (hz1 : lz < K.CHUNK_D) :
    voxIndex K lx ly lz < (K.CHUNK_W * K.CHUNK_H * K.CHUNK_D).toNat := by
  unfold voxIndex
  have h1 : ly * K.CHUNK_D + lz + 1 ≤ K.CHUNK_H * K.CHUNK_D := by nlinarith
  have h2 : 0 ≤ ly * K.CHUNK_D + lz := by nlinarith
  have h3 : (ly * K.CHUNK_D + lz) * K.CHUNK_W + lx + 1 ≤ K.CHUNK_W * K.CHUNK_H * K.CHUNK_D := by
    nlinarith
  have h4 : 0 ≤ (ly * K.CHUNK_D + lz) * K.CHUNK_W + lx := by nlinarith
  omega

/-- What `get` computes, in terms of mathematical floor division and remainder. -/
theorem get_eq (K : Constants) (g : Chunks) (x y z : Int)
    (hW : 0 < K.CHUNK_W) (hH : 0 < K.CHUNK_H) (hD : 0 < K.CHUNK_D) :
    g.get K x y z =
      if y < 0 ∨ y ≥ K.CHUNK_H then none
      else if g.outsideWindow (x / K.CHUNK_W) (z / K.CHUNK_D) then none
      else match g.at (g.slotOf (x / K.CHUNK_W) (z / K.CHUNK_D)) with
        | none => none
        | some c => some (c.voxels.getD (voxIndex K (x % K.CHUNK_W) y (z % K.CHUNK_D)) ⟨0, 0⟩) := by
  simp only [Chunks.get, Chunks.outsideWindow, Chunks.slotOf]
  rw [floordiv_shift _ _ _ hW, floordiv_shift _ _ _ hD, local_shift, local_shift]
  by_cases hy : y < 0 ∨ y ≥ K.CHUNK_H
  · have hc := (floordiv_height y _ hH).2 hy
    rw [if_pos hy]
    split_ifs with h1
    · rfl
    · exact absurd hc (by tauto)
  · have hy0 : floordiv y K.CHUNK_H = 0 := floordiv_height_zero _ _ hH (by omega) (by omega)
    rw [if_neg hy, hy0]
    split_ifs with h1 h2 h2
    · rfl
    · omega
    · omega
    · simp

/-! ## Slot reads and writes -/

theorem getD_set_slot {α : Type} (l : List (Option α)) (i j : Nat) (v : Option α) :
    (l.set i v).getD j none = if i = j ∧ i < l.length then v else l.getD j none := by
  simp only [List.getD_eq_getElem?_getD, List.getElem?_set]
  by_cases hij : i = j
  · subst hij
    by_cases hi : i < l.length
    · simp [hi]
    · simp [hi, List.getElem?_eq_none (Nat.le_of_not_lt hi)]
  · simp [hij]

theorem at_lt_length (g : Chunks) (i : Nat) (c : Chunk) (h : g.at i = some c) :
    i < g.chunks.length := by
  by_contra hn
  simp [Chunks.at, List.getD_eq_getElem?_getD,
    List.getElem?_eq_none (Nat.le_of_not_lt hn)] at h

theorem getChunk_eq (g : Chunks) (cx cz : Int) :
    g.getChunk cx cz = if g.outsideWindow cx cz then none else g.at (g.slotOf cx cz) := by
  simp only [Chunks.getChunk, Chunks.outsideWindow, Chunks.slotOf]

theorem touchNeighbour_dims (g : Chunks) (b : Bool) (x z : Int) :
    (g.touchNeighbour b x z).w = g.w ∧ (g.touchNeighbour b x z).d = g.d ∧
    (g.touchNeighbour b x z).ox = g.ox ∧ (g.touchNeighbour b x z).oz = g.oz := by
  unfold Chunks.touchNeighbour
  split_ifs
  · split <;> simp
  · simp

theorem touchNeighbour_voxels (g : Chunks) (b : Bool) (x z : Int) (i : Nat) :
    ((g.touchNeighbour b x z).at i).map Chunk.voxels = (g.at i).map Chunk.voxels := by
  unfold Chunks.touchNeighbour
  split_ifs with hb
  · split
    · rfl
    · rename_i chunk hc
      simp only [Chunks.at, getD_set_slot]
      split_ifs with h
      · obtain ⟨h1, _⟩ := h
        rw [getChunk_eq] at hc
        split_ifs at hc
        simp only [Chunks.slotOf, Chunks.at] at hc
        rw [← h1, hc]
        rfl
      · rfl
  · rfl

/-! ## `set` -/

theorem updateHeights_voxels (K : Constants) (c : Chunk) :
    (c.updateHeights K).voxels = c.voxels := by
  unfold Chunk.updateHeights
  simp only []
  split <;> rfl

theorem setHeights_voxels (K : Constants) (c : Chunk) (y : Int) (id : Nat) :
    (c.setHeights K y id).voxels = c.voxels := by
  unfold Chunk.setHeights
  split_ifs
  · rfl
  · rfl
  · exact updateHeights_voxels K c
  · rfl

theorem write_voxels (K : Constants) (content : ContentIndices) (c : Chunk)
    (lx y lz : Int) (id states : Nat) :
    (c.write K content lx y lz id states).voxels =
      c.voxels.set (voxIndex K lx y lz) ⟨id, states⟩ := by
  unfold Chunk.write
  simp only [setHeights_voxels, Chunk.setModified, Chunk.setUnsaved]
  split_ifs <;> rfl

/-- The four neighbour updates that end `Chunks::set`. -/
theorem touch4_voxels (g : Chunks) (b1 b2 b3 b4 : Bool) (x1 z1 x2 z2 x3 z3 x4 z4 : Int)
    (i : Nat) :
    (((((g.touchNeighbour b1 x1 z1).touchNeighbour b2 x2 z2).touchNeighbour b3 x3 z3).touchNeighbour
      b4 x4 z4).at i).map Chunk.voxels = (g.at i).map Chunk.voxels := by
  rw [touchNeighbour_voxels, touchNeighbour_voxels, touchNeighbour_voxels, touchNeighbour_voxels]

theorem touch4_dims (g : Chunks) (b1 b2 b3 b4 : Bool) (x1 z1 x2 z2 x3 z3 x4 z4 : Int) :
    let r := (((g.touchNeighbour b1 x1 z1).touchNeighbour b2 x2 z2).touchNeighbour b3 x3
      z3).touchNeighbour b4 x4 z4
    r.w = g.w ∧ r.d = g.d ∧ r.ox = g.ox ∧ r.oz = g.oz := by
  intro r
  obtain ⟨a1, a2, a3, a4⟩ := touchNeighbour_dims g b1 x1 z1
  obtain ⟨b1', b2', b3', b4'⟩ := touchNeighbour_dims (g.touchNeighbour b1 x1 z1) b2 x2 z2
  obtain ⟨c1, c2, c3, c4⟩ :=
    touchNeighbour_dims ((g.touchNeighbour b1 x1 z1).touchNeighbour b2 x2 z2) b3 x3 z3
  obtain ⟨d1, d2, d3, d4⟩ := touchNeighbour_dims
    (((g.touchNeighbour b1 x1 z1).touchNeighbour b2 x2 z2).touchNeighbour b3 x3 z3) b4 x4 z4
  refine ⟨?_, ?_, ?_, ?_⟩
  · rw [d1, c1, b1', a1]
  · rw [d2, c2, b2', a2]
  · rw [d3, c3, b3', a3]
  · rw [d4, c4, b4', a4]

/-- A write that is refused: `set` returns the grid it was given. -/
theorem set_refused (K : Constants) (content : ContentIndices) (g : Chunks)
    (x y z : Int) (id states : Nat)
    (hW : 0 < K.CHUNK_W) (hD : 0 < K.CHUNK_D)
    (h : (y < 0 ∨ y ≥ K.CHUNK_H) ∨ g.outsideWindow (x / K.CHUNK_W) (z / K.CHUNK_D) ∨
      g.at (g.slotOf (x / K.CHUNK_W) (z / K.CHUNK_D)) = none) :
    g.set K content x y z id states = g := by
  simp only [Chunks.set]
  rw [floordiv_shift _ _ _ hW, floordiv_shift _ _ _ hD]
  split_ifs with h1 h2
  · rfl
  · rfl
  · rcases h with h | h | h
    · exact absurd h h1
    · simp only [Chunks.outsideWindow] at h
      omega
    · simp only [Chunks.slotOf] at h
      rw [h]

/-- A write that is accepted: the slot and the state `set` returns. -/
theorem set_accepted (K : Constants) (content : ContentIndices) (g : Chunks)
    (x y z : Int) (id states : Nat) (chunk : Chunk)
    (hW : 0 < K.CHUNK_W) (hD : 0 < K.CHUNK_D)
    (hy0 : 0 ≤ y) (hy1 : y < K.CHUNK_H)
    (hc : g.getChunk (x / K.CHUNK_W) (z / K.CHUNK_D) = some chunk) :
    ∃ (b1 b2 b3 b4 : Bool) (x1 z1 x2 z2 x3 z3 x4 z4 : Int),
      g.set K content x y z id states =
        (((({ g with
              chunks := g.chunks.set (g.slotOf (x / K.CHUNK_W) (z / K.CHUNK_D))
                (some (chunk.write K content (x % K.CHUNK_W) y (z % K.CHUNK_D) id states)) }
          : Chunks).touchNeighbour b1 x1 z1).touchNeighbour b2 x2 z2).touchNeighbour b3 x3
            z3).touchNeighbour b4 x4 z4 := by
  rw [getChunk_eq] at hc
  split_ifs at hc with ho
  simp only [Chunks.outsideWindow] at ho
  simp only [Chunks.slotOf] at hc
  simp only [Chunks.set]
  rw [floordiv_shift _ _ _ hW, floordiv_shift _ _ _ hD, local_shift, local_shift]
  rw [if_neg (by omega), if_neg (by omega), hc]
  exact ⟨_, _, _, _, _, _, _, _, _, _, _, _, rfl⟩

theorem outsideWindow_congr (g r : Chunks) (cx cz : Int)
    (h : r.w = g.w ∧ r.d = g.d ∧ r.ox = g.ox ∧ r.oz = g.oz) :
    r.outsideWindow cx cz ↔ g.outsideWindow cx cz := by
  obtain ⟨h1, h2, h3, h4⟩ := h
  simp only [Chunks.outsideWindow, h1, h2, h3, h4]

theorem slotOf_congr (g r : Chunks) (cx cz : Int)
    (h : r.w = g.w ∧ r.d = g.d ∧ r.ox = g.ox ∧ r.oz = g.oz) :
    r.slotOf cx cz = g.slotOf cx cz := by
  obtain ⟨h1, h2, h3, h4⟩ := h
  simp only [Chunks.slotOf, h1, h3, h4]

/-- C1: after `set(x, y, z, id, states)` on a loaded in-window column with
`0 <= y < CHUNK_H`, `get(x, y, z)` returns the voxel `{id, states}`. -/
theorem set_then_get (K : Constants) (content : ContentIndices) (g : Chunks)
    (x y z : Int) (id states : Nat)
    (hW : 0 < K.CHUNK_W) (hH : 0 < K.CHUNK_H) (hD : 0 < K.CHUNK_D)
    (hsz : g.ColumnsSized K)
    (hy0 : 0 ≤ y) (hy1 : y < K.CHUNK_H)
    (hload : (g.getChunk (x / K.CHUNK_W) (z / K.CHUNK_D)).isSome) :
    (g.set K content x y z id states).get K x y z = some ⟨id, states⟩ := by
  obtain ⟨chunk, hc⟩ := Option.isSome_iff_exists.1 hload
  obtain ⟨b1, b2, b3, b4, x1, z1, x2, z2, x3, z3, x4, z4, hset⟩ :=
    set_accepted K content g x y z id states chunk hW hD hy0 hy1 hc
  rw [hset, get_eq K _ x y z hW hH hD]
  have hdims := touch4_dims
    ({ g with
        chunks := g.chunks.set (g.slotOf (x / K.CHUNK_W) (z / K.CHUNK_D))
          (some (chunk.write K content (x % K.CHUNK_W) y (z % K.CHUNK_D) id states)) } : Chunks)
    b1 b2 b3 b4 x1 z1 x2 z2 x3 z3 x4 z4
  have hvox := touch4_voxels
    ({ g with
        chunks := g.chunks.set (g.slotOf (x / K.CHUNK_W) (z / K.CHUNK_D))
          (some (chunk.write K content (x % K.CHUNK_W) y (z % K.CHUNK_D) id states)) } : Chunks)
    b1 b2 b3 b4 x1 z1 x2 z2 x3 z3 x4 z4 (g.slotOf (x / K.CHUNK_W) (z / K.CHUNK_D))
  simp only [] at hdims
  rw [getChunk_eq] at hc
  split_ifs at hc with ho
  have hlen := at_lt_length g _ _ hc
  have hslot := slotOf_congr g _ (x / K.CHUNK_W) (z / K.CHUNK_D) hdims
  have hout := outsideWindow_congr g _ (x / K.CHUNK_W) (z / K.CHUNK_D) hdims
  rw [if_neg (by omega), if_neg (fun h => ho (hout.1 h)), hslot]
  have hat : (({ g with
        chunks := g.chunks.set (g.slotOf (x / K.CHUNK_W) (z / K.CHUNK_D))
          (some (chunk.write K content (x % K.CHUNK_W) y (z % K.CHUNK_D) id states)) }
      : Chunks).at (g.slotOf (x / K.CHUNK_W) (z / K.CHUNK_D))) =
      some (chunk.write K content (x % K.CHUNK_W) y (z % K.CHUNK_D) id states) := by
    simp only [Chunks.at, getD_set_slot]
    rw [if_pos ⟨trivial, hlen⟩]
  rw [hat] at hvox
  have hidx := voxIndex_lt K (x % K.CHUNK_W) y (z % K.CHUNK_D)
    (Int.emod_nonneg _ hW.ne') (Int.emod_lt_of_pos _ hW) hy0 hy1
    (Int.emod_nonneg _ hD.ne') (Int.emod_lt_of_pos _ hD)
  rw [← hsz _ _ hc] at hidx
  cases hr : Chunks.at _ (g.slotOf (x / K.CHUNK_W) (z / K.CHUNK_D)) with
  | none => rw [hr] at hvox; simp at hvox
  | some c' =>
    rw [hr] at hvox
    simp only [Option.map_some', Option.some.injEq, write_voxels] at hvox
    simp only [hvox, List.getD_eq_getElem?_getD, List.getElem?_set_self hidx, Option.getD_some]

theorem ediv_floor_bounds (x b : Int) (hb : 0 < b) :
    b * (x / b) ≤ x ∧ x < b * (x / b + 1) := by
  have h1 := Int.ediv_add_emod x b
  have h2 := Int.emod_nonneg x hb.ne'
  have h3 := Int.emod_lt_of_pos x hb
  constructor
  · omega
  · have : b * (x / b + 1) = b * (x / b) + b := by ring
    omega

/-- C2: the column and the local offsets that `get` computes.  With
`cx = floordiv(x - ox*CHUNK_W, CHUNK_W)` and `lx = x - ox*CHUNK_W - cx*CHUNK_W`
(likewise for `z`), `cx + ox` is the mathematical floor of `x / CHUNK_W`
whatever the origin, `0 <= lx < CHUNK_W`, `0 <= lz < CHUNK_D`, for
`0 <= y < CHUNK_H` the local height is `y` and the voxel index is inside the
voxel array, and `get` reads that index of the column `getChunk` returns for the
world column `(floor(x/CHUNK_W), floor(z/CHUNK_D))`. -/
theorem get_addressing (K : Constants) (g : Chunks) (x y z : Int)
    (hW : 0 < K.CHUNK_W) (hH : 0 < K.CHUNK_H) (hD : 0 < K.CHUNK_D) :
    let sx := x - g.ox * K.CHUNK_W
    let sz := z - g.oz * K.CHUNK_D
    let cx := floordiv sx K.CHUNK_W
    let cy := floordiv y K.CHUNK_H
    let cz := floordiv sz K.CHUNK_D
    let lx := sx - cx * K.CHUNK_W
    let ly := y - cy * K.CHUNK_H
    let lz := sz - cz * K.CHUNK_D
    (cx + g.ox = x / K.CHUNK_W ∧ cz + g.oz = z / K.CHUNK_D) ∧
    (K.CHUNK_W * (cx + g.ox) ≤ x ∧ x < K.CHUNK_W * (cx + g.ox + 1)) ∧
    (K.CHUNK_D * (cz + g.oz) ≤ z ∧ z < K.CHUNK_D * (cz + g.oz + 1)) ∧
    (0 ≤ lx ∧ lx < K.CHUNK_W ∧ 0 ≤ lz ∧ lz < K.CHUNK_D) ∧
    (0 ≤ y → y < K.CHUNK_H →
      ly = y ∧ voxIndex K lx ly lz < (K.CHUNK_W * K.CHUNK_H * K.CHUNK_D).toNat) ∧
    g.get K x y z =
      (if y < 0 ∨ y ≥ K.CHUNK_H then none
       else match g.getChunk (cx + g.ox) (cz + g.oz) with
        | none => none
        | some c => some (c.voxels.getD (voxIndex K lx ly lz) ⟨0, 0⟩)) := by
  intro sx sz cx cy cz lx ly lz
  have hcx : cx = x / K.CHUNK_W - g.ox := floordiv_shift _ _ _ hW
  have hcz : cz = z / K.CHUNK_D - g.oz := floordiv_shift _ _ _ hD
  have hlx : lx = x % K.CHUNK_W := by
    show sx - cx * K.CHUNK_W = _
    rw [hcx]; exact local_shift _ _ _
  have hlz : lz = z % K.CHUNK_D := by
    show sz - cz * K.CHUNK_D = _
    rw [hcz]; exact local_shift _ _ _
  have ex : cx + g.ox = x / K.CHUNK_W := by omega
  have ez : cz + g.oz = z / K.CHUNK_D := by omega
  have bx0 := Int.emod_nonneg x hW.ne'
  have bx1 := Int.emod_lt_of_pos x hW
  have bz0 := Int.emod_nonneg z hD.ne'
  have bz1 := Int.emod_lt_of_pos z hD
  refine ⟨⟨ex, ez⟩, ?_, ?_, ?_, ?_, ?_⟩
  · rw [ex]; exact ediv_floor_bounds x _ hW
  · rw [ez]; exact ediv_floor_bounds z _ hD
  · rw [hlx, hlz]; exact ⟨bx0, bx1, bz0, bz1⟩
  · intro hy0 hy1
    have hly : ly = y := by
      show y - cy * K.CHUNK_H = y
      have : cy = 0 := floordiv_height_zero _ _ hH hy0 hy1
      rw [this]; ring
    refine ⟨hly, ?_⟩
    rw [hlx, hlz, hly]
    exact voxIndex_lt K _ _ _ bx0 bx1 hy0 hy1 bz0 bz1
  · rw [get_eq K g x y z hW hH hD, ex, ez, getChunk_eq]
    by_cases hy : y < 0 ∨ y ≥ K.CHUNK_H
    · rw [if_pos hy, if_pos hy]
    · rw [if_neg hy, if_neg hy]
      have hly : ly = y := by
        show y - cy * K.CHUNK_H = y
        have : cy = 0 := floordiv_height_zero _ _ hH (by omega) (by omega)
        rw [this]; ring
      rw [hlx, hlz, hly]
      split_ifs <;> rfl

/-! ## Absent voxels -/

theorem getLight_eq (K : Constants) (g : Chunks) (x y z : Int)
    (hW : 0 < K.CHUNK_W) (hH : 0 < K.CHUNK_H) (hD : 0 < K.CHUNK_D) :
    g.getLight K x y z =
      if y < 0 ∨ y ≥ K.CHUNK_H then 0
      else if g.outsideWindow (x / K.CHUNK_W) (z / K.CHUNK_D) then 0
      else match g.at (g.slotOf (x / K.CHUNK_W) (z / K.CHUNK_D)) with
        | none => 0
        | some c => c.light K (x % K.CHUNK_W) y (z % K.CHUNK_D) := by
  simp only [Chunks.getLight, Chunks.outsideWindow, Chunks.slotOf]
  rw [floordiv_shift _ _ _ hW, floordiv_shift _ _ _ hD, local_shift, local_shift]
  by_cases hy : y < 0 ∨ y ≥ K.CHUNK_H
  · have hc := (floordiv_height y _ hH).2 hy
    rw [if_pos hy]
    split_ifs with h1
    · rfl
    · exact absurd hc (by tauto)
  · have hy0 : floordiv y K.CHUNK_H = 0 := floordiv_height_zero _ _ hH (by omega) (by omega)
    rw [if_neg hy, hy0]
    split_ifs with h1 h2 h2
    · rfl
    · omega
    · omega
    · simp

theorem getLightChannel_eq (K : Constants) (g : Chunks) (x y z : Int) (channel : Nat)
    (hW : 0 < K.CHUNK_W) (hH : 0 < K.CHUNK_H) (hD : 0 < K.CHUNK_D) :
    g.getLightChannel K x y z channel =
      if y < 0 ∨ y ≥ K.CHUNK_H then 0
      else if g.outsideWindow (x / K.CHUNK_W) (z / K.CHUNK_D) then 0
      else match g.at (g.slotOf (x / K.CHUNK_W) (z / K.CHUNK_D)) with
        | none => 0
        | some c => c.lightChannel K (x % K.CHUNK_W) y (z % K.CHUNK_D) channel := by
  simp only [Chunks.getLightChannel, Chunks.outsideWindow, Chunks.slotOf]
  rw [floordiv_shift _ _ _ hW, floordiv_shift _ _ _ hD, local_shift, local_shift]
  by_cases hy : y < 0 ∨ y ≥ K.CHUNK_H
  · have hc := (floordiv_height y _ hH).2 hy
    rw [if_pos hy]
    split_ifs with h1
    · rfl
    · exact absurd hc (by tauto)
  · have hy0 : floordiv y K.CHUNK_H = 0 := floordiv_height_zero _ _ hH (by omega) (by omega)
    rw [if_neg hy, hy0]
    split_ifs with h1 h2 h2
    · rfl
    · omega
    · omega
    · simp

theorem get_none_iff (K : Constants) (g : Chunks) (x y z : Int)
    (hW : 0 < K.CHUNK_W) (hH : 0 < K.CHUNK_H) (hD : 0 < K.CHUNK_D) :
    g.get K x y z = none ↔
      ((y < 0 ∨ y ≥ K.CHUNK_H) ∨ g.outsideWindow (x / K.CHUNK_W) (z / K.CHUNK_D) ∨
        g.at (g.slotOf (x / K.CHUNK_W) (z / K.CHUNK_D)) = none) := by
  rw [get_eq K g x y z hW hH hD]
  split_ifs with h1 h2
  · simp [h1]
  · simp [h2]
  · cases hc : g.at (g.slotOf (x / K.CHUNK_W) (z / K.CHUNK_D)) with
    | none => simp
    | some c => simp [h1, h2]

/-- C8: `get(x, y, z)` is absent exactly when `y` is outside `[0, CHUNK_H)`, or
the column of `(x, z)` is outside the window, or its slot is empty; and when it
is absent both `getLight` overloads return 0 and `isSolidBlock`,
`isReplaceableBlock`, `isObstacleBlock` return false. -/
theorem get_absent (K : Constants) (content : ContentIndices) (g : Chunks) (x y z : Int)
    (hW : 0 < K.CHUNK_W) (hH : 0 < K.CHUNK_H) (hD : 0 < K.CHUNK_D) :
    (g.get K x y z = none ↔
      ((y < 0 ∨ y ≥ K.CHUNK_H) ∨ g.outsideWindow (x / K.CHUNK_W) (z / K.CHUNK_D) ∨
        g.at (g.slotOf (x / K.CHUNK_W) (z / K.CHUNK_D)) = none)) ∧
    (g.get K x y z = none →
      g.getLight K x y z = 0 ∧ (∀ channel, g.getLightChannel K x y z channel = 0) ∧
      g.isSolidBlock K content x y z = false ∧
      g.isReplaceableBlock K content x y z = false ∧
      g.isObstacleBlock K content x y z = false) := by
  refine ⟨get_none_iff K g x y z hW hH hD, fun hn => ?_⟩
  have hcase := (get_none_iff K g x y z hW hH hD).1 hn
  refine ⟨?_, fun channel => ?_, ?_, ?_, ?_⟩
  · rw [getLight_eq K g x y z hW hH hD]
    split_ifs with h1 h2
    · rfl
    · rfl
    · rcases hcase with h | h | h
      · exact absurd h h1
      · exact absurd h h2
      · rw [h]
  · rw [getLightChannel_eq K g x y z channel hW hH hD]
    split_ifs with h1 h2
    · rfl
    · rfl
    · rcases hcase with h | h | h
      · exact absurd h h1
      · exact absurd h h2
      · rw [h]
  · simp only [Chunks.isSolidBlock, hn]
  · simp only [Chunks.isReplaceableBlock, hn]
  · simp only [Chunks.isObstacleBlock, hn]

/-- C9: when `y` is outside `[0, CHUNK_H)`, or the column of `(x, z)` is outside
the window, or that column is not loaded, `set(x, y, z, id, states)` returns the
grid state unchanged. -/
theorem set_ignored (K : Constants) (content : ContentIndices) (g : Chunks)
    (x y z : Int) (id states : Nat)
    (hW : 0 < K.CHUNK_W) (hD : 0 < K.CHUNK_D)
    (h : (y < 0 ∨ y ≥ K.CHUNK_H) ∨ g.outsideWindow (x / K.CHUNK_W) (z / K.CHUNK_D) ∨
      g.at (g.slotOf (x / K.CHUNK_W) (z / K.CHUNK_D)) = none) :
    g.set K content x y z id states = g :=
  set_refused K content g x y z id states hW hD h

/-! ## `putChunk` -/

theorem slot_lt (w d x z : Nat) (hx : x < w) (hz : z < d) : z * w + x < w * d := by
  have h1 : (z + 1) * w ≤ d * w := Nat.mul_le_mul_right w hz
  have h2 : (z + 1) * w = z * w + w := by ring
  have h3 : d * w = w * d := Nat.mul_comm d w
  omega

theorem slotOf_lt (g : Chunks) (cx cz : Int) (h : ¬ g.outsideWindow cx cz) :
    g.slotOf cx cz < g.w * g.d := by
  simp only [Chunks.outsideWindow] at h
  have hx : cx - g.ox = ((cx - g.ox).toNat : Int) := (Int.toNat_of_nonneg (by omega)).symm
  have hz : cz - g.oz = ((cz - g.oz).toNat : Int) := (Int.toNat_of_nonneg (by omega)).symm
  have e : g.slotOf cx cz = (cz - g.oz).toNat * g.w + (cx - g.ox).toNat := by
    unfold Chunks.slotOf
    rw [hx, hz]
    simp only [Int.toNat_ofNat]
    exact Int.toNat_ofNat _
  rw [e]
  exact slot_lt _ _ _ _ (by omega) (by omega)

/-- C6: `putChunk` succeeds exactly for a column whose own coordinate lies in the
window; on success `getChunk` at that coordinate returns the column, every
other slot is unchanged and the live count grows by one (size and origin
stay); on failure the grid state is unchanged. -/
theorem putChunk_spec (g : Chunks) (chunk : Chunk) (hlen : g.chunks.length = g.w * g.d) :
    ((g.putChunk chunk).1 = true ↔
      (g.ox ≤ chunk.x ∧ chunk.x < g.ox + g.w ∧ g.oz ≤ chunk.z ∧ chunk.z < g.oz + g.d)) ∧
    ((g.putChunk chunk).1 = true →
      (g.putChunk chunk).2.getChunk chunk.x chunk.z = some chunk ∧
      (∀ i, i ≠ g.slotOf chunk.x chunk.z → (g.putChunk chunk).2.at i = g.at i) ∧
      (g.putChunk chunk).2.chunksCount = g.chunksCount + 1 ∧
      (g.putChunk chunk).2.w = g.w ∧ (g.putChunk chunk).2.d = g.d ∧
      (g.putChunk chunk).2.ox = g.ox ∧ (g.putChunk chunk).2.oz = g.oz) ∧
    ((g.putChunk chunk).1 = false → (g.putChunk chunk).2 = g) := by
  by_cases ho : chunk.x - g.ox < 0 ∨ chunk.z - g.oz < 0 ∨ chunk.x - g.ox ≥ (g.w : Int) ∨
      chunk.z - g.oz ≥ (g.d : Int)
  · have e : g.putChunk chunk = (false, g) := by
      simp only [Chunks.putChunk]; rw [if_pos ho]
    rw [e]
    refine ⟨?_, ?_, ?_⟩
    · constructor
      · intro h; exact absurd h (by simp)
      · intro h; omega
    · intro h; exact absurd h (by simp)
    · intro _; rfl
  · have e : g.putChunk chunk = (true, { g with
        chunks := g.chunks.set (g.slotOf chunk.x chunk.z) (some chunk)
        chunksCount := g.chunksCount + 1 }) := by
      simp only [Chunks.putChunk, Chunks.slotOf]; rw [if_neg ho]
    have hlt : g.slotOf chunk.x chunk.z < g.chunks.length := by
      rw [hlen]; exact slotOf_lt g _ _ ho
    rw [e]
    refine ⟨?_, ?_, ?_⟩
    · constructor
      · intro _; omega
      · intro _; rfl
    · intro _
      refine ⟨?_, ?_, rfl, rfl, rfl, rfl, rfl⟩
      · rw [getChunk_eq]
        have hn : ¬ Chunks.outsideWindow { g with
            chunks := g.chunks.set (g.slotOf chunk.x chunk.z) (some chunk)
            chunksCount := g.chunksCount + 1 } chunk.x chunk.z := ho
        rw [if_neg hn]
        simp only [Chunks.at, Chunks.slotOf, getD_set_slot]
        rw [if_pos ⟨trivial, hlt⟩]
      · intro i hi
        simp only [Chunks.at, getD_set_slot]
        rw [if_neg (fun h => hi h.1.symm)]
    · intro h; exact absurd h (by simp)

/-! ## `saveAndClear` -/

theorem getD_set_none {α : Type} (l : List (Option α)) (i j : Nat) :
    (l.set i none).getD j none = if j = i then none else l.getD j none := by
  rw [getD_set_slot]
  by_cases hij : i = j
  · subst hij
    by_cases hi : i < l.length
    · simp [hi]
    · simp [hi, List.getD_eq_getElem?_getD, List.getElem?_eq_none (Nat.le_of_not_lt hi)]
  · have : ¬ j = i := fun h => hij h.symm
    simp [hij, this]

theorem foldl_nested {α : Type} (zs xs : List Nat) (F : α → Nat → Nat → α) (a : α) :
    zs.foldl (fun acc z => xs.foldl (fun acc x => F acc z x) acc) a =
      (zs ×ˢ xs).foldl (fun acc p => F acc p.1 p.2) a := by
  induction zs generalizing a with
  | nil => rfl
  | cons z zs ih =>
    rw [List.product_cons, List.foldl_append, List.foldl_map, List.foldl_cons, ih]

theorem evictedAt_congr (g r : Chunks) (dx dz : Int)
    (h1 : r.chunks = g.chunks) (h2 : r.w = g.w) (h3 : r.d = g.d) :
    r.evictedAt dx dz = g.evictedAt dx dz := by
  funext p
  simp only [Chunks.evictedAt, Chunks.at, Chunks.leaves, h1, h2, h3]

theorem movedAt_congr (g r : Chunks) (dx dz : Int)
    (h1 : r.chunks = g.chunks) (h2 : r.w = g.w) (h3 : r.d = g.d) :
    r.movedAt dx dz = g.movedAt dx dz := by
  funext p
  simp only [Chunks.movedAt, Chunks.at, Chunks.leaves, h1, h2, h3]

theorem translateSlot_step (g : Chunks) (dx dz : Int) (p : Nat × Nat) :
    (g.translateSlot dx dz p.1 p.2).chunks = g.chunks ∧
    (g.translateSlot dx dz p.1 p.2).w = g.w ∧
    (g.translateSlot dx dz p.1 p.2).d = g.d ∧
    (g.translateSlot dx dz p.1 p.2).ox = g.ox ∧
    (g.translateSlot dx dz p.1 p.2).oz = g.oz ∧
    (g.translateSlot dx dz p.1 p.2).worldFiles = g.worldFiles ∧
    (g.translateSlot dx dz p.1 p.2).volume = g.volume ∧
    (g.translateSlot dx dz p.1 p.2).chunksSecond =
      applyWrites g.chunksSecond (g.movedAt dx dz p).toList ∧
    (g.translateSlot dx dz p.1 p.2).hidden = g.hidden ++ (g.evictedAt dx dz p).toList ∧
    (g.translateSlot dx dz p.1 p.2).regions =
      (if g.worldFiles.isSome then g.regions ++ (g.evictedAt dx dz p).toList else g.regions) ∧
    (g.translateSlot dx dz p.1 p.2).chunksCount =
      g.chunksCount - ((g.evictedAt dx dz p).toList.length : Int) := by
  unfold Chunks.translateSlot Chunks.evictedAt Chunks.movedAt
  cases hc : g.at (p.1 * g.w + p.2) with
  | none => simp [applyWrites]
  | some c =>
    simp only []
    by_cases hl : g.leaves dx dz p
    · have hl' := hl
      simp only [Chunks.leaves] at hl'
      rw [if_pos hl', if_pos hl, if_pos hl]
      simp [applyWrites]
    · have hl' := hl
      simp only [Chunks.leaves] at hl'
      rw [if_neg hl', if_neg hl, if_neg hl]
      simp [applyWrites]

theorem translateLoop_spec (g : Chunks) (dx dz : Int) (L : List (Nat × Nat)) :
    (L.foldl (fun acc p => acc.translateSlot dx dz p.1 p.2) g).chunks = g.chunks ∧
    (L.foldl (fun acc p => acc.translateSlot dx dz p.1 p.2) g).w = g.w ∧
    (L.foldl (fun acc p => acc.translateSlot dx dz p.1 p.2) g).d = g.d ∧
    (L.foldl (fun acc p => acc.translateSlot dx dz p.1 p.2) g).ox = g.ox ∧
    (L.foldl (fun acc p => acc.translateSlot dx dz p.1 p.2) g).oz = g.oz ∧
    (L.foldl (fun acc p => acc.translateSlot dx dz p.1 p.2) g).worldFiles = g.worldFiles ∧
    (L.foldl (fun acc p => acc.translateSlot dx dz p.1 p.2) g).volume = g.volume ∧
    (L.foldl (fun acc p => acc.translateSlot dx dz p.1 p.2) g).chunksSecond =
      applyWrites g.chunksSecond (L.filterMap (g.movedAt dx dz)) ∧
    (L.foldl (fun acc p => acc.translateSlot dx dz p.1 p.2) g).hidden =
      g.hidden ++ L.filterMap (g.evictedAt dx dz) ∧
    (L.foldl (fun acc p => acc.translateSlot dx dz p.1 p.2) g).regions =
      (if g.worldFiles.isSome then g.regions ++ L.filterMap (g.evictedAt dx dz)
       else g.regions) ∧
    (L.foldl (fun acc p => acc.translateSlot dx dz p.1 p.2) g).chunksCount =
      g.chunksCount - ((L.filterMap (g.evictedAt dx dz)).length : Int) := by
  induction L using List.reverseRecOn with
  | nil => simp [applyWrites]
  | append_singleton L p ih =>
    obtain ⟨a1, a2, a3, a4, a5, a6, a7, a8, a9, a10, a11⟩ := ih
    obtain ⟨b1, b2, b3, b4, b5, b6, b7, b8, b9, b10, b11⟩ :=
      translateSlot_step (L.foldl (fun acc p => acc.translateSlot dx dz p.1 p.2) g) dx dz p
    rw [evictedAt_congr g _ dx dz a1 a2 a3] at b9 b10 b11
    rw [movedAt_congr g _ dx dz a1 a2 a3] at b8
    have eE : List.filterMap (g.evictedAt dx dz) (L ++ [p]) =
        List.filterMap (g.evictedAt dx dz) L ++ (g.evictedAt dx dz p).toList := by
      rw [List.filterMap_append]; cases h : g.evictedAt dx dz p <;> simp [h]
    have eM : List.filterMap (g.movedAt dx dz) (L ++ [p]) =
        List.filterMap (g.movedAt dx dz) L ++ (g.movedAt dx dz p).toList := by
      rw [List.filterMap_append]; cases h : g.movedAt dx dz p <;> simp [h]
    rw [List.foldl_append, List.foldl_cons, List.foldl_nil, eE, eM]
    refine ⟨b1.trans a1, b2.trans a2, b3.trans a3, b4.trans a4, b5.trans a5, b6.trans a6,
      b7.trans a7, ?_, ?_, ?_, ?_⟩
    · rw [b8, a8]; simp only [applyWrites, List.foldl_append]
    · rw [b9, a9, List.append_assoc]
    · rw [b10, a6, a10]
      split_ifs
      · rw [List.append_assoc]
      · rfl
    · rw [b11, a11, List.length_append]; push_cast; ring

theorem applyWrites_length (l : List (Option Chunk)) (ws : List (Nat × Option Chunk)) :
    (applyWrites l ws).length = l.length := by
  induction ws generalizing l with
  | nil => rfl
  | cons iv ws ih =>
    simp only [applyWrites, List.foldl_cons] at ih ⊢
    rw [ih, List.length_set]

theorem applyWrites_getD_not_mem (l : List (Option Chunk)) (ws : List (Nat × Option Chunk))
    (j : Nat) (h : ∀ iv ∈ ws, iv.1 ≠ j) :
    (applyWrites l ws).getD j none = l.getD j none := by
  induction ws generalizing l with
  | nil => rfl
  | cons iv ws ih =>
    simp only [applyWrites, List.foldl_cons] at ih ⊢
    rw [ih _ (fun iv' hm => h iv' (List.mem_cons_of_mem _ hm)), getD_set_slot,
      if_neg (fun hc => h iv (List.mem_cons_self _ _) hc.1)]

theorem applyWrites_getD_mem (l : List (Option Chunk)) (ws : List (Nat × Option Chunk))
    (j : Nat) (v : Option Chunk) (hnd : (ws.map Prod.fst).Nodup) (hm : (j, v) ∈ ws)
    (hj : j < l.length) :
    (applyWrites l ws).getD j none = v := by
  induction ws generalizing l with
  | nil => exact absurd hm (List.not_mem_nil _)
  | cons iv ws ih =>
    rw [List.map_cons, List.nodup_cons] at hnd
    obtain ⟨hnot, hnd'⟩ := hnd
    rcases List.mem_cons.1 hm with heq | hin
    · have e : applyWrites l (iv :: ws) = applyWrites (l.set iv.1 iv.2) ws := rfl
      rw [e, applyWrites_getD_not_mem, getD_set_slot, ← heq]
      · rw [if_pos ⟨rfl, hj⟩]
      · intro iv' hm' hc
        apply hnot
        rw [← heq]
        exact List.mem_map.2 ⟨iv', hm', hc⟩
    · have e : applyWrites l (iv :: ws) = applyWrites (l.set iv.1 iv.2) ws := rfl
      rw [e]
      exact ih _ hnd' hin (by rw [List.length_set]; exact hj)

theorem clear_length (l : List (Option Chunk)) (n : Nat) :
    ((List.range n).foldl (fun l i => l.set i none) l).length = l.length := by
  induction n with
  | zero => rfl
  | succ n ih =>
    rw [List.range_succ, List.foldl_append, List.foldl_cons, List.foldl_nil, List.length_set, ih]

theorem clear_getD (l : List (Option Chunk)) (n j : Nat) :
    ((List.range n).foldl (fun l i => l.set i none) l).getD j none =
      if j < n then none else l.getD j none := by
  induction n with
  | zero => simp
  | succ n ih =>
    rw [List.range_succ, List.foldl_append, List.foldl_cons, List.foldl_nil, getD_set_none, ih]
    by_cases hj : j = n
    · subst hj; simp
    · by_cases hj2 : j < n
      · simp [hj, hj2, Nat.lt_succ_of_lt hj2]
      · have : ¬ j < n + 1 := by omega
        simp [hj, hj2, this]

theorem target_inj (w : Nat) (a b a' b' : Int) (ha : 0 ≤ a) (haw : a < w) (hb : 0 ≤ b)
    (ha' : 0 ≤ a') (haw' : a' < w) (hb' : 0 ≤ b')
    (h : (b * w + a).toNat = (b' * w + a').toNat) : a = a' ∧ b = b' := by
  have hw : (0 : Int) < w := by omega
  have n1 : 0 ≤ b * w + a := by nlinarith
  have n2 : 0 ≤ b' * w + a' := by nlinarith
  have e : b * w + a = b' * w + a' := by
    have := congrArg (fun n : Nat => (n : Int)) h
    simp only [Int.toNat_of_nonneg n1, Int.toNat_of_nonneg n2] at this
    exact this
  have u1 := (Int.ediv_emod_unique (a := b * w + a) (r := a) (q := b) hw).2
    ⟨by ring, ha, haw⟩
  have u2 := (Int.ediv_emod_unique (a := b * w + a) (r := a') (q := b') hw).2
    ⟨by rw [e]; ring, ha', haw'⟩
  exact ⟨u1.2.symm.trans u2.2, u1.1.symm.trans u2.1⟩

theorem mem_slotPairs (w d : Nat) (p : Nat × Nat) :
    p ∈ slotPairs w d ↔ p.1 < d ∧ p.2 < w := by
  obtain ⟨a, b⟩ := p
  simp only [slotPairs, List.mem_product, List.mem_range]

theorem nodup_slotPairs (w d : Nat) : (slotPairs w d).Nodup :=
  List.Nodup.product (List.nodup_range d) (List.nodup_range w)

/-! ## `translate` -/

theorem translate_fields (g : Chunks) (dx dz : Int) :
    (g.translate dx dz).chunks =
      applyWrites ((List.range g.volume).foldl (fun l i => l.set i none) g.chunksSecond)
        ((slotPairs g.w g.d).filterMap (g.movedAt dx dz)) ∧
    (g.translate dx dz).chunksSecond = g.chunks ∧
    (g.translate dx dz).w = g.w ∧
    (g.translate dx dz).d = g.d ∧
    (g.translate dx dz).volume = g.volume ∧
    (g.translate dx dz).ox = g.ox + dx ∧
    (g.translate dx dz).oz = g.oz + dz ∧
    (g.translate dx dz).worldFiles = g.worldFiles ∧
    (g.translate dx dz).hidden = g.hidden ++ g.evicted dx dz ∧
    (g.translate dx dz).regions =
      (if g.worldFiles.isSome then g.regions ++ g.evicted dx dz else g.regions) ∧
    (g.translate dx dz).chunksCount = g.chunksCount - ((g.evicted dx dz).length : Int) := by
  have hs := translateLoop_spec
    { g with chunksSecond :=
        (List.range g.volume).foldl (fun l i => l.set i none) g.chunksSecond }
    dx dz (slotPairs g.w g.d)
  have hE := evictedAt_congr g
    { g with chunksSecond :=
        (List.range g.volume).foldl (fun l i => l.set i none) g.chunksSecond }
    dx dz rfl rfl rfl
  have hM := movedAt_congr g
    { g with chunksSecond :=
        (List.range g.volume).foldl (fun l i => l.set i none) g.chunksSecond }
    dx dz rfl rfl rfl
  rw [hE, hM] at hs
  obtain ⟨a1, a2, a3, a4, a5, a6, a7, a8, a9, a10, a11⟩ := hs
  simp only [Chunks.translate, foldl_nested, Chunks.evicted]
  simp only [slotPairs] at a1 a2 a3 a4 a5 a6 a7 a8 a9 a10 a11 ⊢
  exact ⟨a8, a1, a2, a3, a7, by rw [a4], by rw [a5], a6, a9, a10, a11⟩

theorem translate_sized (g : Chunks) (dx dz : Int) (hs : g.Sized) :
    (g.translate dx dz).Sized := by
  obtain ⟨a1, a2, a3, a4, a5, _⟩ := translate_fields g dx dz
  obtain ⟨s1, s2, s3⟩ := hs
  refine ⟨?_, ?_, ?_⟩
  · rw [a1, applyWrites_length, clear_length, a3, a4, s2]
  · rw [a2, a3, a4, s1]
  · rw [a5, a3, a4, s3]

/-- The slot `(nx, nz)` after `translate(dx, dz)` holds what the slot
`(nx + dx, nz + dz)` held, and nothing when that slot does not exist. -/
theorem translate_at (g : Chunks) (dx dz : Int) (hs : g.Sized) (nx nz : Nat)
    (hx : nx < g.w) (hz : nz < g.d) :
    (g.translate dx dz).at (nz * g.w + nx) =
      if 0 ≤ (nx : Int) + dx ∧ (nx : Int) + dx < g.w ∧ 0 ≤ (nz : Int) + dz ∧
          (nz : Int) + dz < g.d
      then g.at ((((nz : Int) + dz) * g.w + ((nx : Int) + dx)).toNat)
      else none := by
  obtain ⟨a1, _⟩ := translate_fields g dx dz
  obtain ⟨s1, s2, s3⟩ := hs
  have hj : nz * g.w + nx < g.w * g.d := slot_lt _ _ _ _ hx hz
  have hjc : ((nz : Int) * g.w + nx).toNat = nz * g.w + nx := by
    have : ((nz : Int) * g.w + nx) = ((nz * g.w + nx : Nat) : Int) := by push_cast; ring
    rw [this]; exact Int.toNat_ofNat _
  have hnd : (((slotPairs g.w g.d).filterMap (g.movedAt dx dz)).map Prod.fst).Nodup := by
    rw [List.map_filterMap]
    refine List.Nodup.filterMap ?_ (nodup_slotPairs _ _)
    intro p p' b hb hb'
    simp only [Chunks.movedAt, Option.mem_def] at hb hb'
    cases hp : g.at (p.1 * g.w + p.2) with
    | none => rw [hp] at hb; simp at hb
    | some c =>
      cases hp' : g.at (p'.1 * g.w + p'.2) with
      | none => rw [hp'] at hb'; simp at hb'
      | some c' =>
        simp only [hp] at hb
        simp only [hp'] at hb'
        by_cases l1 : g.leaves dx dz p
        · rw [if_pos l1] at hb; simp at hb
        by_cases l2 : g.leaves dx dz p'
        · rw [if_pos l2] at hb'; simp at hb'
        rw [if_neg l1] at hb; rw [if_neg l2] at hb'
        simp only [Option.map_some', Option.some.injEq] at hb hb'
        simp only [Chunks.leaves] at l1 l2
        have := target_inj g.w _ _ _ _ (by omega) (by omega) (by omega) (by omega) (by omega)
          (by omega) (hb.trans hb'.symm)
        obtain ⟨q1, q2⟩ := p
        obtain ⟨q1', q2'⟩ := p'
        simp only [Prod.mk.injEq] at this ⊢
        omega
  simp only [Chunks.at]
  rw [a1]
  by_cases hw : ∃ v, (nz * g.w + nx, v) ∈ (slotPairs g.w g.d).filterMap (g.movedAt dx dz)
  · obtain ⟨v, hv⟩ := hw
    rw [applyWrites_getD_mem _ _ _ v hnd hv (by rw [clear_length, s2]; exact hj)]
    obtain ⟨p, hp, hm⟩ := List.mem_filterMap.1 hv
    rw [mem_slotPairs] at hp
    simp only [Chunks.movedAt] at hm
    cases hc : g.at (p.1 * g.w + p.2) with
    | none => rw [hc] at hm; simp at hm
    | some c =>
      simp only [hc] at hm
      by_cases l1 : g.leaves dx dz p
      · rw [if_pos l1] at hm; simp at hm
      rw [if_neg l1] at hm
      simp only [Option.some.injEq, Prod.mk.injEq] at hm
      simp only [Chunks.leaves] at l1
      obtain ⟨ht, hv'⟩ := hm
      rw [← hjc] at ht
      have := target_inj g.w _ _ _ _ (by omega) (by omega) (by omega) (by omega) (by omega)
        (by omega) ht
      have e1 : (nx : Int) + dx = p.2 := by omega
      have e2 : (nz : Int) + dz = p.1 := by omega
      rw [if_pos (by omega), e1, e2]
      have : (((p.1 : Int)) * g.w + (p.2 : Int)).toNat = p.1 * g.w + p.2 := by
        have : ((p.1 : Int) * g.w + p.2) = ((p.1 * g.w + p.2 : Nat) : Int) := by push_cast; ring
        rw [this]; exact Int.toNat_ofNat _
      rw [this, ← hv']
      exact hc.symm
  · rw [applyWrites_getD_not_mem _ _ _ (fun iv hm hc => hw ⟨iv.2, by rw [← hc]; exact hm⟩),
      clear_getD, s3, if_pos hj]
    split_ifs with hin
    · cases hc : g.at ((((nz : Int) + dz) * g.w + ((nx : Int) + dx)).toNat) with
      | none => exact hc.symm
      | some c =>
        exfalso
        apply hw
        refine ⟨some c, List.mem_filterMap.2 ⟨(((nz : Int) + dz).toNat, ((nx : Int) + dx).toNat),
          ?_, ?_⟩⟩
        · rw [mem_slotPairs]; constructor <;> simp only <;> omega
        · have e1 : ((((nx : Int) + dx).toNat : Nat) : Int) = (nx : Int) + dx :=
            Int.toNat_of_nonneg hin.1
          have e2 : ((((nz : Int) + dz).toNat : Nat) : Int) = (nz : Int) + dz :=
            Int.toNat_of_nonneg hin.2.2.1
          have e3 : ((nz : Int) + dz).toNat * g.w + ((nx : Int) + dx).toNat =
              ((((nz : Int) + dz) * g.w + ((nx : Int) + dx)).toNat) := by
            have : (((nz : Int) + dz) * g.w + ((nx : Int) + dx)) =
                ((((nz : Int) + dz).toNat * g.w + ((nx : Int) + dx).toNat : Nat) : Int) := by
              push_cast; rw [e1, e2]
            rw [this]; exact (Int.toNat_ofNat _).symm
          simp only [Chunks.movedAt, e3, hc, Chunks.leaves, e1, e2]
          rw [if_neg (by omega)]
          have e4 : ((nz : Int) + dz - dz) * g.w + ((nx : Int) + dx - dx) =
              ((nz * g.w + nx : Nat) : Int) := by push_cast; ring
          rw [e4, Int.toNat_ofNat]
    · rfl

/-! ## World coordinates -/

theorem slotOf_nat (g : Chunks) (cx cz : Int) (h : ¬ g.outsideWindow cx cz) :
    g.slotOf cx cz = (cz - g.oz).toNat * g.w + (cx - g.ox).toNat ∧
    (cx - g.ox).toNat < g.w ∧ (cz - g.oz).toNat < g.d ∧
    (((cx - g.ox).toNat : Nat) : Int) = cx - g.ox ∧
    (((cz - g.oz).toNat : Nat) : Int) = cz - g.oz := by
  simp only [Chunks.outsideWindow] at h
  have hx : (((cx - g.ox).toNat : Nat) : Int) = cx - g.ox := Int.toNat_of_nonneg (by omega)
  have hz : (((cz - g.oz).toNat : Nat) : Int) = cz - g.oz := Int.toNat_of_nonneg (by omega)
  refine ⟨?_, by omega, by omega, hx, hz⟩
  unfold Chunks.slotOf
  have : (cz - g.oz) * g.w + (cx - g.ox) =
      (((cz - g.oz).toNat * g.w + (cx - g.ox).toNat : Nat) : Int) := by
    push_cast; rw [hx, hz]
  rw [this]; exact Int.toNat_ofNat _

theorem getChunk_slot (g : Chunks) (x z : Nat) (hx : x < g.w) (hz : z < g.d) :
    g.getChunk ((x : Int) + g.ox) ((z : Int) + g.oz) = g.at (z * g.w + x) := by
  rw [getChunk_eq]
  have ho : ¬ g.outsideWindow ((x : Int) + g.ox) ((z : Int) + g.oz) := by
    simp only [Chunks.outsideWindow]; omega
  rw [if_neg ho]
  obtain ⟨e, _, _, e1, e2⟩ := slotOf_nat g _ _ ho
  have f1 : ((x : Int) + g.ox - g.ox).toNat = x := by omega
  have f2 : ((z : Int) + g.oz - g.oz).toNat = z := by omega
  rw [e, f1, f2]

theorem getChunk_some (g : Chunks) (X Z : Int) (c : Chunk) (h : g.getChunk X Z = some c) :
    ∃ x z : Nat, x < g.w ∧ z < g.d ∧ X = (x : Int) + g.ox ∧ Z = (z : Int) + g.oz ∧
      g.at (z * g.w + x) = some c := by
  rw [getChunk_eq] at h
  split_ifs at h with ho
  obtain ⟨e, b1, b2, e1, e2⟩ := slotOf_nat g _ _ ho
  rw [e] at h
  exact ⟨_, _, b1, b2, by omega, by omega, h⟩

theorem slotIdentity_world (g : Chunks) (hid : g.SlotIdentity) (X Z : Int) (c : Chunk)
    (h : g.getChunk X Z = some c) : c.x = X ∧ c.z = Z := by
  obtain ⟨x, z, hx, hz, eX, eZ, hc⟩ := getChunk_some g X Z c h
  obtain ⟨h1, h2⟩ := hid x z hx hz c hc
  exact ⟨by omega, by omega⟩

theorem slotIdentity_of_world (g : Chunks)
    (h : ∀ X Z c, g.getChunk X Z = some c → c.x = X ∧ c.z = Z) : g.SlotIdentity := by
  intro x z hx hz c hc
  rw [← getChunk_slot g x z hx hz] at hc
  exact h _ _ c hc

/-- After `translate` the column at a world column coordinate inside the new
window is the column that was there before. -/
theorem translate_getChunk (g : Chunks) (dx dz : Int) (hs : g.Sized) (X Z : Int) :
    (g.translate dx dz).getChunk X Z =
      if (g.translate dx dz).outsideWindow X Z then none else g.getChunk X Z := by
  obtain ⟨_, _, a3, a4, _, a6, a7, _⟩ := translate_fields g dx dz
  by_cases ho : (g.translate dx dz).outsideWindow X Z
  · rw [if_pos ho, getChunk_eq, if_pos ho]
  · rw [if_neg ho, getChunk_eq, if_neg ho]
    obtain ⟨e, b1, b2, e1, e2⟩ := slotOf_nat _ _ _ ho
    rw [a3] at b1; rw [a4] at b2
    rw [e, a3, translate_at g dx dz hs _ _ b1 b2, e1, e2, a6, a7, getChunk_eq]
    simp only [Chunks.outsideWindow, Chunks.slotOf]
    have q1 : X - (g.ox + dx) + dx = X - g.ox := by ring
    have q2 : Z - (g.oz + dz) + dz = Z - g.oz := by ring
    rw [q1, q2]
    split_ifs with h1 h2 h2
    · exact absurd h2 (by omega)
    · rfl
    · rfl
    · exact absurd h1 (by omega)

theorem translate_slotIdentity (g : Chunks) (dx dz : Int) (hs : g.Sized)
    (hid : g.SlotIdentity) : (g.translate dx dz).SlotIdentity := by
  apply slotIdentity_of_world
  intro X Z c h
  rw [translate_getChunk g dx dz hs] at h
  split_ifs at h
  exact slotIdentity_world g hid X Z c h

/-! ## Evictions -/

theorem countP_unique {α : Type} (l : List α) (q : α → Bool) (a : α) (hnd : l.Nodup)
    (ha : a ∈ l) (h : ∀ b ∈ l, q b = true ↔ b = a) : l.countP q = 1 := by
  induction l with
  | nil => exact absurd ha (List.not_mem_nil _)
  | cons b l ih =>
    rw [List.nodup_cons] at hnd
    obtain ⟨hnot, hnd'⟩ := hnd
    by_cases hba : b = a
    · have hq : q b = true := (h b (List.mem_cons_self _ _)).2 hba
      have hz : l.countP q = 0 := by
        rw [List.countP_eq_zero]
        intro b' hb' hq'
        have := (h b' (List.mem_cons_of_mem _ hb')).1 hq'
        rw [this, ← hba] at hb'
        exact hnot hb'
      rw [List.countP_cons_of_pos _ _ hq, hz]
    · have hq : ¬ q b = true := fun hq => hba ((h b (List.mem_cons_self _ _)).1 hq)
      rw [List.countP_cons_of_neg _ _ hq]
      rcases List.mem_cons.1 ha with e | hin
      · exact absurd e.symm hba
      · exact ih hnd' hin (fun b' hb' => h b' (List.mem_cons_of_mem _ hb'))

theorem translate_outsideWindow (g : Chunks) (dx dz : Int) (x z : Nat) :
    (g.translate dx dz).outsideWindow ((x : Int) + g.ox) ((z : Int) + g.oz) ↔
      g.leaves dx dz (z, x) := by
  obtain ⟨_, _, a3, a4, _, a6, a7, _⟩ := translate_fields g dx dz
  simp only [Chunks.outsideWindow, Chunks.leaves, a3, a4, a6, a7]
  omega

theorem evictedAt_some (g : Chunks) (dx dz : Int) (p : Nat × Nat) (c : Chunk) :
    g.evictedAt dx dz p = some c ↔ g.at (p.1 * g.w + p.2) = some c ∧ g.leaves dx dz p := by
  unfold Chunks.evictedAt
  cases hc : g.at (p.1 * g.w + p.2) with
  | none => simp
  | some c' =>
    by_cases hl : g.leaves dx dz p
    · simp [hl]
    · simp [hl]

/-- How often a column occurs among the columns `translate(dx, dz)` evicts: once
when it is live and its coordinate is outside the new window, else never. -/
theorem evicted_count (g : Chunks) (dx dz : Int) (hid : g.SlotIdentity) (c : Chunk) :
    (g.evicted dx dz).count c =
      if g.getChunk c.x c.z = some c ∧ (g.translate dx dz).outsideWindow c.x c.z then 1
      else 0 := by
  rw [Chunks.evicted, List.count_filterMap]
  split_ifs with hcond
  · obtain ⟨hlive, hout⟩ := hcond
    obtain ⟨x, z, hx, hz, eX, eZ, hc⟩ := getChunk_some g _ _ c hlive
    rw [eX, eZ, translate_outsideWindow] at hout
    refine countP_unique _ _ (z, x) (nodup_slotPairs _ _)
      ((mem_slotPairs g.w g.d (z, x)).2 ⟨hz, hx⟩) ?_
    intro p hp
    rw [mem_slotPairs] at hp
    rw [beq_iff_eq, evictedAt_some]
    constructor
    · rintro ⟨h1, _⟩
      obtain ⟨i1, i2⟩ := hid p.2 p.1 hp.2 hp.1 c h1
      obtain ⟨p1, p2⟩ := p
      simp only [Prod.mk.injEq] at i1 i2 ⊢
      omega
    · intro h; subst h; exact ⟨hc, hout⟩
  · rw [List.countP_eq_zero]
    intro p hp hb
    rw [mem_slotPairs] at hp
    rw [beq_iff_eq, evictedAt_some] at hb
    obtain ⟨h1, h2⟩ := hb
    obtain ⟨i1, i2⟩ := hid p.2 p.1 hp.2 hp.1 c h1
    apply hcond
    rw [i1, i2, getChunk_slot g _ _ hp.2 hp.1, translate_outsideWindow]
    exact ⟨h1, h2⟩

theorem translate_hidden_count (g : Chunks) (dx dz : Int) (hid : g.SlotIdentity) (c : Chunk) :
    (g.translate dx dz).hidden.count c = g.hidden.count c +
      (if g.getChunk c.x c.z = some c ∧ (g.translate dx dz).outsideWindow c.x c.z then 1
       else 0) := by
  obtain ⟨_, _, _, _, _, _, _, _, a9, _⟩ := translate_fields g dx dz
  rw [a9, List.count_append, evicted_count g dx dz hid c]

theorem translate_regions_count (g : Chunks) (dx dz : Int) (hid : g.SlotIdentity) (c : Chunk)
    (hstore : g.worldFiles.isSome) :
    (g.translate dx dz).regions.count c = g.regions.count c +
      (if g.getChunk c.x c.z = some c ∧ (g.translate dx dz).outsideWindow c.x c.z then 1
       else 0) := by
  obtain ⟨_, _, _, _, _, _, _, _, _, a10, _⟩ := translate_fields g dx dz
  rw [a10, if_pos hstore, List.count_append, evicted_count g dx dz hid c]

theorem translate_regions_none (g : Chunks) (dx dz : Int) (hstore : g.worldFiles = none) :
    (g.translate dx dz).regions = g.regions := by
  obtain ⟨_, _, _, _, _, _, _, _, _, a10, _⟩ := translate_fields g dx dz
  rw [a10, hstore]; rfl

/-- C3 (amended): after `translate(dx, dz)` on a grid with the slot-identity
invariant, a column that was live at slot `(x, z)` and whose new slot
`(x - dx, z - dz)` is inside `[0, w) x [0, d)` is returned by `getChunk` at its
unchanged world column coordinate and is neither notified nor handed to the
store; a column whose new slot is outside gets exactly one
`EVT_CHUNK_HIDDEN` notification, is handed to the store exactly once when a
store is attached and not at all when none is, and is no longer returned by
`getChunk` at any coordinate. -/
theorem translate_columns (g : Chunks) (dx dz : Int) (hs : g.Sized) (hid : g.SlotIdentity)
    (x z : Nat) (hx : x < g.w) (hz : z < g.d) (c : Chunk)
    (hc : g.at (z * g.w + x) = some c) :
    (¬ g.leaves dx dz (z, x) →
      (g.translate dx dz).getChunk ((x : Int) + g.ox) ((z : Int) + g.oz) = some c ∧
      (g.translate dx dz).hidden.count c = g.hidden.count c ∧
      (g.translate dx dz).regions.count c = g.regions.count c) ∧
    (g.leaves dx dz (z, x) →
      (g.translate dx dz).hidden.count c = g.hidden.count c + 1 ∧
      (g.worldFiles.isSome → (g.translate dx dz).regions.count c = g.regions.count c + 1) ∧
      (g.worldFiles = none → (g.translate dx dz).regions = g.regions) ∧
      ∀ X Z, (g.translate dx dz).getChunk X Z ≠ some c) := by
  obtain ⟨i1, i2⟩ := hid x z hx hz c hc
  have hlive : g.getChunk c.x c.z = some c := by
    rw [i1, i2, getChunk_slot g x z hx hz]; exact hc
  have hout := translate_outsideWindow g dx dz x z
  rw [← i1, ← i2] at hout
  constructor
  · intro hl
    have hno : ¬ (g.getChunk c.x c.z = some c ∧ (g.translate dx dz).outsideWindow c.x c.z) :=
      fun h => hl (hout.1 h.2)
    refine ⟨?_, ?_, ?_⟩
    · rw [← i1, ← i2, translate_getChunk g dx dz hs, if_neg (fun h => hl (hout.1 h))]
      exact hlive
    · rw [translate_hidden_count g dx dz hid c, if_neg hno]; rfl
    · cases hw : g.worldFiles with
      | none => rw [translate_regions_none g dx dz hw]
      | some wf =>
        rw [translate_regions_count g dx dz hid c (by rw [hw]; rfl), if_neg hno]; rfl
  · intro hl
    have hyes : g.getChunk c.x c.z = some c ∧ (g.translate dx dz).outsideWindow c.x c.z :=
      ⟨hlive, hout.2 hl⟩
    refine ⟨?_, ?_, ?_, ?_⟩
    · rw [translate_hidden_count g dx dz hid c, if_pos hyes]
    · intro hstore
      rw [translate_regions_count g dx dz hid c hstore, if_pos hyes]
    · exact translate_regions_none g dx dz
    · intro X Z hget
      have hid' := translate_slotIdentity g dx dz hs hid
      obtain ⟨e1, e2⟩ := slotIdentity_world _ hid' X Z c hget
      rw [← e1, ← e2, translate_getChunk g dx dz hs, if_pos hyes.2] at hget
      exact absurd hget (by simp)

theorem roundtrip_at (g : Chunks) (dx dz : Int) (hs : g.Sized) (x z : Nat)
    (hx : x < g.w) (hz : z < g.d) :
    ((g.translate dx dz).translate (-dx) (-dz)).at (z * g.w + x) =
      if g.leaves dx dz (z, x) then none else g.at (z * g.w + x) := by
  obtain ⟨_, _, a3, a4, _⟩ := translate_fields g dx dz
  have hs' := translate_sized g dx dz hs
  have h1 := translate_at (g.translate dx dz) (-dx) (-dz) hs' x z (by rw [a3]; exact hx)
    (by rw [a4]; exact hz)
  rw [a3, a4] at h1
  rw [h1]
  simp only [Chunks.leaves]
  by_cases hl : (x : Int) - dx < 0 ∨ (z : Int) - dz < 0 ∨ (x : Int) - dx ≥ (g.w : Int) ∨
      (z : Int) - dz ≥ (g.d : Int)
  · rw [if_pos hl, if_neg (by omega)]
  · rw [if_neg hl, if_pos (by omega)]
    have ex : (((x : Int) + -dx).toNat : Int) = (x : Int) + -dx := Int.toNat_of_nonneg (by omega)
    have ez : (((z : Int) + -dz).toNat : Int) = (z : Int) + -dz := Int.toNat_of_nonneg (by omega)
    have ei : (((z : Int) + -dz) * g.w + ((x : Int) + -dx)).toNat =
        ((z : Int) + -dz).toNat * g.w + ((x : Int) + -dx).toNat := by
      have : ((z : Int) + -dz) * g.w + ((x : Int) + -dx) =
          ((((z : Int) + -dz).toNat * g.w + ((x : Int) + -dx).toNat : Nat) : Int) := by
        push_cast; rw [ex, ez]
      rw [this]; exact Int.toNat_ofNat _
    rw [ei, translate_at g dx dz hs _ _ (by omega) (by omega), ex, ez, if_pos (by omega)]
    have : ((z : Int) + -dz + dz) * g.w + ((x : Int) + -dx + dx) =
        ((z * g.w + x : Nat) : Int) := by push_cast; ring
    rw [this, Int.toNat_ofNat]

theorem roundtrip_evicted (g : Chunks) (dx dz : Int) (hs : g.Sized) :
    (g.translate dx dz).evicted (-dx) (-dz) = [] := by
  obtain ⟨_, _, a3, a4, _⟩ := translate_fields g dx dz
  rw [Chunks.evicted, List.filterMap_eq_nil_iff]
  intro p hp
  rw [mem_slotPairs, a3, a4] at hp
  cases he : (g.translate dx dz).evictedAt (-dx) (-dz) p with
  | none => rfl
  | some c =>
    exfalso
    rw [evictedAt_some, a3, translate_at g dx dz hs _ _ hp.2 hp.1] at he
    obtain ⟨h1, h2⟩ := he
    simp only [Chunks.leaves, a3, a4] at h2
    split_ifs at h1 with hin
    omega

/-- C4: `translate(dx, dz)` followed by `translate(-dx, -dz)` restores the
origin; every slot `(x, z)` then holds what it held originally when
`(x - dx, z - dz)` lies inside `[0, w) x [0, d)` and is empty otherwise; the
second call evicts no column. -/
theorem translate_back (g : Chunks) (dx dz : Int) (hs : g.Sized) :
    ((g.translate dx dz).translate (-dx) (-dz)).ox = g.ox ∧
    ((g.translate dx dz).translate (-dx) (-dz)).oz = g.oz ∧
    (∀ x z : Nat, x < g.w → z < g.d →
      ((g.translate dx dz).translate (-dx) (-dz)).at (z * g.w + x) =
        if 0 ≤ (x : Int) - dx ∧ (x : Int) - dx < g.w ∧ 0 ≤ (z : Int) - dz ∧
            (z : Int) - dz < g.d
        then g.at (z * g.w + x) else none) ∧
    ((g.translate dx dz).translate (-dx) (-dz)).hidden = (g.translate dx dz).hidden ∧
    ((g.translate dx dz).translate (-dx) (-dz)).regions = (g.translate dx dz).regions ∧
    ((g.translate dx dz).translate (-dx) (-dz)).chunksCount =
      (g.translate dx dz).chunksCount := by
  obtain ⟨_, _, _, _, _, a6, a7, _⟩ := translate_fields g dx dz
  obtain ⟨_, _, _, _, _, b6, b7, _, b9, b10, b11⟩ :=
    translate_fields (g.translate dx dz) (-dx) (-dz)
  have he := roundtrip_evicted g dx dz hs
  refine ⟨?_, ?_, ?_, ?_, ?_, ?_⟩
  · rw [b6, a6]; ring
  · rw [b7, a7]; ring
  · intro x z hx hz
    rw [roundtrip_at g dx dz hs x z hx hz]
    simp only [Chunks.leaves]
    split_ifs with h1 h2 h2
    · exact absurd h2 (by omega)
    · rfl
    · rfl
    · exact absurd h1 (by omega)
  · rw [b9, he, List.append_nil]
  · rw [b10, he, List.append_nil]; split_ifs <;> rfl
  · rw [b11, he]; simp

/-! ## Composing window moves -/

theorem outsideWindow_iff (g : Chunks) (X Z : Int) :
    g.outsideWindow X Z ↔ ¬ inWindow g.ox g.oz g.w g.d X Z := by
  simp only [Chunks.outsideWindow, inWindow]; omega

theorem getChunk_inWindow (g : Chunks) (X Z : Int) (c : Chunk) (h : g.getChunk X Z = some c) :
    inWindow g.ox g.oz g.w g.d X Z := by
  rw [getChunk_eq] at h
  split_ifs at h with ho
  by_contra hn
  exact ho ((outsideWindow_iff g X Z).2 hn)

theorem refocus_refl (g : Chunks) (hs : g.Sized) (hid : g.SlotIdentity) (P : Int → Int → Prop)
    (hP : ∀ X Z, inWindow g.ox g.oz g.w g.d X Z → P X Z) : Refocus g g P := by
  refine ⟨hs, hid, rfl, fun _ _ _ => rfl, ?_, ?_, fun _ _ => rfl⟩
  · intro X Z hn
    rw [getChunk_eq, if_pos]
    rw [outsideWindow_iff]
    exact fun h => hn (hP X Z h)
  · intro c hl hn
    exact absurd (hP _ _ (getChunk_inWindow g _ _ c hl)) hn

theorem refocus_trans (g r t : Chunks) (P Q : Int → Int → Prop)
    (h1 : Refocus g r P) (h2 : Refocus r t Q) : Refocus g t (fun X Z => P X Z ∧ Q X Z) := by
  obtain ⟨_, _, w1, p1, n1, c1, k1⟩ := h1
  obtain ⟨s2, i2, w2, p2, n2, c2, k2⟩ := h2
  refine ⟨s2, i2, w2.trans w1, ?_, ?_, ?_, ?_⟩
  · intro X Z h
    rw [p2 X Z h.2, p1 X Z h.1]
  · intro X Z h
    by_cases hq : Q X Z
    · rw [p2 X Z hq]
      exact n1 X Z (fun hp => h ⟨hp, hq⟩)
    · exact n2 X Z hq
  · intro c hl hn
    by_cases hp : P c.x c.z
    · have hq : ¬ Q c.x c.z := fun hq => hn ⟨hp, hq⟩
      rw [c2 c (by rw [p1 _ _ hp]; exact hl) hq, k1 c (fun h => h.2 hp)]
    · rw [k2 c (fun h => by rw [n1 _ _ hp] at h; exact absurd h.1 (by simp)), c1 c hl hp]
  · intro c hn
    have hr : ¬ (r.getChunk c.x c.z = some c ∧ ¬ Q c.x c.z) := by
      rintro ⟨hl, hq⟩
      by_cases hp : P c.x c.z
      · rw [p1 _ _ hp] at hl
        exact hn ⟨hl, fun h => hq h.2⟩
      · rw [n1 _ _ hp] at hl
        exact absurd hl (by simp)
    have hg : ¬ (g.getChunk c.x c.z = some c ∧ ¬ P c.x c.z) :=
      fun h => hn ⟨h.1, fun hpq => h.2 hpq.1⟩
    rw [k2 c hr, k1 c hg]

theorem refocus_congr (g r : Chunks) (P Q : Int → Int → Prop) (h : Refocus g r P)
    (hPQ : ∀ X Z, P X Z ↔ Q X Z) : Refocus g r Q := by
  have : P = Q := by funext X Z; exact propext (hPQ X Z)
  rw [← this]; exact h

theorem translate_refocus (g : Chunks) (dx dz : Int) (hs : g.Sized) (hid : g.SlotIdentity) :
    Refocus g (g.translate dx dz) (inWindow (g.ox + dx) (g.oz + dz) g.w g.d) := by
  obtain ⟨_, _, a3, a4, _, a6, a7, a8, _⟩ := translate_fields g dx dz
  have hout : ∀ X Z, (g.translate dx dz).outsideWindow X Z ↔
      ¬ inWindow (g.ox + dx) (g.oz + dz) g.w g.d X Z := by
    intro X Z
    rw [outsideWindow_iff, a3, a4, a6, a7]
  refine ⟨translate_sized g dx dz hs, translate_slotIdentity g dx dz hs hid, a8, ?_, ?_, ?_, ?_⟩
  · intro X Z h
    rw [translate_getChunk g dx dz hs, if_neg (fun ho => (hout X Z).1 ho h)]
  · intro X Z h
    rw [translate_getChunk g dx dz hs, if_pos ((hout X Z).2 h)]
  · intro c hl hn
    rw [translate_hidden_count g dx dz hid c, if_pos ⟨hl, (hout _ _).2 hn⟩]
  · intro c hn
    rw [translate_hidden_count g dx dz hid c, if_neg (fun h => hn ⟨h.1, (hout _ _).1 h.2⟩)]
    rfl

/-! ## `resize` -/

theorem translate3_refocus (g : Chunks) (a b a2 b2 a3 b3 : Int) (hs : g.Sized)
    (hid : g.SlotIdentity) :
    Refocus g (((g.translate a b).translate a2 b2).translate a3 b3)
      (fun X Z => (inWindow (g.ox + a) (g.oz + b) g.w g.d X Z ∧
        inWindow (g.ox + a + a2) (g.oz + b + b2) g.w g.d X Z) ∧
        inWindow (g.ox + a + a2 + a3) (g.oz + b + b2 + b3) g.w g.d X Z) ∧
    (((g.translate a b).translate a2 b2).translate a3 b3).w = g.w ∧
    (((g.translate a b).translate a2 b2).translate a3 b3).d = g.d ∧
    (((g.translate a b).translate a2 b2).translate a3 b3).ox = g.ox + a + a2 + a3 ∧
    (((g.translate a b).translate a2 b2).translate a3 b3).oz = g.oz + b + b2 + b3 := by
  obtain ⟨_, _, f3, f4, _, f6, f7, _⟩ := translate_fields g a b
  obtain ⟨_, _, g3, g4, _, g6, g7, _⟩ := translate_fields (g.translate a b) a2 b2
  obtain ⟨_, _, h3, h4, _, h6, h7, _⟩ :=
    translate_fields ((g.translate a b).translate a2 b2) a3 b3
  have r1 := translate_refocus g a b hs hid
  have r2 := translate_refocus (g.translate a b) a2 b2 r1.1 r1.2.1
  have r3 := translate_refocus ((g.translate a b).translate a2 b2) a3 b3 r2.1 r2.2.1
  rw [f3, f4, f6, f7] at r2
  rw [g3, g4, g6, g7, f3, f4, f6, f7] at r3
  refine ⟨refocus_trans _ _ _ _ _ (refocus_trans _ _ _ _ _ r1 r2) r3, ?_, ?_, ?_, ?_⟩
  · rw [h3, g3, f3]
  · rw [h4, g4, f4]
  · rw [h6, g6, f6]
  · rw [h7, g7, f7]

theorem shrinkW_refocus (g : Chunks) (newW : Nat) (hs : g.Sized) (hid : g.SlotIdentity) :
    Refocus g (g.shrinkW newW)
      (inWindow (g.ox + shrinkOffset g.w newW) g.oz (min g.w newW) g.d) ∧
    (g.shrinkW newW).w = g.w ∧ (g.shrinkW newW).d = g.d ∧
    (g.shrinkW newW).ox = g.ox + shrinkOffset g.w newW ∧ (g.shrinkW newW).oz = g.oz := by
  unfold Chunks.shrinkW shrinkOffset
  by_cases h : newW < g.w
  · rw [if_pos h, if_pos h]
    simp only []
    have hdiv : Int.tdiv ((g.w : Int) - (newW : Int)) 2 = (((g.w - newW) / 2 : Nat) : Int) := by
      rw [Int.tdiv_eq_ediv (by omega) (by omega)]; omega
    obtain ⟨r, e1, e2, e3, e4⟩ := translate3_refocus g
      (Int.tdiv ((g.w : Int) - (newW : Int)) 2) 0 (-((g.w : Int) - (newW : Int))) 0
      ((g.w : Int) - (newW : Int)) 0 hs hid
    refine ⟨refocus_congr _ _ _ _ r ?_, e1, e2, ?_, ?_⟩
    · intro X Z
      simp only [inWindow, hdiv]
      omega
    · rw [e3, hdiv]; ring
    · rw [e4]; ring
  · rw [if_neg h, if_neg h]
    refine ⟨refocus_refl g hs hid _ ?_, rfl, rfl, by simp, rfl⟩
    intro X Z hw
    simp only [inWindow] at hw ⊢
    omega

theorem shrinkD_refocus (g : Chunks) (newD : Nat) (hs : g.Sized) (hid : g.SlotIdentity) :
    Refocus g (g.shrinkD newD)
      (inWindow g.ox (g.oz + shrinkOffset g.d newD) g.w (min g.d newD)) ∧
    (g.shrinkD newD).w = g.w ∧ (g.shrinkD newD).d = g.d ∧
    (g.shrinkD newD).ox = g.ox ∧ (g.shrinkD newD).oz = g.oz + shrinkOffset g.d newD := by
  unfold Chunks.shrinkD shrinkOffset
  by_cases h : newD < g.d
  · rw [if_pos h, if_pos h]
    simp only []
    have hdiv : Int.tdiv ((g.d : Int) - (newD : Int)) 2 = (((g.d - newD) / 2 : Nat) : Int) := by
      rw [Int.tdiv_eq_ediv (by omega) (by omega)]; omega
    obtain ⟨r, e1, e2, e3, e4⟩ := translate3_refocus g
      0 (Int.tdiv ((g.d : Int) - (newD : Int)) 2) 0 (-((g.d : Int) - (newD : Int)))
      0 ((g.d : Int) - (newD : Int)) hs hid
    refine ⟨refocus_congr _ _ _ _ r ?_, e1, e2, ?_, ?_⟩
    · intro X Z
      simp only [inWindow, hdiv]
      omega
    · rw [e3]; ring
    · rw [e4, hdiv]; ring
  · rw [if_neg h, if_neg h]
    refine ⟨refocus_refl g hs hid _ ?_, rfl, rfl, rfl, by simp⟩
    intro X Z hw
    simp only [inWindow] at hw ⊢
    omega

theorem resizeCopy_eq (g : Chunks) (newW newD : Nat) :
    g.resizeCopy newW newD =
      applyWrites (List.replicate (newW * newD) none)
        ((slotPairs (min g.w newW) (min g.d newD)).map
          (fun p => (p.1 * newW + p.2, g.at (p.1 * g.w + p.2)))) := by
  simp only [Chunks.resizeCopy, foldl_nested, applyWrites, slotPairs, List.foldl_map]

theorem resizeCopy_length (g : Chunks) (newW newD : Nat) :
    (g.resizeCopy newW newD).length = newW * newD := by
  rw [resizeCopy_eq, applyWrites_length, List.length_replicate]

theorem copy_index_inj (n : Nat) (p q : Nat × Nat) (hp : p.2 < n) (hq : q.2 < n)
    (h : p.1 * n + p.2 = q.1 * n + q.2) : p = q := by
  obtain ⟨p1, p2⟩ := p
  obtain ⟨q1, q2⟩ := q
  simp only at hp hq h
  have := target_inj n p2 p1 q2 q1 (by omega) (by omega) (by omega) (by omega) (by omega)
    (by omega) (by
      have e1 : ((p1 : Int) * n + p2) = ((p1 * n + p2 : Nat) : Int) := by push_cast; ring
      have e2 : ((q1 : Int) * n + q2) = ((q1 * n + q2 : Nat) : Int) := by push_cast; ring
      rw [e1, e2, Int.toNat_ofNat, Int.toNat_ofNat, h])
  simp only [Prod.mk.injEq]
  omega

theorem resizeCopy_getD (g : Chunks) (newW newD x z : Nat) (hx : x < newW) (hz : z < newD) :
    (g.resizeCopy newW newD).getD (z * newW + x) none =
      if x < g.w ∧ z < g.d then g.at (z * g.w + x) else none := by
  rw [resizeCopy_eq]
  by_cases hin : x < g.w ∧ z < g.d
  · rw [if_pos hin]
    refine applyWrites_getD_mem _ _ _ _ ?_ ?_ ?_
    · rw [List.map_map]
      refine List.Nodup.map_on ?_ (nodup_slotPairs _ _)
      intro p hp q hq hpq
      rw [mem_slotPairs] at hp hq
      exact copy_index_inj newW p q (by omega) (by omega) hpq
    · exact List.mem_map.2 ⟨(z, x), (mem_slotPairs _ _ _).2 ⟨by simp only; omega,
        by simp only; omega⟩, rfl⟩
    · rw [List.length_replicate]; exact slot_lt _ _ _ _ hx hz
  · rw [if_neg hin, applyWrites_getD_not_mem]
    · simp only [List.getD_eq_getElem?_getD, List.getElem?_replicate]
      split_ifs <;> rfl
    · intro iv hm hc
      obtain ⟨p, hp, e⟩ := List.mem_map.1 hm
      rw [mem_slotPairs] at hp
      rw [← e] at hc
      have := copy_index_inj newW p (z, x) (by omega) hx hc
      rw [this] at hp
      simp only at hp
      omega

/-- The reallocation at the end of `resize` keeps every column that lies in the
new window, provided no live column lies outside it. -/
theorem reallocate_refocus (g : Chunks) (newW newD : Nat) (hid : g.SlotIdentity)
    (hall : ∀ X Z c, g.getChunk X Z = some c → inWindow g.ox g.oz newW newD X Z) :
    Refocus g (g.reallocate newW newD) (inWindow g.ox g.oz newW newD) := by
  have hget : ∀ X Z, inWindow g.ox g.oz newW newD X Z →
      (g.reallocate newW newD).getChunk X Z = g.getChunk X Z := by
    intro X Z hP
    have ho : ¬ (g.reallocate newW newD).outsideWindow X Z := by
      rw [outsideWindow_iff]; exact fun h => h hP
    rw [getChunk_eq, if_neg ho]
    obtain ⟨e, b1, b2, e1, e2⟩ := slotOf_nat _ _ _ ho
    have b1' : (X - g.ox).toNat < newW := b1
    have b2' : (Z - g.oz).toNat < newD := b2
    have e' : (g.reallocate newW newD).slotOf X Z =
        (Z - g.oz).toNat * newW + (X - g.ox).toNat := e
    have e1' : (((X - g.ox).toNat : Nat) : Int) = X - g.ox := e1
    have e2' : (((Z - g.oz).toNat : Nat) : Int) = Z - g.oz := e2
    rw [e']
    show (g.resizeCopy newW newD).getD _ none = _
    rw [resizeCopy_getD g newW newD _ _ b1' b2', getChunk_eq]
    by_cases hog : g.outsideWindow X Z
    · rw [if_pos hog, if_neg]
      simp only [Chunks.outsideWindow] at hog
      omega
    · rw [if_neg hog, if_pos]
      · obtain ⟨f, _⟩ := slotOf_nat g X Z hog
        rw [f]
      · simp only [Chunks.outsideWindow] at hog
        omega
  have hnone : ∀ X Z, ¬ inWindow g.ox g.oz newW newD X Z →
      (g.reallocate newW newD).getChunk X Z = none := by
    intro X Z hP
    rw [getChunk_eq, if_pos]
    rw [outsideWindow_iff]
    exact hP
  refine ⟨?_, ?_, rfl, hget, hnone, ?_, fun _ _ => rfl⟩
  · refine ⟨?_, ?_, rfl⟩
    · exact resizeCopy_length g newW newD
    · exact List.length_replicate _ _
  · apply slotIdentity_of_world
    intro X Z c h
    by_cases hP : inWindow g.ox g.oz newW newD X Z
    · rw [hget X Z hP] at h
      exact slotIdentity_world g hid X Z c h
    · rw [hnone X Z hP] at h
      exact absurd h (by simp)
  · intro c hl hn
    exact absurd (hall _ _ c hl) hn

/-- The effect of `resize` in world coordinates. -/
theorem resize_refocus (g : Chunks) (newW newD : Nat) (hs : g.Sized) (hid : g.SlotIdentity) :
    Refocus g (g.resize newW newD)
      (inWindow (g.ox + shrinkOffset g.w newW) (g.oz + shrinkOffset g.d newD)
        (min g.w newW) (min g.d newD)) ∧
    (g.resize newW newD).w = newW ∧ (g.resize newW newD).d = newD ∧
    (g.resize newW newD).ox = g.ox + shrinkOffset g.w newW ∧
    (g.resize newW newD).oz = g.oz + shrinkOffset g.d newD := by
  obtain ⟨r1, a1, a2, a3, a4⟩ := shrinkW_refocus g newW hs hid
  obtain ⟨r2, b1, b2, b3, b4⟩ := shrinkD_refocus (g.shrinkW newW) newD r1.1 r1.2.1
  have r12 := refocus_trans _ _ _ _ _ r1 r2
  have hall : ∀ X Z c, ((g.shrinkW newW).shrinkD newD).getChunk X Z = some c →
      inWindow ((g.shrinkW newW).shrinkD newD).ox ((g.shrinkW newW).shrinkD newD).oz
        newW newD X Z := by
    intro X Z c h
    by_contra hn
    obtain ⟨_, _, _, _, n12, _⟩ := r12
    have : ¬ (inWindow (g.ox + shrinkOffset g.w newW) g.oz (min g.w newW) g.d X Z ∧
        inWindow (g.shrinkW newW).ox ((g.shrinkW newW).oz + shrinkOffset (g.shrinkW newW).d newD)
          (g.shrinkW newW).w (min (g.shrinkW newW).d newD) X Z) := by
      intro hP
      apply hn
      rw [b3, b4, a3, a4, a2]
      rw [a1, a2, a3, a4] at hP
      simp only [inWindow, shrinkOffset] at hP ⊢
      split_ifs at hP ⊢ <;> omega
    rw [n12 X Z this] at h
    exact absurd h (by simp)
  have r3 := reallocate_refocus ((g.shrinkW newW).shrinkD newD) newW newD r2.2.1 hall
  have r123 := refocus_trans _ _ _ _ _ r12 r3
  refine ⟨refocus_congr _ _ _ _ r123 ?_, rfl, rfl, ?_, ?_⟩
  · intro X Z
    simp only [inWindow, b3, b4, a1, a2, a3, a4, shrinkOffset]
    split_ifs <;> omega
  · show ((g.shrinkW newW).shrinkD newD).ox = _
    rw [b3, a3]
  · show ((g.shrinkW newW).shrinkD newD).oz = _
    rw [b4, a4, a2]

/-- C10: `resize(newW, newD)` on a grid with the slot-identity invariant.  With
`a = (w - newW) / 2` if `newW < w` and `0` otherwise, and `b` likewise for the
depth: the grid then has size `newW x newD`; a column that was live at a slot
`(x, z)` with `a <= x < a + min(w, newW)` and `b <= z < b + min(d, newD)` is
returned by `getChunk` at its unchanged world coordinate and was not notified;
every other live column was notified as hidden exactly once and is no longer
returned by `getChunk`; and every column the resized grid returns is one of the
kept columns. -/
theorem resize_columns (g : Chunks) (newW newD : Nat) (hs : g.Sized) (hid : g.SlotIdentity) :
    (g.resize newW newD).w = newW ∧ (g.resize newW newD).d = newD ∧
    (∀ x z : Nat, x < g.w → z < g.d → ∀ c, g.at (z * g.w + x) = some c →
      ((shrinkOffset g.w newW ≤ x ∧ x < shrinkOffset g.w newW + min g.w newW ∧
          shrinkOffset g.d newD ≤ z ∧ z < shrinkOffset g.d newD + min g.d newD) →
        (g.resize newW newD).getChunk ((x : Int) + g.ox) ((z : Int) + g.oz) = some c ∧
        (g.resize newW newD).hidden.count c = g.hidden.count c) ∧
      (¬ (shrinkOffset g.w newW ≤ x ∧ x < shrinkOffset g.w newW + min g.w newW ∧
          shrinkOffset g.d newD ≤ z ∧ z < shrinkOffset g.d newD + min g.d newD) →
        (g.resize newW newD).hidden.count c = g.hidden.count c + 1 ∧
        ∀ X Z, (g.resize newW newD).getChunk X Z ≠ some c)) ∧
    (∀ X Z c, (g.resize newW newD).getChunk X Z = some c →
      ∃ x z : Nat, x < g.w ∧ z < g.d ∧
        (shrinkOffset g.w newW ≤ x ∧ x < shrinkOffset g.w newW + min g.w newW ∧
          shrinkOffset g.d newD ≤ z ∧ z < shrinkOffset g.d newD + min g.d newD) ∧
        X = (x : Int) + g.ox ∧ Z = (z : Int) + g.oz ∧ g.at (z * g.w + x) = some c) := by
  obtain ⟨⟨_, rid, _, keep, drop, once, never⟩, e1, e2, _, _⟩ := resize_refocus g newW newD hs hid
  have hP : ∀ x z : Nat,
      inWindow (g.ox + shrinkOffset g.w newW) (g.oz + shrinkOffset g.d newD)
        (min g.w newW) (min g.d newD) ((x : Int) + g.ox) ((z : Int) + g.oz) ↔
      (shrinkOffset g.w newW ≤ x ∧ x < shrinkOffset g.w newW + min g.w newW ∧
          shrinkOffset g.d newD ≤ z ∧ z < shrinkOffset g.d newD + min g.d newD) := by
    intro x z
    simp only [inWindow]
    omega
  refine ⟨e1, e2, ?_, ?_⟩
  · intro x z hx hz c hc
    obtain ⟨i1, i2⟩ := hid x z hx hz c hc
    have hlive : g.getChunk c.x c.z = some c := by
      rw [i1, i2, getChunk_slot g x z hx hz]; exact hc
    constructor
    · intro hin
      have hp := (hP x z).2 hin
      refine ⟨?_, ?_⟩
      · rw [keep _ _ hp, ← i1, ← i2]; exact hlive
      · apply never
        rw [i1, i2]
        exact fun h => h.2 hp
    · intro hout
      have hp : ¬ inWindow (g.ox + shrinkOffset g.w newW) (g.oz + shrinkOffset g.d newD)
          (min g.w newW) (min g.d newD) c.x c.z := by
        rw [i1, i2]; exact fun h => hout ((hP x z).1 h)
      refine ⟨once c hlive hp, ?_⟩
      intro X Z hget
      obtain ⟨q1, q2⟩ := slotIdentity_world _ rid X Z c hget
      rw [← q1, ← q2, drop _ _ hp] at hget
      exact absurd hget (by simp)
  · intro X Z c hget
    by_cases hp : inWindow (g.ox + shrinkOffset g.w newW) (g.oz + shrinkOffset g.d newD)
        (min g.w newW) (min g.d newD) X Z
    · rw [keep _ _ hp] at hget
      obtain ⟨x, z, hx, hz, eX, eZ, hc⟩ := getChunk_some g X Z c hget
      rw [eX, eZ] at hp
      exact ⟨x, z, hx, hz, (hP x z).1 hp, eX, eZ, hc⟩
    · rw [drop _ _ hp] at hget
      exact absurd hget (by simp)

/-! ## The slot-identity invariant -/

theorem keeps_refl (g : Chunks) : g.Keeps g :=
  ⟨rfl, rfl, rfl, rfl, rfl, rfl, rfl, fun _ c' h => ⟨c', h, rfl, rfl⟩⟩

theorem keeps_trans (g r t : Chunks) (h1 : g.Keeps r) (h2 : r.Keeps t) : g.Keeps t := by
  obtain ⟨a1, a2, a3, a4, a5, a6, a7, a8⟩ := h1
  obtain ⟨b1, b2, b3, b4, b5, b6, b7, b8⟩ := h2
  refine ⟨b1.trans a1, b2.trans a2, b3.trans a3, b4.trans a4, b5.trans a5, b6.trans a6,
    b7.trans a7, ?_⟩
  intro j c'' h
  obtain ⟨c', h', e1, e2⟩ := b8 j c'' h
  obtain ⟨c, h'', f1, f2⟩ := a8 j c' h'
  exact ⟨c, h'', e1.trans f1, e2.trans f2⟩

theorem keeps_sized (g r : Chunks) (h : g.Keeps r) (hs : g.Sized) : r.Sized := by
  obtain ⟨a1, a2, _, _, a5, a6, a7, _⟩ := h
  obtain ⟨s1, s2, s3⟩ := hs
  exact ⟨by rw [a5, a1, a2, s1], by rw [a6, a1, a2, s2], by rw [a7, a1, a2, s3]⟩

theorem keeps_slotIdentity (g r : Chunks) (h : g.Keeps r) (hid : g.SlotIdentity) :
    r.SlotIdentity := by
  obtain ⟨a1, a2, a3, a4, _, _, _, a8⟩ := h
  intro x z hx hz c' hc'
  rw [a1] at hx hc'
  rw [a2] at hz
  obtain ⟨c, hc, e1, e2⟩ := a8 _ c' hc'
  obtain ⟨i1, i2⟩ := hid x z hx hz c hc
  rw [a3, a4, e1, e2]
  exact ⟨i1, i2⟩

theorem keeps_setSlot (g : Chunks) (i : Nat) (c c' : Chunk) (h : g.at i = some c)
    (hx : c'.x = c.x) (hz : c'.z = c.z) :
    g.Keeps { g with chunks := g.chunks.set i (some c') } := by
  refine ⟨rfl, rfl, rfl, rfl, List.length_set _ _ _, rfl, rfl, ?_⟩
  intro j c'' hj
  simp only [Chunks.at, getD_set_slot] at hj
  split_ifs at hj with hij
  · obtain ⟨e, _⟩ := hij
    rw [Option.some.injEq] at hj
    rw [← e, ← hj]
    exact ⟨c, h, hx, hz⟩
  · exact ⟨c'', hj, rfl, rfl⟩

theorem keeps_touchNeighbour (g : Chunks) (b : Bool) (x z : Int) :
    g.Keeps (g.touchNeighbour b x z) := by
  unfold Chunks.touchNeighbour
  split_ifs with hb
  · split
    · exact keeps_refl g
    · rename_i chunk hc
      rw [getChunk_eq] at hc
      split_ifs at hc
      exact keeps_setSlot g _ chunk _ hc rfl rfl
  · exact keeps_refl g

theorem write_coords (K : Constants) (content : ContentIndices) (c : Chunk)
    (lx y lz : Int) (id states : Nat) :
    (c.write K content lx y lz id states).x = c.x ∧
    (c.write K content lx y lz id states).z = c.z := by
  unfold Chunk.write Chunk.setHeights Chunk.updateHeights Chunk.setModified Chunk.setUnsaved
    Chunk.removeBlockInventory
  simp only []
  split_ifs <;> (try split) <;> exact ⟨rfl, rfl⟩

theorem keeps_set (K : Constants) (content : ContentIndices) (g : Chunks)
    (x y z : Int) (id states : Nat) : g.Keeps (g.set K content x y z id states) := by
  unfold Chunks.set
  simp only []
  split_ifs with h1 h2
  · exact keeps_refl g
  · exact keeps_refl g
  · split
    · exact keeps_refl g
    · rename_i chunk hc
      obtain ⟨wx, wz⟩ := write_coords K content chunk
        (x - g.ox * K.CHUNK_W - floordiv (x - g.ox * K.CHUNK_W) K.CHUNK_W * K.CHUNK_W) y
        (z - g.oz * K.CHUNK_D - floordiv (z - g.oz * K.CHUNK_D) K.CHUNK_D * K.CHUNK_D) id states
      refine keeps_trans _ _ _ (keeps_trans _ _ _ (keeps_trans _ _ _ (keeps_trans _ _ _
        (keeps_setSlot g _ chunk _ hc wx wz) (keeps_touchNeighbour _ _ _ _))
        (keeps_touchNeighbour _ _ _ _)) (keeps_touchNeighbour _ _ _ _))
        (keeps_touchNeighbour _ _ _ _)

theorem keeps_saveSlot (g g' : Chunks) (i : Nat) (h : g.saveSlot i = some g') : g.Keeps g' := by
  have hbase : g.Keeps { g with chunks := g.chunks.set i none } := by
    refine ⟨rfl, rfl, rfl, rfl, List.length_set _ _ _, rfl, rfl, ?_⟩
    intro j c' hj
    simp only [Chunks.at, getD_set_none] at hj
    split_ifs at hj
    exact ⟨c', hj, rfl, rfl⟩
  have hK : ∀ rs wfs, g.Keeps
      { g with chunks := g.chunks.set i none, regions := rs, worldFiles := wfs } :=
    fun _ _ => hbase
  cases hc : g.at i with
  | none =>
    simp only [Chunks.saveSlot, hc, Option.some.injEq] at h
    rw [← h]; exact hK _ _
  | some c =>
    cases hw : g.worldFiles with
    | none =>
      simp only [Chunks.saveSlot, hc, hw] at h
      split_ifs at h <;> (rw [Option.some.injEq] at h; rw [← h]; exact hK _ _)
    | some wf =>
      simp only [Chunks.saveSlot, hc, hw] at h
      split_ifs at h <;> (rw [Option.some.injEq] at h; rw [← h]; exact hK _ _)

theorem keeps_saveLoop (L : List Nat) (g g' : Chunks)
    (h : L.foldlM (fun (g : Chunks) i => g.saveSlot i) g = some g') : g.Keeps g' := by
  induction L generalizing g with
  | nil =>
    simp only [List.foldlM_nil] at h
    have : g = g' := Option.some.inj h
    rw [← this]; exact keeps_refl g
  | cons i L ih =>
    rw [List.foldlM_cons] at h
    cases h1 : g.saveSlot i with
    | none => rw [h1] at h; exact absurd h (by simp)
    | some g1 =>
      rw [h1] at h
      exact keeps_trans _ _ _ (keeps_saveSlot g g1 i h1) (ih g1 h)

theorem keeps_saveAndClear (g g' : Chunks) (h : g.saveAndClear = some g') : g.Keeps g' := by
  unfold Chunks.saveAndClear at h
  cases h1 : (List.range g.volume).foldlM (fun (g : Chunks) i => g.saveSlot i) g with
  | none => rw [h1] at h; exact absurd h (by simp)
  | some g1 =>
    rw [h1, Option.map_some', Option.some.injEq] at h
    have k := keeps_saveLoop _ g g1 h1
    rw [← h]
    exact k

theorem new_sized (w d : Nat) (ox oz : Int) (wfile : Option WorldFiles) :
    (Chunks.new w d ox oz wfile).Sized :=
  ⟨List.length_replicate _ _, List.length_replicate _ _, rfl⟩

theorem new_at (w d : Nat) (ox oz : Int) (wfile : Option WorldFiles) (i : Nat) :
    (Chunks.new w d ox oz wfile).at i = none := by
  simp only [Chunks.at, Chunks.new, List.getD_eq_getElem?_getD, List.getElem?_replicate]
  split_ifs <;> rfl

theorem putChunk_sized (g : Chunks) (chunk : Chunk) (hs : g.Sized) :
    (g.putChunk chunk).2.Sized := by
  unfold Chunks.putChunk
  simp only []
  split_ifs
  · exact hs
  · obtain ⟨s1, s2, s3⟩ := hs
    exact ⟨by rw [List.length_set]; exact s1, s2, s3⟩

theorem putChunk_slotIdentity (g : Chunks) (chunk : Chunk) (hid : g.SlotIdentity) :
    (g.putChunk chunk).2.SlotIdentity := by
  unfold Chunks.putChunk
  simp only []
  split_ifs with ho
  · exact hid
  · intro x z hx hz c hc
    simp only [Chunks.at, getD_set_slot] at hc
    split_ifs at hc with hij
    · obtain ⟨e, _⟩ := hij
      rw [Option.some.injEq] at hc
      have e' : ((chunk.z - g.oz) * g.w + (chunk.x - g.ox)).toNat =
          ((z : Int) * g.w + (x : Int)).toNat := by
        have : ((z : Int) * g.w + (x : Int)) = ((z * g.w + x : Nat) : Int) := by push_cast; ring
        rw [this, Int.toNat_ofNat]; exact e
      have hx' : x < g.w := hx
      have := target_inj g.w _ _ _ _ (by omega) (by omega) (by omega) (by omega) (by omega)
        (by omega) e'
      rw [← hc]
      exact ⟨by show chunk.x = (x : Int) + g.ox; omega, by show chunk.z = (z : Int) + g.oz; omega⟩
    · exact hid x z hx hz c hc

theorem setCenter_cases (K : Constants) (g : Chunks) (x z : Int) :
    g.setCenter K x z = g ∨ ∃ dx dz, g.setCenter K x z = g.translate dx dz := by
  unfold Chunks.setCenter
  simp only []
  split_ifs
  · exact Or.inr ⟨_, _, rfl⟩
  · exact Or.inl rfl

theorem reachable_invariant (K : Constants) (content : ContentIndices) (g : Chunks)
    (h : Reachable K content g) : g.Sized ∧ g.SlotIdentity := by
  induction h with
  | fresh w d ox oz wfile =>
    refine ⟨new_sized w d ox oz wfile, ?_⟩
    intro x z _ _ c hc
    rw [new_at] at hc
    exact absurd hc (by simp)
  | putChunk g chunk _ ih =>
    exact ⟨putChunk_sized g chunk ih.1, putChunk_slotIdentity g chunk ih.2⟩
  | set g x y z id states _ ih =>
    have k := keeps_set K content g x y z id states
    exact ⟨keeps_sized _ _ k ih.1, keeps_slotIdentity _ _ k ih.2⟩
  | setCenter g x z _ ih =>
    rcases setCenter_cases K g x z with e | ⟨dx, dz, e⟩
    · rw [e]; exact ih
    · rw [e]; exact ⟨translate_sized g dx dz ih.1, translate_slotIdentity g dx dz ih.1 ih.2⟩
  | translate g dx dz _ ih =>
    exact ⟨translate_sized g dx dz ih.1, translate_slotIdentity g dx dz ih.1 ih.2⟩
  | resize g newW newD _ ih =>
    obtain ⟨r, _⟩ := resize_refocus g newW newD ih.1 ih.2
    exact ⟨r.1, r.2.1⟩
  | saveAndClear g g' _ hsave ih =>
    have k := keeps_saveAndClear g g' hsave
    exact ⟨keeps_sized _ _ k ih.1, keeps_slotIdentity _ _ k ih.2⟩

/-- C5: the slot-identity invariant.  In every state reachable from a freshly
constructed grid by `putChunk`, `set`, `setCenter`, `translate`, `resize` and
`saveAndClear`, the column in an occupied slot `(x, z)` has the coordinates
`(x + ox, z + oz)`; hence a column never occupies two slots. -/
theorem slot_identity_invariant (K : Constants) (content : ContentIndices) (g : Chunks)
    (h : Reachable K content g) :
    (∀ x z : Nat, x < g.w → z < g.d → ∀ c, g.at (z * g.w + x) = some c →
      c.x = (x : Int) + g.ox ∧ c.z = (z : Int) + g.oz) ∧
    (∀ x z x' z' : Nat, x < g.w → z < g.d → x' < g.w → z' < g.d → ∀ c,
      g.at (z * g.w + x) = some c → g.at (z' * g.w + x') = some c → x = x' ∧ z = z') := by
  have hid := (reachable_invariant K content g h).2
  refine ⟨hid, ?_⟩
  intro x z x' z' hx hz hx' hz' c hc hc'
  obtain ⟨a1, a2⟩ := hid x z hx hz c hc
  obtain ⟨b1, b2⟩ := hid x' z' hx' hz' c hc'
  omega

/-! ## Worked instances -/

theorem sampleGrid_reachable : Reachable sampleK sampleContent sampleGrid :=
  Reachable.putChunk _ _ (Reachable.fresh 2 1 0 0 (some ⟨true⟩))

theorem sampleGridNoStore_reachable : Reachable sampleK sampleContent sampleGridNoStore :=
  Reachable.putChunk _ _ (Reachable.fresh 2 1 0 0 none)

theorem sampleGrid_columnsSized : sampleGrid.ColumnsSized sampleK := by
  intro i c h
  match i with
  | 0 =>
    have e : sampleGrid.at 0 = some (sampleColumn 0 0) := by decide
    rw [e, Option.some.injEq] at h
    rw [← h]; decide
  | 1 =>
    have e : sampleGrid.at 1 = none := by decide
    rw [e] at h; exact absurd h (by simp)
  | (n + 2) =>
    have e : sampleGrid.at (n + 2) = none := rfl
    rw [e] at h; exact absurd h (by simp)

/-- Instance of C1: writing `{7, 3}` at `(1, 1, 1)` of the sample grid and reading
it back. -/
theorem set_then_get_witness :
    (sampleGrid.set sampleK sampleContent 1 1 1 7 3).get sampleK 1 1 1 = some ⟨7, 3⟩ :=
  set_then_get sampleK sampleContent sampleGrid 1 1 1 7 3 (by decide) (by decide) (by decide)
    sampleGrid_columnsSized (by decide) (by decide) (by decide)

/-- Instance of C2 at the negative coordinate `x = -3` and the boundary multiple
`z = 4`. -/
theorem get_addressing_witness :
    floordiv (-3 - sampleGrid.ox * sampleK.CHUNK_W) sampleK.CHUNK_W + sampleGrid.ox =
        -3 / sampleK.CHUNK_W ∧
    floordiv (4 - sampleGrid.oz * sampleK.CHUNK_D) sampleK.CHUNK_D + sampleGrid.oz =
        4 / sampleK.CHUNK_D :=
  (get_addressing sampleK sampleGrid (-3) 1 4 (by decide) (by decide) (by decide)).1

/-- Instance of C3 (amended): moving the sample grid by one column evicts the
column `(0, 0)`, which is notified once. -/
theorem translate_columns_witness :
    (sampleGrid.translate 1 0).hidden.count (sampleColumn 0 0) =
      sampleGrid.hidden.count (sampleColumn 0 0) + 1 :=
  ((translate_columns sampleGrid 1 0 (reachable_invariant _ _ _ sampleGrid_reachable).1
    (reachable_invariant _ _ _ sampleGrid_reachable).2 0 0 (by decide) (by decide)
    (sampleColumn 0 0) (by decide)).2 (by decide)).1

/-- Counterexample to C3 as stated: without a store the evicted column `(0, 0)` is
notified but is not handed to any store. -/
theorem translate_without_store :
    sampleGridNoStore.SlotIdentity ∧
    sampleGridNoStore.at (0 * sampleGridNoStore.w + 0) = some (sampleColumn 0 0) ∧
    sampleGridNoStore.leaves 1 0 (0, 0) ∧
    (sampleGridNoStore.translate 1 0).hidden.count (sampleColumn 0 0) =
      sampleGridNoStore.hidden.count (sampleColumn 0 0) + 1 ∧
    ¬ ((sampleGridNoStore.translate 1 0).regions.count (sampleColumn 0 0) =
      sampleGridNoStore.regions.count (sampleColumn 0 0) + 1) := by
  refine ⟨(reachable_invariant _ _ _ sampleGridNoStore_reachable).2, by decide, by decide,
    by decide, by decide⟩

/-- Instance of C4 on the sample grid. -/
theorem translate_back_witness :
    ((sampleGrid.translate 1 0).translate (-1) (-0)).ox = sampleGrid.ox ∧
    ((sampleGrid.translate 1 0).translate (-1) (-0)).oz = sampleGrid.oz :=
  ⟨(translate_back sampleGrid 1 0 (reachable_invariant _ _ _ sampleGrid_reachable).1).1,
    (translate_back sampleGrid 1 0 (reachable_invariant _ _ _ sampleGrid_reachable).1).2.1⟩

/-- Instance of C5 on the sample grid. -/
theorem slot_identity_invariant_witness :
    Reachable sampleK sampleContent sampleGrid ∧
    (sampleColumn 0 0).x = ((0 : Nat) : Int) + sampleGrid.ox ∧
    (sampleColumn 0 0).z = ((0 : Nat) : Int) + sampleGrid.oz :=
  ⟨sampleGrid_reachable,
    (slot_identity_invariant sampleK sampleContent sampleGrid sampleGrid_reachable).1 0 0
      (by decide) (by decide) (sampleColumn 0 0) (by decide)⟩

/-- Instance of C6: whether the fresh `2 x 1` window accepts the column `(0, 0)`. -/
theorem putChunk_spec_witness :
    ((Chunks.new 2 1 0 0 none).putChunk (sampleColumn 0 0)).1 = true ↔
      ((Chunks.new 2 1 0 0 none).ox ≤ (sampleColumn 0 0).x ∧
        (sampleColumn 0 0).x < (Chunks.new 2 1 0 0 none).ox + (Chunks.new 2 1 0 0 none).w ∧
        (Chunks.new 2 1 0 0 none).oz ≤ (sampleColumn 0 0).z ∧
        (sampleColumn 0 0).z < (Chunks.new 2 1 0 0 none).oz + (Chunks.new 2 1 0 0 none).d) :=
  (putChunk_spec (Chunks.new 2 1 0 0 none) (sampleColumn 0 0) (by decide)).1

/-- Instance of C8: a read above the column height is absent. -/
theorem get_absent_witness :
    sampleGrid.get sampleK 0 2 0 = none ↔
      (((2 : Int) < 0 ∨ (2 : Int) ≥ sampleK.CHUNK_H) ∨
        sampleGrid.outsideWindow (0 / sampleK.CHUNK_W) (0 / sampleK.CHUNK_D) ∨
        sampleGrid.at (sampleGrid.slotOf (0 / sampleK.CHUNK_W) (0 / sampleK.CHUNK_D)) = none) :=
  (get_absent sampleK sampleContent sampleGrid 0 2 0 (by decide) (by decide) (by decide)).1

/-- Instance of C9: a write into the empty slot `(1, 0)` changes nothing. -/
theorem set_ignored_witness :
    sampleGrid.set sampleK sampleContent 2 0 0 5 0 = sampleGrid :=
  set_ignored sampleK sampleContent sampleGrid 2 0 0 5 0 (by decide) (by decide)
    (Or.inr (Or.inr (by decide)))

/-- Instance of C10: shrinking the sample grid to `1 x 1`. -/
theorem resize_columns_witness :
    (sampleGrid.resize 1 1).w = 1 ∧ (sampleGrid.resize 1 1).d = 1 :=
  ⟨(resize_columns sampleGrid 1 1 (reachable_invariant _ _ _ sampleGrid_reachable).1
      (reachable_invariant _ _ _ sampleGrid_reachable).2).1,
    (resize_columns sampleGrid 1 1 (reachable_invariant _ _ _ sampleGrid_reachable).1
      (reachable_invariant _ _ _ sampleGrid_reachable).2).2.1⟩

/-! ## `setCenter` -/

/-- C11: after `setCenter(x, z)` the origin satisfies
`ox + w/2 = floor(x / CHUNK_W)` and `oz + d/2 = floor(z / CHUNK_D)`; when that
held before the call the state is returned unchanged, so `translate` was not
run and nothing was evicted. -/
theorem setCenter_origin (K : Constants) (g : Chunks) (x z : Int)
    (hW : 0 < K.CHUNK_W) (hD : 0 < K.CHUNK_D) :
    (g.setCenter K x z).ox + (((g.setCenter K x z).w / 2 : Nat) : Int) = x / K.CHUNK_W ∧
    (g.setCenter K x z).oz + (((g.setCenter K x z).d / 2 : Nat) : Int) = z / K.CHUNK_D ∧
    (g.ox + ((g.w / 2 : Nat) : Int) = x / K.CHUNK_W →
      g.oz + ((g.d / 2 : Nat) : Int) = z / K.CHUNK_D → g.setCenter K x z = g) := by
  unfold Chunks.setCenter
  simp only []
  rw [floordiv_eq_ediv _ _ hW, floordiv_eq_ediv _ _ hD]
  split_ifs with h
  · obtain ⟨_, _, a3, a4, _, a6, a7, _⟩ := translate_fields g
      (x / K.CHUNK_W - (g.ox + ((g.w / 2 : Nat) : Int)))
      (z / K.CHUNK_D - (g.oz + ((g.d / 2 : Nat) : Int)))
    refine ⟨?_, ?_, ?_⟩
    · rw [a6, a3]; ring
    · rw [a7, a4]; ring
    · intro h1 h2
      exfalso
      omega
  · refine ⟨by omega, by omega, fun _ _ => rfl⟩

/-- Instance of C11: centring the sample grid on the voxel `(5, 0)`. -/
theorem setCenter_origin_witness :
    (sampleGrid.setCenter sampleK 5 0).ox +
        (((sampleGrid.setCenter sampleK 5 0).w / 2 : Nat) : Int) = 5 / sampleK.CHUNK_W ∧
    (sampleGrid.setCenter sampleK 5 0).oz +
        (((sampleGrid.setCenter sampleK 5 0).d / 2 : Nat) : Int) = 0 / sampleK.CHUNK_D :=
  ⟨(setCenter_origin sampleK sampleGrid 5 0 (by decide) (by decide)).1,
    (setCenter_origin sampleK sampleGrid 5 0 (by decide) (by decide)).2.1⟩

/-! ## The inventory and the occupied range in `set` -/

/-- C12: evaluation of `set` at a voxel holding a chest. -/
theorem set_keeps_chest_inventory :
    (chestContent.getBlockDef 1).inventorySize = 27 ∧
    (chestGrid.getChunk 0 0).map Chunk.inventories = some [(0, 42)] ∧
    ((chestGrid.set sampleK chestContent 0 0 0 0 0).getChunk 0 0).map Chunk.inventories =
      some [(0, 42)] ∧
    ((chestGrid.set sampleK sampleContent 0 0 0 0 0).getChunk 0 0).map Chunk.inventories =
      some [] := by
  refine ⟨by decide, by decide, by decide, by decide⟩

theorem write_eq_stored (K : Constants) (content : ContentIndices) (c : Chunk)
    (lx y lz : Int) (id states : Nat) :
    c.write K content lx y lz id states = (c.stored K content lx y lz id states).setHeights K y id :=
  rfl

theorem stored_bounds (K : Constants) (content : ContentIndices) (c : Chunk)
    (lx y lz : Int) (id states : Nat) :
    (c.stored K content lx y lz id states).bottom = c.bottom ∧
    (c.stored K content lx y lz id states).top = c.top ∧
    (c.stored K content lx y lz id states).unsaved = true ∧
    (c.stored K content lx y lz id states).modified = true ∧
    (c.stored K content lx y lz id states).x = c.x ∧
    (c.stored K content lx y lz id states).z = c.z := by
  unfold Chunk.stored Chunk.setModified Chunk.setUnsaved Chunk.removeBlockInventory
  simp only []
  split_ifs <;> simp


/-! ## The columns after `set` -/

theorem slotOf_inj (g : Chunks) (P Q X Z : Int) (h1 : ¬ g.outsideWindow P Q)
    (h2 : ¬ g.outsideWindow X Z) (h : g.slotOf P Q = g.slotOf X Z) : P = X ∧ Q = Z := by
  simp only [Chunks.outsideWindow] at h1 h2
  have := target_inj g.w (P - g.ox) (Q - g.oz) (X - g.ox) (Z - g.oz) (by omega) (by omega)
    (by omega) (by omega) (by omega) (by omega) h
  omega

theorem setSlot_getChunk (g : Chunks) (X Z P Q : Int) (v : Option Chunk)
    (ho : ¬ g.outsideWindow X Z) (hlen : g.slotOf X Z < g.chunks.length) :
    Chunks.getChunk { g with chunks := g.chunks.set (g.slotOf X Z) v } P Q =
      if P = X ∧ Q = Z then v else g.getChunk P Q := by
  rw [getChunk_eq, getChunk_eq]
  have e1 : Chunks.outsideWindow { g with chunks := g.chunks.set (g.slotOf X Z) v } P Q ↔
      g.outsideWindow P Q := Iff.rfl
  have e2 : Chunks.slotOf { g with chunks := g.chunks.set (g.slotOf X Z) v } P Q =
      g.slotOf P Q := rfl
  by_cases hPQ : P = X ∧ Q = Z
  · obtain ⟨rfl, rfl⟩ := hPQ
    rw [if_neg (fun h => ho (e1.1 h)), if_pos ⟨rfl, rfl⟩, e2]
    simp only [Chunks.at, getD_set_slot]
    rw [if_pos ⟨trivial, hlen⟩]
  · rw [if_neg hPQ]
    by_cases hout : g.outsideWindow P Q
    · rw [if_pos (e1.2 hout), if_pos hout]
    · rw [if_neg (fun h => hout (e1.1 h)), if_neg hout, e2]
      simp only [Chunks.at, getD_set_slot]
      rw [if_neg]
      rintro ⟨h, _⟩
      exact hPQ (slotOf_inj g P Q X Z hout ho h.symm)

theorem touchNeighbour_getChunk (g : Chunks) (b : Bool) (X Z P Q : Int) :
    (g.touchNeighbour b X Z).getChunk P Q =
      if b = true ∧ P = X ∧ Q = Z then (g.getChunk X Z).map (fun n => n.setModified true)
      else g.getChunk P Q := by
  unfold Chunks.touchNeighbour
  by_cases hb : b = true
  · rw [if_pos hb]
    cases hn : g.getChunk X Z with
    | none =>
      simp only [Option.map_none']
      split_ifs with h
      · obtain ⟨_, rfl, rfl⟩ := h; exact hn
      · rfl
    | some n =>
      have hn' := hn
      rw [getChunk_eq] at hn'
      split_ifs at hn' with ho
      have hlen := at_lt_length g _ _ hn'
      have := setSlot_getChunk g X Z P Q (some (n.setModified true)) ho hlen
      simp only [Chunks.slotOf] at this
      simp only [Option.map_some']
      rw [this]
      by_cases hPQ : P = X ∧ Q = Z
      · rw [if_pos hPQ, if_pos ⟨hb, hPQ⟩]
      · rw [if_neg hPQ, if_neg (fun h => hPQ h.2)]
  · rw [if_neg hb, if_neg (fun h => hb h.1)]

theorem touchNeighbour_ox (g : Chunks) (b : Bool) (x z : Int) :
    (g.touchNeighbour b x z).ox = g.ox := (touchNeighbour_dims g b x z).2.2.1

theorem touchNeighbour_oz (g : Chunks) (b : Bool) (x z : Int) :
    (g.touchNeighbour b x z).oz = g.oz := (touchNeighbour_dims g b x z).2.2.2

/-- The state `set` returns for an accepted write, with the column and the local
offsets written out. -/
theorem set_accepted_explicit (K : Constants) (content : ContentIndices) (g : Chunks)
    (x y z : Int) (id states : Nat) (chunk : Chunk)
    (hW : 0 < K.CHUNK_W) (hD : 0 < K.CHUNK_D)
    (hy0 : 0 ≤ y) (hy1 : y < K.CHUNK_H)
    (hc : g.getChunk (x / K.CHUNK_W) (z / K.CHUNK_D) = some chunk) :
    g.set K content x y z id states =
      (((({ g with
              chunks := g.chunks.set (g.slotOf (x / K.CHUNK_W) (z / K.CHUNK_D))
                (some (chunk.write K content (x % K.CHUNK_W) y (z % K.CHUNK_D) id states)) }
          : Chunks).touchNeighbour (decide (x % K.CHUNK_W = 0))
            (x / K.CHUNK_W - 1) (z / K.CHUNK_D)).touchNeighbour
          (decide (z % K.CHUNK_D = 0)) (x / K.CHUNK_W) (z / K.CHUNK_D - 1)).touchNeighbour
          (decide (x % K.CHUNK_W = K.CHUNK_W - 1)) (x / K.CHUNK_W + 1)
            (z / K.CHUNK_D)).touchNeighbour
          (decide (z % K.CHUNK_D = K.CHUNK_D - 1)) (x / K.CHUNK_W) (z / K.CHUNK_D + 1) := by
  rw [getChunk_eq] at hc
  split_ifs at hc with ho
  simp only [Chunks.outsideWindow] at ho
  simp only [Chunks.slotOf] at hc
  simp only [Chunks.set]
  rw [floordiv_shift _ _ _ hW, floordiv_shift _ _ _ hD, local_shift, local_shift]
  rw [if_neg (by omega), if_neg (by omega), hc]
  have e1 : x / K.CHUNK_W - g.ox + g.ox - 1 = x / K.CHUNK_W - 1 := by ring
  have e2 : z / K.CHUNK_D - g.oz + g.oz - 1 = z / K.CHUNK_D - 1 := by ring
  simp only [touchNeighbour_ox, touchNeighbour_oz, sub_add_cancel, Chunks.slotOf, e1, e2]

theorem touch_other (g : Chunks) (b : Bool) (X Z P Q : Int)
    (h : ¬ (b = true ∧ P = X ∧ Q = Z)) :
    (g.touchNeighbour b X Z).getChunk P Q = g.getChunk P Q := by
  rw [touchNeighbour_getChunk, if_neg h]

theorem touch_hit (g : Chunks) (b : Bool) (X Z : Int) (h : b = true) :
    (g.touchNeighbour b X Z).getChunk X Z =
      (g.getChunk X Z).map (fun n => n.setModified true) := by
  rw [touchNeighbour_getChunk, if_pos ⟨h, rfl, rfl⟩]

/-- The column `getChunk` returns after an accepted write, for every world column
coordinate. -/
theorem set_getChunk (K : Constants) (content : ContentIndices) (g : Chunks)
    (x y z : Int) (id states : Nat) (chunk : Chunk)
    (hW : 0 < K.CHUNK_W) (hD : 0 < K.CHUNK_D)
    (hy0 : 0 ≤ y) (hy1 : y < K.CHUNK_H)
    (hc : g.getChunk (x / K.CHUNK_W) (z / K.CHUNK_D) = some chunk) (P Q : Int) :
    (g.set K content x y z id states).getChunk P Q =
      if P = x / K.CHUNK_W ∧ Q = z / K.CHUNK_D then
        some (chunk.write K content (x % K.CHUNK_W) y (z % K.CHUNK_D) id states)
      else if (x % K.CHUNK_W = 0 ∧ P = x / K.CHUNK_W - 1 ∧ Q = z / K.CHUNK_D) ∨
          (z % K.CHUNK_D = 0 ∧ P = x / K.CHUNK_W ∧ Q = z / K.CHUNK_D - 1) ∨
          (x % K.CHUNK_W = K.CHUNK_W - 1 ∧ P = x / K.CHUNK_W + 1 ∧ Q = z / K.CHUNK_D) ∨
          (z % K.CHUNK_D = K.CHUNK_D - 1 ∧ P = x / K.CHUNK_W ∧ Q = z / K.CHUNK_D + 1) then
        (g.getChunk P Q).map (fun n => n.setModified true)
      else g.getChunk P Q := by
  have hc' := hc
  rw [getChunk_eq] at hc'
  split_ifs at hc' with ho
  have hlen := at_lt_length g _ _ hc'
  have hslot := fun P Q v => setSlot_getChunk g (x / K.CHUNK_W) (z / K.CHUNK_D) P Q v ho hlen
  rw [set_accepted_explicit K content g x y z id states chunk hW hD hy0 hy1 hc]
  generalize x / K.CHUNK_W = c at *
  generalize z / K.CHUNK_D = e at *
  by_cases hT : P = c ∧ Q = e
  · obtain ⟨rfl, rfl⟩ := hT
    rw [if_pos ⟨rfl, rfl⟩, touch_other _ _ _ _ _ _ (by rintro ⟨_, h1, h2⟩; omega),
      touch_other _ _ _ _ _ _ (by rintro ⟨_, h1, h2⟩; omega),
      touch_other _ _ _ _ _ _ (by rintro ⟨_, h1, h2⟩; omega),
      touch_other _ _ _ _ _ _ (by rintro ⟨_, h1, h2⟩; omega), hslot, if_pos ⟨rfl, rfl⟩]
  · rw [if_neg hT]
    by_cases h4 : z % K.CHUNK_D = K.CHUNK_D - 1 ∧ P = c ∧ Q = e + 1
    · obtain ⟨e4, rfl, rfl⟩ := h4
      rw [if_pos (Or.inr (Or.inr (Or.inr ⟨e4, rfl, rfl⟩))), touch_hit _ _ _ _ (by simpa using e4),
        touch_other _ _ _ _ _ _ (by rintro ⟨_, h1, h2⟩; omega),
        touch_other _ _ _ _ _ _ (by rintro ⟨_, h1, h2⟩; omega),
        touch_other _ _ _ _ _ _ (by rintro ⟨_, h1, h2⟩; omega), hslot, if_neg hT]
    · rw [touch_other _ _ _ _ _ _ (by rintro ⟨hb, h1, h2⟩; exact h4 ⟨by simpa using hb, h1, h2⟩)]
      by_cases h3 : x % K.CHUNK_W = K.CHUNK_W - 1 ∧ P = c + 1 ∧ Q = e
      · obtain ⟨e3, rfl, rfl⟩ := h3
        rw [if_pos (Or.inr (Or.inr (Or.inl ⟨e3, rfl, rfl⟩))),
          touch_hit _ _ _ _ (by simpa using e3),
          touch_other _ _ _ _ _ _ (by rintro ⟨_, h1, h2⟩; omega),
          touch_other _ _ _ _ _ _ (by rintro ⟨_, h1, h2⟩; omega), hslot, if_neg hT]
      · rw [touch_other _ _ _ _ _ _
          (by rintro ⟨hb, h1, h2⟩; exact h3 ⟨by simpa using hb, h1, h2⟩)]
        by_cases h2 : z % K.CHUNK_D = 0 ∧ P = c ∧ Q = e - 1
        · obtain ⟨e2, rfl, rfl⟩ := h2
          rw [if_pos (Or.inr (Or.inl ⟨e2, rfl, rfl⟩)), touch_hit _ _ _ _ (by simpa using e2),
            touch_other _ _ _ _ _ _ (by rintro ⟨_, h1, h2⟩; omega), hslot, if_neg hT]
        · rw [touch_other _ _ _ _ _ _
            (by rintro ⟨hb, h1, h2'⟩; exact h2 ⟨by simpa using hb, h1, h2'⟩)]
          by_cases h1 : x % K.CHUNK_W = 0 ∧ P = c - 1 ∧ Q = e
          · obtain ⟨e1, rfl, rfl⟩ := h1
            rw [if_pos (Or.inl ⟨e1, rfl, rfl⟩), touch_hit _ _ _ _ (by simpa using e1), hslot,
              if_neg hT]
          · rw [touch_other _ _ _ _ _ _
              (by rintro ⟨hb, h1', h2'⟩; exact h1 ⟨by simpa using hb, h1', h2'⟩), hslot,
              if_neg hT, if_neg (by tauto)]

theorem setHeights_flags (K : Constants) (c : Chunk) (y : Int) (id : Nat) :
    (c.setHeights K y id).unsaved = c.unsaved ∧ (c.setHeights K y id).modified = c.modified := by
  unfold Chunk.setHeights Chunk.updateHeights
  simp only []
  split_ifs <;> (try split) <;> exact ⟨rfl, rfl⟩

/-- C13 (amended): an accepted `set` with `id = 0` leaves in the slot the column
whose occupied range is rescanned (`updateHeights`) exactly when
`bottom <= y` and `y + 1 <= top`, that is whenever `y` lies inside the current
range, at a bound or strictly inside; for `y < bottom` only `bottom` is
lowered to `y`, and for `bottom <= y`, `top < y + 1` only `top` is raised to
`y + 1`, without a rescan. -/
theorem set_air_rescan (K : Constants) (content : ContentIndices) (g : Chunks)
    (x y z : Int) (states : Nat) (chunk : Chunk)
    (hW : 0 < K.CHUNK_W) (hD : 0 < K.CHUNK_D)
    (hy0 : 0 ≤ y) (hy1 : y < K.CHUNK_H)
    (hc : g.getChunk (x / K.CHUNK_W) (z / K.CHUNK_D) = some chunk) :
    (g.set K content x y z 0 states).getChunk (x / K.CHUNK_W) (z / K.CHUNK_D) =
      some (chunk.write K content (x % K.CHUNK_W) y (z % K.CHUNK_D) 0 states) ∧
    (chunk.bottom ≤ y ∧ y + 1 ≤ chunk.top →
      chunk.write K content (x % K.CHUNK_W) y (z % K.CHUNK_D) 0 states =
        (chunk.stored K content (x % K.CHUNK_W) y (z % K.CHUNK_D) 0 states).updateHeights K) ∧
    (y < chunk.bottom →
      chunk.write K content (x % K.CHUNK_W) y (z % K.CHUNK_D) 0 states =
        { chunk.stored K content (x % K.CHUNK_W) y (z % K.CHUNK_D) 0 states with bottom := y }) ∧
    (chunk.bottom ≤ y → chunk.top < y + 1 →
      chunk.write K content (x % K.CHUNK_W) y (z % K.CHUNK_D) 0 states =
        { chunk.stored K content (x % K.CHUNK_W) y (z % K.CHUNK_D) 0 states with
          top := y + 1 }) := by
  obtain ⟨b1, b2, _⟩ := stored_bounds K content chunk (x % K.CHUNK_W) y (z % K.CHUNK_D) 0 states
  refine ⟨?_, ?_, ?_, ?_⟩
  · rw [set_getChunk K content g x y z 0 states chunk hW hD hy0 hy1 hc, if_pos ⟨rfl, rfl⟩]
  · rintro ⟨h1, h2⟩
    have c1 : ¬ y < (chunk.stored K content (x % K.CHUNK_W) y (z % K.CHUNK_D) 0 states).bottom := by
      rw [b1]; omega
    have c2 : ¬ y + 1 > (chunk.stored K content (x % K.CHUNK_W) y (z % K.CHUNK_D) 0 states).top := by
      rw [b2]; omega
    rw [write_eq_stored]
    unfold Chunk.setHeights
    rw [if_neg c1, if_neg c2, if_pos rfl]
  · intro h1
    have c1 : y < (chunk.stored K content (x % K.CHUNK_W) y (z % K.CHUNK_D) 0 states).bottom := by
      rw [b1]; exact h1
    rw [write_eq_stored]
    unfold Chunk.setHeights
    rw [if_pos c1]
  · intro h1 h2
    have c1 : ¬ y < (chunk.stored K content (x % K.CHUNK_W) y (z % K.CHUNK_D) 0 states).bottom := by
      rw [b1]; omega
    have c2 : y + 1 > (chunk.stored K content (x % K.CHUNK_W) y (z % K.CHUNK_D) 0 states).top := by
      rw [b2]; omega
    rw [write_eq_stored]
    unfold Chunk.setHeights
    rw [if_neg c1, if_pos c2]

/-- Instance of C13 (amended): the air write at `y = 0` into the tower column,
below its range `[2, 3)`. -/
theorem set_air_rescan_witness :
    (towerGrid.set towerK sampleContent 0 0 0 0 0).getChunk (0 / towerK.CHUNK_W)
        (0 / towerK.CHUNK_D) =
      some (towerColumn.write towerK sampleContent (0 % towerK.CHUNK_W) 0 (0 % towerK.CHUNK_D)
        0 0) :=
  (set_air_rescan towerK sampleContent towerGrid 0 0 0 0 towerColumn (by decide) (by decide)
    (by decide) (by decide) (by decide)).1

/-- Counterexample to C13 as stated: after the air write at `y = 0` the tower
column has the range `[0, 3)`; the air write at `y = 1`, strictly inside it,
rescans and leaves the range `[2, 3)`. -/
theorem air_write_inside_rescans :
    ((towerGrid.set towerK sampleContent 0 0 0 0 0).getChunk 0 0).map
        (fun c => (c.bottom, c.top)) = some (0, 3) ∧
    ((0 : Int) < 1 ∧ (1 : Int) + 1 < 3) ∧
    (((towerGrid.set towerK sampleContent 0 0 0 0 0).set towerK sampleContent 0 1 0 0
        0).getChunk 0 0).map (fun c => (c.bottom, c.top)) = some (2, 3) := by
  refine ⟨by decide, by decide, by decide⟩

/-- C14: after an accepted `set` at the local offsets `(lx, lz)` of the column at
the world column `(c, e)`, that column has `unsaved` and `modified` set; the
loaded neighbour at `(c-1, e)` is marked `modified` when `lx = 0`, at
`(c+1, e)` when `lx = CHUNK_W-1`, at `(c, e-1)` when `lz = 0` and at `(c, e+1)`
when `lz = CHUNK_D-1`; every other column is returned unchanged. -/
theorem set_flags (K : Constants) (content : ContentIndices) (g : Chunks)
    (x y z : Int) (id states : Nat) (chunk : Chunk)
    (hW : 0 < K.CHUNK_W) (hD : 0 < K.CHUNK_D)
    (hy0 : 0 ≤ y) (hy1 : y < K.CHUNK_H)
    (hc : g.getChunk (x / K.CHUNK_W) (z / K.CHUNK_D) = some chunk) :
    (∃ t, (g.set K content x y z id states).getChunk (x / K.CHUNK_W) (z / K.CHUNK_D) = some t ∧
      t.unsaved = true ∧ t.modified = true) ∧
    (x % K.CHUNK_W = 0 →
      (g.set K content x y z id states).getChunk (x / K.CHUNK_W - 1) (z / K.CHUNK_D) =
        (g.getChunk (x / K.CHUNK_W - 1) (z / K.CHUNK_D)).map (fun n => n.setModified true)) ∧
    (x % K.CHUNK_W = K.CHUNK_W - 1 →
      (g.set K content x y z id states).getChunk (x / K.CHUNK_W + 1) (z / K.CHUNK_D) =
        (g.getChunk (x / K.CHUNK_W + 1) (z / K.CHUNK_D)).map (fun n => n.setModified true)) ∧
    (z % K.CHUNK_D = 0 →
      (g.set K content x y z id states).getChunk (x / K.CHUNK_W) (z / K.CHUNK_D - 1) =
        (g.getChunk (x / K.CHUNK_W) (z / K.CHUNK_D - 1)).map (fun n => n.setModified true)) ∧
    (z % K.CHUNK_D = K.CHUNK_D - 1 →
      (g.set K content x y z id states).getChunk (x / K.CHUNK_W) (z / K.CHUNK_D + 1) =
        (g.getChunk (x / K.CHUNK_W) (z / K.CHUNK_D + 1)).map (fun n => n.setModified true)) ∧
    (∀ P Q : Int, ¬ (P = x / K.CHUNK_W ∧ Q = z / K.CHUNK_D) →
      ¬ (x % K.CHUNK_W = 0 ∧ P = x / K.CHUNK_W - 1 ∧ Q = z / K.CHUNK_D) →
      ¬ (x % K.CHUNK_W = K.CHUNK_W - 1 ∧ P = x / K.CHUNK_W + 1 ∧ Q = z / K.CHUNK_D) →
      ¬ (z % K.CHUNK_D = 0 ∧ P = x / K.CHUNK_W ∧ Q = z / K.CHUNK_D - 1) →
      ¬ (z % K.CHUNK_D = K.CHUNK_D - 1 ∧ P = x / K.CHUNK_W ∧ Q = z / K.CHUNK_D + 1) →
      (g.set K content x y z id states).getChunk P Q = g.getChunk P Q) := by
  have hget := set_getChunk K content g x y z id states chunk hW hD hy0 hy1 hc
  obtain ⟨_, _, b3, b4, _⟩ :=
    stored_bounds K content chunk (x % K.CHUNK_W) y (z % K.CHUNK_D) id states
  obtain ⟨f1, f2⟩ := setHeights_flags K
    (chunk.stored K content (x % K.CHUNK_W) y (z % K.CHUNK_D) id states) y id
  refine ⟨⟨chunk.write K content (x % K.CHUNK_W) y (z % K.CHUNK_D) id states, ?_, ?_, ?_⟩,
    ?_, ?_, ?_, ?_, ?_⟩
  · rw [hget, if_pos ⟨rfl, rfl⟩]
  · rw [write_eq_stored, f1, b3]
  · rw [write_eq_stored, f2, b4]
  · intro h
    rw [hget, if_neg (by omega), if_pos (Or.inl ⟨h, rfl, rfl⟩)]
  · intro h
    rw [hget, if_neg (by omega), if_pos (Or.inr (Or.inr (Or.inl ⟨h, rfl, rfl⟩)))]
  · intro h
    rw [hget, if_neg (by omega), if_pos (Or.inr (Or.inl ⟨h, rfl, rfl⟩))]
  · intro h
    rw [hget, if_neg (by omega), if_pos (Or.inr (Or.inr (Or.inr ⟨h, rfl, rfl⟩)))]
  · intro P Q n0 n1 n3 n2 n4
    rw [hget, if_neg n0, if_neg]
    rintro (h | h | h | h)
    · exact n1 h
    · exact n2 h
    · exact n3 h
    · exact n4 h

/-- Instance of C14: the write at `(0, 0, 0)` of the sample grid leaves the target
column saved-dirty and mesh-dirty. -/
theorem set_flags_witness :
    ∃ t, (sampleGrid.set sampleK sampleContent 0 0 0 7 3).getChunk (0 / sampleK.CHUNK_W)
        (0 / sampleK.CHUNK_D) = some t ∧ t.unsaved = true ∧ t.modified = true :=
  (set_flags sampleK sampleContent sampleGrid 0 0 0 7 3 (sampleColumn 0 0) (by decide)
    (by decide) (by decide) (by decide) (by decide)).1

/-! ## Ray casting: single passes -/

theorem rayT_le_of_lt (a b : RayT) (h : a.lt b = true) : a.le b = true := by
  cases a <;> cases b <;> simp_all [RayT.lt, RayT.le]
  exact le_of_lt h

theorem rayT_le_of_not_lt (a b : RayT) (h : a.lt b = false) : b.le a = true := by
  cases a <;> cases b <;> simp_all [RayT.lt, RayT.le]

theorem rayT_le_trans (a b c : RayT) (h1 : a.le b = true) (h2 : b.le c = true) :
    a.le c = true := by
  cases a <;> cases b <;> cases c <;> simp_all [RayT.le]
  exact le_trans h1 h2

theorem advance_toObst (c : RayConsts) (s : RayState) :
    (rayCastAdvance c s).toObst = obstacleAdvance c s.toObst := by
  unfold rayCastAdvance obstacleAdvance RayState.toObst
  simp only []
  split_ifs <;> rfl

/-- A pass of `rayCast` that goes on steps from a state with the same traversal
locals as the one it started in. -/
theorem rayCastBody_next (K : Constants) (content : ContentIndices) (ext : Externals)
    (g : Chunks) (start dir : Vec3) (maxDist : ℚ) (s s' : RayState)
    (h : g.rayCastBody K content ext start dir maxDist s = .next s') :
    ∃ sm : RayState, sm.toObst = s.toObst ∧ sm.steppedIndex = s.steppedIndex ∧
      s' = rayCastAdvance (rayCastConsts start dir) sm := by
  unfold Chunks.rayCastBody at h
  simp only [] at h
  split at h
  · exact absurd h (by simp)
  · split_ifs at h <;>
      (rw [RayStep.next.injEq] at h; refine ⟨_, ?_, ?_, h.symm⟩ <;> rfl)

/-- C15: where `get` has no voxel for the cell of `(x, y, z)`, `isObstacleAt`
returns the address of its static `empty` box when `floor(y) < CHUNK_H` and
the null pointer when `floor(y) >= CHUNK_H`. -/
theorem isObstacleAt_absent (K : Constants) (content : ContentIndices) (ext : Externals)
    (g : Chunks) (x y z : ℚ) (h : g.get K ⌊x⌋ ⌊y⌋ ⌊z⌋ = none) :
    (⌊y⌋ < K.CHUNK_H → g.isObstacleAt K content ext x y z = BoxRef.empty) ∧
    (⌊y⌋ ≥ K.CHUNK_H → g.isObstacleAt K content ext x y z = BoxRef.null) ∧
    BoxRef.empty ≠ BoxRef.null := by
  unfold Chunks.isObstacleAt
  simp only [h]
  refine ⟨fun h1 => ?_, fun h1 => ?_, by simp⟩
  · rw [if_neg (by omega)]
  · rw [if_pos h1]

/-- Instance of C15: a position in the empty slot `(1, 0)` of the sample grid. -/
theorem isObstacleAt_absent_witness :
    (⌊(1 : ℚ)⌋ < sampleK.CHUNK_H →
      sampleGrid.isObstacleAt sampleK sampleContent sampleExt 2 1 0 = BoxRef.empty) ∧
    (⌊(1 : ℚ)⌋ ≥ sampleK.CHUNK_H →
      sampleGrid.isObstacleAt sampleK sampleContent sampleExt 2 1 0 = BoxRef.null) ∧
    BoxRef.empty ≠ BoxRef.null :=
  isObstacleAt_absent sampleK sampleContent sampleExt sampleGrid 2 1 0 (by decide!)

theorem get_of_unloaded (K : Constants) (g : Chunks) (h : ∀ i, g.at i = none) (x y z : Int) :
    g.get K x y z = none := by
  unfold Chunks.get
  simp only []
  split_ifs
  · rfl
  · rw [h]

theorem along_zero (p d : ℚ) : RayT.along p (.fin 0) d = .fin p := by
  simp [RayT.along]

/-- C16 (amended): on a grid with no loaded column and for `maxDist >= 0`, `rayCast`
returns no voxel in its first pass and leaves `end`, `norm` and `iend` as they
were at the call, and `rayCastToObstacle` returns `start`. -/
theorem rayCast_unloaded (K : Constants) (content : ContentIndices) (ext : Externals)
    (g : Chunks) (start dir : Vec3) (maxDist : ℚ) (end0 : EVec3) (norm0 iend0 : IVec3)
    (fuel : Nat) (hg : ∀ i, g.at i = none) (hm : 0 ≤ maxDist) :
    g.rayCast K content ext (fuel + 1) start dir maxDist end0 norm0 iend0 =
      some ⟨none, end0, norm0, iend0⟩ ∧
    g.rayCastToObstacle K content ext (fuel + 1) start dir maxDist =
      some ⟨.fin start.x, .fin start.y, .fin start.z⟩ := by
  constructor
  · unfold Chunks.rayCast Chunks.rayCastLoop
    have ht : (rayCastInit start dir end0 norm0 iend0).t.le (.fin maxDist) = true := by
      simp [rayCastInit, RayT.le, hm]
    rw [if_pos ht]
    unfold Chunks.rayCastBody
    simp only [get_of_unloaded K g hg]
    rfl
  · unfold Chunks.rayCastToObstacle Chunks.obstacleLoop
    have ht : (obstacleInit start dir).t.le (.fin maxDist) = true := by
      simp [obstacleInit, RayT.le, hm]
    rw [if_pos ht]
    unfold Chunks.obstacleBody
    simp only [get_of_unloaded K g hg]
    have e : (obstacleInit start dir).t = .fin 0 := rfl
    simp only [e, along_zero]
    rfl

/-- Instance of C16 (amended): a ray along `x` through the empty `1 x 1` grid. -/
theorem rayCast_unloaded_witness :
    (Chunks.new 1 1 0 0 none).rayCast sampleK sampleContent sampleExt (0 + 1) ⟨0, 0, 0⟩
        ⟨1, 0, 0⟩ 1 ⟨.fin 9, .fin 9, .fin 9⟩ ⟨7, 7, 7⟩ ⟨5, 5, 5⟩ =
      some ⟨none, ⟨.fin 9, .fin 9, .fin 9⟩, ⟨7, 7, 7⟩, ⟨5, 5, 5⟩⟩ ∧
    (Chunks.new 1 1 0 0 none).rayCastToObstacle sampleK sampleContent sampleExt (0 + 1)
        ⟨0, 0, 0⟩ ⟨1, 0, 0⟩ 1 =
      some ⟨.fin 0, .fin 0, .fin 0⟩ :=
  rayCast_unloaded sampleK sampleContent sampleExt (Chunks.new 1 1 0 0 none) ⟨0, 0, 0⟩ ⟨1, 0, 0⟩ 1
    ⟨.fin 9, .fin 9, .fin 9⟩ ⟨7, 7, 7⟩ ⟨5, 5, 5⟩ 0 (new_at 1 1 0 0 none) (by norm_num)

/-- Counterexample to C16 as stated: through the empty `1 x 1` grid, from the
origin along `x` with `maxDist = 1`, `rayCastToObstacle` returns the origin and
not `(1, 0, 0)`, and `rayCast` leaves `end` at the value it had at the call. -/
theorem unloaded_ray_stops_at_start :
    (Chunks.new 1 1 0 0 none).rayCastToObstacle sampleK sampleContent sampleExt 3
        ⟨0, 0, 0⟩ ⟨1, 0, 0⟩ 1 = some ⟨.fin 0, .fin 0, .fin 0⟩ ∧
    (Chunks.new 1 1 0 0 none).rayCastToObstacle sampleK sampleContent sampleExt 3
        ⟨0, 0, 0⟩ ⟨1, 0, 0⟩ 1 ≠ some (Vec3.advance ⟨0, 0, 0⟩ ⟨1, 0, 0⟩ 1) ∧
    ((Chunks.new 1 1 0 0 none).rayCast sampleK sampleContent sampleExt 3 ⟨0, 0, 0⟩
        ⟨1, 0, 0⟩ 1 ⟨.fin 9, .fin 9, .fin 9⟩ ⟨7, 7, 7⟩ ⟨5, 5, 5⟩).map RayResult.endp =
      some ⟨.fin 9, .fin 9, .fin 9⟩ ∧
    ((Chunks.new 1 1 0 0 none).rayCast sampleK sampleContent sampleExt 3 ⟨0, 0, 0⟩
        ⟨1, 0, 0⟩ 1 ⟨.fin 9, .fin 9, .fin 9⟩ ⟨7, 7, 7⟩ ⟨5, 5, 5⟩).map RayResult.endp ≠
      some (Vec3.advance ⟨0, 0, 0⟩ ⟨1, 0, 0⟩ 1) := by
  refine ⟨by decide!, by decide!, by decide!, by decide!⟩

theorem rayCastAdvance_out (c : RayConsts) (s : RayState) (e : EVec3) (i : IVec3) :
    rayCastAdvance c { s with endp := e, iend := i } =
      { rayCastAdvance c s with endp := e, iend := i } := by
  unfold rayCastAdvance
  simp only []
  split_ifs <;> rfl

theorem rayCastAdvance_norm (c : RayConsts) (s : RayState) :
    (rayCastAdvance c s).norm = s.norm := by
  unfold rayCastAdvance
  split_ifs <;> rfl

/-- C18: a pass of `rayCast` at a cell whose block is selectable, not solid and
has an empty selected hitbox list does not return; it leaves `norm` as it was
and steps `t`, the cell, the `t?Max` and `steppedIndex` exactly as the pass at
a cell with a block that is not selectable, which is the plain step. -/
theorem rayCast_empty_hitboxes (K : Constants) (content : ContentIndices) (ext : Externals)
    (g : Chunks) (start dir : Vec3) (maxDist : ℚ) (s : RayState) (v : voxel)
    (hget : g.get K s.ix s.iy s.iz = some v) :
    ((content.getBlockDef v.id).selectable = true →
      (content.getBlockDef v.id).solid = false →
      (content.getBlockDef v.id).selectedHitboxes ext v = [] →
      ∃ s', g.rayCastBody K content ext start dir maxDist s = .next s' ∧
        s'.norm = s.norm ∧
        s'.toObst = (rayCastAdvance (rayCastConsts start dir) s).toObst ∧
        s'.steppedIndex = (rayCastAdvance (rayCastConsts start dir) s).steppedIndex) ∧
    ((content.getBlockDef v.id).selectable = false →
      g.rayCastBody K content ext start dir maxDist s =
        .next (rayCastAdvance (rayCastConsts start dir) s)) := by
  constructor
  · intro hsel hns hbox
    unfold Block.selectedHitboxes at hbox
    unfold Chunks.rayCastBody
    simp only [hget, hsel, hns, hbox, List.foldl_nil, if_true, Bool.not_false,
      Bool.false_eq_true, if_false]
    refine ⟨_, rfl, ?_, ?_, ?_⟩
    · rw [rayCastAdvance_norm]
    · unfold rayCastAdvance RayState.toObst
      simp only []
      split_ifs <;> rfl
    · unfold rayCastAdvance
      simp only []
      split_ifs <;> rfl
  · intro hsel
    unfold Chunks.rayCastBody
    simp only [hget, hsel, Bool.false_eq_true, if_false]

/-- Instance of C18: the cell `(0, 2, 0)` of the tower holds a fence, which is
selectable, not solid and without hitboxes. -/
theorem rayCast_empty_hitboxes_witness :
    ∃ s', towerGrid.rayCastBody towerK fenceContent sampleExt ⟨1/2, 5/2, 1/2⟩ ⟨0, 1, 0⟩ 5
        (rayCastInit ⟨1/2, 5/2, 1/2⟩ ⟨0, 1, 0⟩ ⟨.fin 9, .fin 9, .fin 9⟩ ⟨7, 7, 7⟩ ⟨5, 5, 5⟩) =
          .next s' ∧
      s'.norm = (rayCastInit ⟨1/2, 5/2, 1/2⟩ ⟨0, 1, 0⟩ ⟨.fin 9, .fin 9, .fin 9⟩ ⟨7, 7, 7⟩
        ⟨5, 5, 5⟩).norm ∧
      s'.toObst = (rayCastAdvance (rayCastConsts ⟨1/2, 5/2, 1/2⟩ ⟨0, 1, 0⟩)
        (rayCastInit ⟨1/2, 5/2, 1/2⟩ ⟨0, 1, 0⟩ ⟨.fin 9, .fin 9, .fin 9⟩ ⟨7, 7, 7⟩
          ⟨5, 5, 5⟩)).toObst ∧
      s'.steppedIndex = (rayCastAdvance (rayCastConsts ⟨1/2, 5/2, 1/2⟩ ⟨0, 1, 0⟩)
        (rayCastInit ⟨1/2, 5/2, 1/2⟩ ⟨0, 1, 0⟩ ⟨.fin 9, .fin 9, .fin 9⟩ ⟨7, 7, 7⟩
          ⟨5, 5, 5⟩)).steppedIndex :=
  (rayCast_empty_hitboxes towerK fenceContent sampleExt towerGrid ⟨1/2, 5/2, 1/2⟩ ⟨0, 1, 0⟩ 5
    (rayCastInit ⟨1/2, 5/2, 1/2⟩ ⟨0, 1, 0⟩ ⟨.fin 9, .fin 9, .fin 9⟩ ⟨7, 7, 7⟩ ⟨5, 5, 5⟩)
    ⟨5, 0⟩ (by decide!)).1 (by decide) (by decide) (by decide)

theorem rayT_le_refl (a : RayT) : a.le a = true := by
  cases a <;> simp [RayT.le]

theorem rayT_lt_fin (a b : RayT) (h : a.lt b = true) : ∃ q, a = .fin q := by
  cases a with
  | fin q => exact ⟨q, rfl⟩
  | inf => simp [RayT.lt] at h

theorem axisInv_keep (p d : ℚ) (i : Int) (tMax t t' : RayT) (h : AxisInv p d i tMax t)
    (h' : t'.le tMax = true) : AxisInv p d i tMax t' :=
  ⟨h', h.2⟩

theorem axisInv_step (p d : ℚ) (i : Int) (tMax t : RayT) (h : AxisInv p d i tMax t) :
    AxisInv p d (i + (if d > 0 then 1 else -1))
      (tMax.add (if d = 0 then .inf else .fin |1 / d|)) tMax ∧
    (tMax = .inf ∨ OnEntryFace p d (i + (if d > 0 then 1 else -1)) tMax) := by
  obtain ⟨_, h | h⟩ := h
  · obtain ⟨hd, hm⟩ := h
    subst hm
    exact ⟨⟨by simp [RayT.add, RayT.le], Or.inl ⟨hd, by simp [RayT.add]⟩⟩, Or.inl rfl⟩
  · obtain ⟨hd, m, hm, he⟩ := h
    subst hm
    have h1 : 1 / d * d = 1 := one_div_mul_cancel hd
    rw [if_neg hd]
    simp only [RayT.add]
    rcases lt_or_gt_of_ne hd with hneg | hpos
    · have hn : ¬ (0 < d) := not_lt.mpr hneg.le
      have e1 : |1 / d| = -(1 / d) := abs_of_neg (one_div_neg.mpr hneg)
      simp only [gt_iff_lt, if_neg hn] at he ⊢
      refine ⟨⟨?_, Or.inr ⟨hd, _, rfl, ?_⟩⟩, Or.inr ⟨hd, m, rfl, ?_⟩⟩
      · simp only [RayT.le, decide_eq_true_eq]
        linarith [abs_nonneg (1 / d)]
      · rw [e1, if_neg hn]
        push_cast
        linear_combination he - h1
      · rw [if_neg hn]
        push_cast
        linear_combination he
    · have e1 : |1 / d| = 1 / d := abs_of_pos (one_div_pos.mpr hpos)
      simp only [gt_iff_lt, if_pos hpos] at he ⊢
      refine ⟨⟨?_, Or.inr ⟨hd, _, rfl, ?_⟩⟩, Or.inr ⟨hd, m, rfl, ?_⟩⟩
      · simp only [RayT.le, decide_eq_true_eq]
        linarith [abs_nonneg (1 / d)]
      · rw [e1, if_pos hpos]
        push_cast
        linear_combination he + h1
      · rw [if_pos hpos]
        push_cast
        linear_combination he

theorem axisInv_init (p d : ℚ) :
    AxisInv p d ⌊p⌋
      ((if d = 0 then RayT.inf else .fin |1 / d|).firstMax
        (if (if d > 0 then (1 : Int) else -1) > 0 then (⌊p⌋ : ℚ) + 1 - p else p - (⌊p⌋ : ℚ)))
      (.fin 0) := by
  by_cases hd : d = 0
  · subst hd
    exact ⟨by simp [RayT.firstMax, RayT.le], Or.inl ⟨rfl, by simp [RayT.firstMax]⟩⟩
  · have h1 : 1 / d * d = 1 := one_div_mul_cancel hd
    rw [if_neg hd]
    simp only [RayT.firstMax]
    rcases lt_or_gt_of_ne hd with hneg | hpos
    · have hn : ¬ (0 < d) := not_lt.mpr hneg.le
      have e1 : |1 / d| = -(1 / d) := abs_of_neg (one_div_neg.mpr hneg)
      have hs : ¬ ((-1 : Int) > 0) := by decide
      simp only [gt_iff_lt, if_neg hn, if_neg hs]
      refine ⟨?_, Or.inr ⟨hd, _, rfl, ?_⟩⟩
      · simp only [RayT.le, decide_eq_true_eq]
        exact mul_nonneg (abs_nonneg _) (by linarith [Int.floor_le p])
      · rw [e1, if_neg hn]
        linear_combination (⌊p⌋ - p : ℚ) * h1
    · have e1 : |1 / d| = 1 / d := abs_of_pos (one_div_pos.mpr hpos)
      have hs : (1 : Int) > 0 := by decide
      simp only [gt_iff_lt, if_pos hpos, if_pos hs]
      refine ⟨?_, Or.inr ⟨hd, _, rfl, ?_⟩⟩
      · simp only [RayT.le, decide_eq_true_eq]
        exact mul_nonneg (abs_nonneg _) (by linarith [Int.lt_floor_add_one p])
      · rw [e1, if_pos hpos]
        linear_combination (⌊p⌋ + 1 - p : ℚ) * h1

theorem step_moved (d : ℚ) (i i0 : Int) :
    (if d > 0 then (1 : Int) else -1) * (i + (if d > 0 then (1 : Int) else -1) - i0) =
      (if d > 0 then (1 : Int) else -1) * (i - i0) + 1 := by
  split_ifs <;> ring

theorem inv_init (start dir : Vec3) (e0 : EVec3) (n0 i0 : IVec3) :
    RayInv start dir 0 (rayCastInit start dir e0 n0 i0) := by
  refine ⟨axisInv_init _ _, axisInv_init _ _, axisInv_init _ _, ?_, ?_, ?_, ?_,
    Or.inl ⟨rfl, rfl, rfl⟩⟩
  all_goals simp [rayCastInit, rayCastConsts]

theorem inv_stepX (start dir : Vec3) (n : Nat) (s : RayState) (h : RayInv start dir n s)
    (h1 : s.txMax.le s.tyMax = true) (h2 : s.txMax.le s.tzMax = true)
    (hf : ∃ q, s.txMax = .fin q) :
    RayInv start dir (n + 1)
      { s with ix := s.ix + (rayCastConsts start dir).stepx, t := s.txMax,
               txMax := s.txMax.add (rayCastConsts start dir).txDelta, steppedIndex := 0 } := by
  obtain ⟨hx, hy, hz, mx, my, mz, hsum, _⟩ := h
  have sx := axisInv_step _ _ _ _ _ hx
  have hm := step_moved dir.x s.ix ⌊start.x⌋
  have hs : (if dir.x > 0 then (1 : Int) else -1) * (s.ix - ⌊start.x⌋) +
      (if dir.y > 0 then (1 : Int) else -1) * (s.iy - ⌊start.y⌋) +
      (if dir.z > 0 then (1 : Int) else -1) * (s.iz - ⌊start.z⌋) = n := hsum
  refine ⟨sx.1, axisInv_keep _ _ _ _ _ _ hy h1, axisInv_keep _ _ _ _ _ _ hz h2, ?_, my, mz, ?_,
    Or.inr (Or.inl ⟨Nat.succ_pos n, rfl, ?_⟩)⟩
  · show 0 ≤ (if dir.x > 0 then (1 : Int) else -1) *
      (s.ix + (if dir.x > 0 then (1 : Int) else -1) - ⌊start.x⌋)
    rw [hm]
    have : 0 ≤ (if dir.x > 0 then (1 : Int) else -1) * (s.ix - ⌊start.x⌋) := mx
    omega
  · show (if dir.x > 0 then (1 : Int) else -1) *
        (s.ix + (if dir.x > 0 then (1 : Int) else -1) - ⌊start.x⌋) +
      (if dir.y > 0 then (1 : Int) else -1) * (s.iy - ⌊start.y⌋) +
      (if dir.z > 0 then (1 : Int) else -1) * (s.iz - ⌊start.z⌋) = ((n + 1 : Nat) : Int)
    rw [hm]
    push_cast
    omega
  · rcases sx.2 with h | h
    · obtain ⟨q, hq⟩ := hf
      rw [hq] at h
      cases h
    · exact h

theorem inv_stepY (start dir : Vec3) (n : Nat) (s : RayState) (h : RayInv start dir n s)
    (h1 : s.tyMax.le s.txMax = true) (h2 : s.tyMax.le s.tzMax = true)
    (hf : ∃ q, s.tyMax = .fin q) :
    RayInv start dir (n + 1)
      { s with iy := s.iy + (rayCastConsts start dir).stepy, t := s.tyMax,
               tyMax := s.tyMax.add (rayCastConsts start dir).tyDelta, steppedIndex := 1 } := by
  obtain ⟨hx, hy, hz, mx, my, mz, hsum, _⟩ := h
  have sy := axisInv_step _ _ _ _ _ hy
  have hm := step_moved dir.y s.iy ⌊start.y⌋
  have hs : (if dir.x > 0 then (1 : Int) else -1) * (s.ix - ⌊start.x⌋) +
      (if dir.y > 0 then (1 : Int) else -1) * (s.iy - ⌊start.y⌋) +
      (if dir.z > 0 then (1 : Int) else -1) * (s.iz - ⌊start.z⌋) = n := hsum
  refine ⟨axisInv_keep _ _ _ _ _ _ hx h1, sy.1, axisInv_keep _ _ _ _ _ _ hz h2, mx, ?_, mz, ?_,
    Or.inr (Or.inr (Or.inl ⟨Nat.succ_pos n, rfl, ?_⟩))⟩
  · show 0 ≤ (if dir.y > 0 then (1 : Int) else -1) *
      (s.iy + (if dir.y > 0 then (1 : Int) else -1) - ⌊start.y⌋)
    rw [hm]
    have : 0 ≤ (if dir.y > 0 then (1 : Int) else -1) * (s.iy - ⌊start.y⌋) := my
    omega
  · show (if dir.x > 0 then (1 : Int) else -1) * (s.ix - ⌊start.x⌋) +
      (if dir.y > 0 then (1 : Int) else -1) *
        (s.iy + (if dir.y > 0 then (1 : Int) else -1) - ⌊start.y⌋) +
      (if dir.z > 0 then (1 : Int) else -1) * (s.iz - ⌊start.z⌋) = ((n + 1 : Nat) : Int)
    rw [hm]
    push_cast
    omega
  · rcases sy.2 with h | h
    · obtain ⟨q, hq⟩ := hf
      rw [hq] at h
      cases h
    · exact h

theorem inv_stepZ (start dir : Vec3) (n : Nat) (s : RayState) (h : RayInv start dir n s)
    (h1 : s.tzMax.le s.txMax = true) (h2 : s.tzMax.le s.tyMax = true) :
    RayInv start dir (n + 1)
      { s with iz := s.iz + (rayCastConsts start dir).stepz, t := s.tzMax,
               tzMax := s.tzMax.add (rayCastConsts start dir).tzDelta, steppedIndex := 2 } := by
  obtain ⟨hx, hy, hz, mx, my, mz, hsum, _⟩ := h
  have sz := axisInv_step _ _ _ _ _ hz
  have hm := step_moved dir.z s.iz ⌊start.z⌋
  have hs : (if dir.x > 0 then (1 : Int) else -1) * (s.ix - ⌊start.x⌋) +
      (if dir.y > 0 then (1 : Int) else -1) * (s.iy - ⌊start.y⌋) +
      (if dir.z > 0 then (1 : Int) else -1) * (s.iz - ⌊start.z⌋) = n := hsum
  refine ⟨axisInv_keep _ _ _ _ _ _ hx h1, axisInv_keep _ _ _ _ _ _ hy h2, sz.1, mx, my, ?_, ?_,
    Or.inr (Or.inr (Or.inr ⟨Nat.succ_pos n, rfl, sz.2⟩))⟩
  · show 0 ≤ (if dir.z > 0 then (1 : Int) else -1) *
      (s.iz + (if dir.z > 0 then (1 : Int) else -1) - ⌊start.z⌋)
    rw [hm]
    have : 0 ≤ (if dir.z > 0 then (1 : Int) else -1) * (s.iz - ⌊start.z⌋) := mz
    omega
  · show (if dir.x > 0 then (1 : Int) else -1) * (s.ix - ⌊start.x⌋) +
      (if dir.y > 0 then (1 : Int) else -1) * (s.iy - ⌊start.y⌋) +
      (if dir.z > 0 then (1 : Int) else -1) *
        (s.iz + (if dir.z > 0 then (1 : Int) else -1) - ⌊start.z⌋) = ((n + 1 : Nat) : Int)
    rw [hm]
    push_cast
    omega

theorem inv_advance (start dir : Vec3) (n : Nat) (s : RayState) (h : RayInv start dir n s) :
    RayInv start dir (n + 1) (rayCastAdvance (rayCastConsts start dir) s) := by
  unfold rayCastAdvance
  by_cases hxy : s.txMax.lt s.tyMax = true
  · rw [if_pos hxy]
    by_cases hxz : s.txMax.lt s.tzMax = true
    · rw [if_pos hxz]
      exact inv_stepX start dir n s h (rayT_le_of_lt _ _ hxy) (rayT_le_of_lt _ _ hxz)
        (rayT_lt_fin _ _ hxy)
    · rw [if_neg hxz]
      have hzx := rayT_le_of_not_lt _ _ (Bool.eq_false_iff.mpr hxz)
      exact inv_stepZ start dir n s h hzx (rayT_le_trans _ _ _ hzx (rayT_le_of_lt _ _ hxy))
  · rw [if_neg hxy]
    have hyx := rayT_le_of_not_lt _ _ (Bool.eq_false_iff.mpr hxy)
    by_cases hyz : s.tyMax.lt s.tzMax = true
    · rw [if_pos hyz]
      exact inv_stepY start dir n s h hyx (rayT_le_of_lt _ _ hyz) (rayT_lt_fin _ _ hyz)
    · rw [if_neg hyz]
      have hzy := rayT_le_of_not_lt _ _ (Bool.eq_false_iff.mpr hyz)
      exact inv_stepZ start dir n s h (rayT_le_trans _ _ _ hzy hyx) hzy

theorem steps_succ (start dir : Vec3) (e0 : EVec3) (n0 i0 : IVec3) (n : Nat) :
    rayCastSteps start dir e0 n0 i0 (n + 1) =
      rayCastAdvance (rayCastConsts start dir) (rayCastSteps start dir e0 n0 i0 n) := by
  unfold rayCastSteps
  rw [Function.iterate_succ_apply']

theorem inv_steps (start dir : Vec3) (e0 : EVec3) (n0 i0 : IVec3) (n : Nat) :
    RayInv start dir n (rayCastSteps start dir e0 n0 i0 n) := by
  induction n with
  | zero => exact inv_init start dir e0 n0 i0
  | succ n ih =>
    rw [steps_succ]
    exact inv_advance start dir n _ ih

/-! ## Ray casting: termination -/

theorem bound_init (M d dist : ℚ) :
    ∃ N, AxisBound M ((if d = 0 then RayT.inf else .fin |1 / d|).firstMax dist)
      (if d = 0 then RayT.inf else .fin |1 / d|) N := by
  by_cases hd : d = 0
  · exact ⟨0, Or.inl (by simp [hd, RayT.firstMax])⟩
  · have he : 0 < |1 / d| := abs_pos.mpr (one_div_ne_zero hd)
    obtain ⟨N, hN⟩ := exists_nat_gt ((M - |1 / d| * dist) / |1 / d|)
    refine ⟨N, Or.inr ⟨|1 / d| * dist, |1 / d|, by simp [hd, RayT.firstMax], by simp [hd], he, ?_⟩⟩
    rw [div_lt_iff₀ he] at hN
    linarith

theorem bound_step (M : ℚ) (tMax delta : RayT) (N : Nat) (h : AxisBound M tMax delta N)
    (hle : tMax.le (.fin M) = true) :
    ∃ N', N = N' + 1 ∧ AxisBound M (tMax.add delta) delta N' := by
  rcases h with h | ⟨m, e, hm, hd, he, hb⟩
  · subst h
    simp [RayT.le] at hle
  · subst hm hd
    simp only [RayT.le, decide_eq_true_eq] at hle
    cases N with
    | zero =>
      simp at hb
      linarith
    | succ N' =>
      refine ⟨N', rfl, Or.inr ⟨m + e, e, rfl, rfl, he, ?_⟩⟩
      push_cast at hb
      linarith

theorem advance_bound (c : RayConsts) (M : ℚ) (s : RayState) (N : Nat)
    (hb : StepsBound c M s N) (hle : (rayCastAdvance c s).t.le (.fin M) = true) :
    ∃ N', N = N' + 1 ∧ StepsBound c M (rayCastAdvance c s) N' := by
  obtain ⟨Nx, Ny, Nz, hsum, bx, b_y, bz⟩ := hb
  unfold rayCastAdvance at hle ⊢
  split_ifs at hle ⊢
  · obtain ⟨N', e, b⟩ := bound_step M _ _ _ bx hle
    exact ⟨N' + Ny + Nz, by omega, N', Ny, Nz, rfl, b, b_y, bz⟩
  · obtain ⟨N', e, b⟩ := bound_step M _ _ _ bz hle
    exact ⟨Nx + Ny + N', by omega, Nx, Ny, N', rfl, bx, b_y, b⟩
  · obtain ⟨N', e, b⟩ := bound_step M _ _ _ b_y hle
    exact ⟨Nx + N' + Nz, by omega, Nx, N', Nz, rfl, bx, b, bz⟩
  · obtain ⟨N', e, b⟩ := bound_step M _ _ _ bz hle
    exact ⟨Nx + Ny + N', by omega, Nx, Ny, N', rfl, bx, b_y, b⟩

theorem steps_exceed (c : RayConsts) (M : ℚ) :
    ∀ (N : Nat) (s : RayState), StepsBound c M s N →
      ∃ n, (∀ j, j < n → ((rayCastAdvance c)^[j + 1] s).t.le (.fin M) = true) ∧
        ((rayCastAdvance c)^[n + 1] s).t.le (.fin M) = false := by
  intro N
  induction N with
  | zero =>
    intro s hb
    refine ⟨0, fun j hj => absurd hj (Nat.not_lt_zero j), ?_⟩
    by_contra hne
    obtain ⟨N', e, _⟩ := advance_bound c M s 0 hb (by simpa using hne)
    omega
  | succ N ih =>
    intro s hb
    by_cases hle : (rayCastAdvance c s).t.le (.fin M) = true
    · obtain ⟨N', e, b⟩ := advance_bound c M s (N + 1) hb hle
      have e' : N' = N := by omega
      subst e'
      obtain ⟨n, h1, h2⟩ := ih (rayCastAdvance c s) b
      refine ⟨n + 1, ?_, ?_⟩
      · intro j hj
        cases j with
        | zero => exact hle
        | succ j =>
          rw [Function.iterate_succ_apply]
          exact h1 j (by omega)
      · rw [Function.iterate_succ_apply]
        exact h2
    · exact ⟨0, fun j hj => absurd hj (Nat.not_lt_zero j), by simpa using hle⟩

theorem init_bound (start dir : Vec3) (M : ℚ) (e0 : EVec3) (n0 i0 : IVec3) :
    ∃ N, StepsBound (rayCastConsts start dir) M (rayCastInit start dir e0 n0 i0) N := by
  obtain ⟨Nx, bx⟩ := bound_init M dir.x
    (if (rayCastConsts start dir).stepx > 0 then ((⌊start.x⌋ : Int) : ℚ) + 1 - start.x
      else start.x - ((⌊start.x⌋ : Int) : ℚ))
  obtain ⟨Ny, b_y⟩ := bound_init M dir.y
    (if (rayCastConsts start dir).stepy > 0 then ((⌊start.y⌋ : Int) : ℚ) + 1 - start.y
      else start.y - ((⌊start.y⌋ : Int) : ℚ))
  obtain ⟨Nz, bz⟩ := bound_init M dir.z
    (if (rayCastConsts start dir).stepz > 0 then ((⌊start.z⌋ : Int) : ℚ) + 1 - start.z
      else start.z - ((⌊start.z⌋ : Int) : ℚ))
  exact ⟨Nx + Ny + Nz, Nx, Ny, Nz, rfl, bx, b_y, bz⟩

theorem body_not_selectable (K : Constants) (content : ContentIndices) (ext : Externals)
    (g : Chunks) (start dir : Vec3) (maxDist : ℚ) (s : RayState) (v : voxel)
    (hget : g.get K s.ix s.iy s.iz = some v)
    (hsel : (content.getBlockDef v.id).selectable = false) :
    g.rayCastBody K content ext start dir maxDist s =
      .next (rayCastAdvance (rayCastConsts start dir) s) := by
  unfold Chunks.rayCastBody
  simp only [hget, hsel, Bool.false_eq_true, if_false]

theorem loop_run (K : Constants) (content : ContentIndices) (ext : Externals)
    (g : Chunks) (start dir : Vec3) (M : ℚ) :
    ∀ (n fuel : Nat) (s : RayState),
      (∀ j, j < n → ((rayCastAdvance (rayCastConsts start dir))^[j] s).t.le (.fin M) = true ∧
        ∃ v, g.get K ((rayCastAdvance (rayCastConsts start dir))^[j] s).ix
            ((rayCastAdvance (rayCastConsts start dir))^[j] s).iy
            ((rayCastAdvance (rayCastConsts start dir))^[j] s).iz = some v ∧
          (content.getBlockDef v.id).selectable = false) →
      g.rayCastLoop K content ext start dir M (fuel + n) s =
        g.rayCastLoop K content ext start dir M fuel
          ((rayCastAdvance (rayCastConsts start dir))^[n] s) := by
  intro n
  induction n with
  | zero => intro fuel s _; rfl
  | succ n ih =>
    intro fuel s h
    obtain ⟨h0, v, hv, hs⟩ := h 0 (Nat.succ_pos n)
    rw [Function.iterate_zero, id] at h0 hv
    have e : fuel + (n + 1) = (fuel + n) + 1 := rfl
    rw [e, Chunks.rayCastLoop, if_pos h0,
      body_not_selectable K content ext g start dir M s v hv hs, Function.iterate_succ_apply]
    exact ih fuel _ (fun j hj => by
      have := h (j + 1) (by omega)
      rwa [Function.iterate_succ_apply] at this)

theorem loop_exit (K : Constants) (content : ContentIndices) (ext : Externals)
    (g : Chunks) (start dir : Vec3) (M : ℚ) (fuel : Nat) (s : RayState)
    (h : s.t.le (.fin M) = false) :
    g.rayCastLoop K content ext start dir M (fuel + 1) s =
      some ⟨none, rayPoint start dir s.t, ⟨0, 0, 0⟩, s.cell⟩ := by
  rw [Chunks.rayCastLoop, if_neg (by simp [h])]
  rfl

/-! ## Ray casting: the ray that hits nothing -/

/-- C19: over a grid in which every cell the ray visits is loaded and holds a
block that is not selectable, `rayCast` returns for every start, direction and
`maxDist`: there is a first pass count `n` at which the accumulated `t`
exceeds `maxDist` (at least one step for `maxDist >= 0`), and with more than `n`
passes of fuel the call returns no voxel, the zero `norm`, the cell reached
after `n` steps as `iend` and `start + t * dir` for that `t` as `end`. -/
theorem rayCast_no_hit (K : Constants) (content : ContentIndices) (ext : Externals)
    (g : Chunks) (start dir : Vec3) (maxDist : ℚ) (end0 : EVec3) (norm0 iend0 : IVec3)
    (hvis : ∀ k, (∀ j, j ≤ k →
        (rayCastSteps start dir end0 norm0 iend0 j).t.le (.fin maxDist) = true) →
      ∃ v, g.get K (rayCastSteps start dir end0 norm0 iend0 k).ix
          (rayCastSteps start dir end0 norm0 iend0 k).iy
          (rayCastSteps start dir end0 norm0 iend0 k).iz = some v ∧
        (content.getBlockDef v.id).selectable = false) :
    ∃ n, (∀ j, j < n → (rayCastSteps start dir end0 norm0 iend0 j).t.le (.fin maxDist) = true) ∧
      (rayCastSteps start dir end0 norm0 iend0 n).t.le (.fin maxDist) = false ∧
      (0 ≤ maxDist → 0 < n) ∧
      ∀ fuel, n < fuel →
        g.rayCast K content ext fuel start dir maxDist end0 norm0 iend0 =
          some ⟨none, rayPoint start dir (rayCastSteps start dir end0 norm0 iend0 n).t,
            ⟨0, 0, 0⟩, (rayCastSteps start dir end0 norm0 iend0 n).cell⟩ := by
  have key : ∃ n, (∀ j, j < n →
        (rayCastSteps start dir end0 norm0 iend0 j).t.le (.fin maxDist) = true) ∧
      (rayCastSteps start dir end0 norm0 iend0 n).t.le (.fin maxDist) = false := by
    by_cases h0 : (rayCastSteps start dir end0 norm0 iend0 0).t.le (.fin maxDist) = true
    · obtain ⟨N, hN⟩ := init_bound start dir maxDist end0 norm0 iend0
      obtain ⟨n, h1, h2⟩ := steps_exceed _ maxDist N _ hN
      refine ⟨n + 1, ?_, h2⟩
      intro j hj
      cases j with
      | zero => exact h0
      | succ j => exact h1 j (by omega)
    · exact ⟨0, fun j hj => absurd hj (Nat.not_lt_zero j), by simpa using h0⟩
  obtain ⟨n, h1, h2⟩ := key
  refine ⟨n, h1, h2, ?_, ?_⟩
  · intro hm
    rcases Nat.eq_zero_or_pos n with h | h
    · subst h
      have : (rayCastSteps start dir end0 norm0 iend0 0).t = .fin 0 := rfl
      rw [this] at h2
      simp [RayT.le] at h2
      linarith
    · exact h
  · intro fuel hf
    obtain ⟨f, rfl⟩ : ∃ f, fuel = (f + 1) + n := ⟨fuel - n - 1, by omega⟩
    unfold Chunks.rayCast
    rw [loop_run K content ext g start dir maxDist n (f + 1) _
      (fun j hj => ⟨h1 j hj, hvis j (fun i hi => h1 i (by omega))⟩)]
    exact loop_exit K content ext g start dir maxDist f _ h2

/-- Instance of C19: the ray from `(1/2, 1/2, 1/2)` along `x` with `maxDist = 1`
over the sample grid, in which no block is selectable. -/
theorem rayCast_no_hit_witness :
    ∃ n, (∀ j, j < n → (rayCastSteps ⟨1/2, 1/2, 1/2⟩ ⟨1, 0, 0⟩ ⟨.fin 9, .fin 9, .fin 9⟩
          ⟨7, 7, 7⟩ ⟨5, 5, 5⟩ j).t.le (.fin 1) = true) ∧
      (rayCastSteps ⟨1/2, 1/2, 1/2⟩ ⟨1, 0, 0⟩ ⟨.fin 9, .fin 9, .fin 9⟩
          ⟨7, 7, 7⟩ ⟨5, 5, 5⟩ n).t.le (.fin 1) = false ∧
      ((0 : ℚ) ≤ 1 → 0 < n) ∧
      ∀ fuel, n < fuel →
        sampleGrid.rayCast sampleK sampleContent sampleExt fuel ⟨1/2, 1/2, 1/2⟩ ⟨1, 0, 0⟩ 1
            ⟨.fin 9, .fin 9, .fin 9⟩ ⟨7, 7, 7⟩ ⟨5, 5, 5⟩ =
          some ⟨none, rayPoint ⟨1/2, 1/2, 1/2⟩ ⟨1, 0, 0⟩
            (rayCastSteps ⟨1/2, 1/2, 1/2⟩ ⟨1, 0, 0⟩ ⟨.fin 9, .fin 9, .fin 9⟩
              ⟨7, 7, 7⟩ ⟨5, 5, 5⟩ n).t,
            ⟨0, 0, 0⟩, (rayCastSteps ⟨1/2, 1/2, 1/2⟩ ⟨1, 0, 0⟩ ⟨.fin 9, .fin 9, .fin 9⟩
              ⟨7, 7, 7⟩ ⟨5, 5, 5⟩ n).cell⟩ :=
  rayCast_no_hit sampleK sampleContent sampleExt sampleGrid ⟨1/2, 1/2, 1/2⟩ ⟨1, 0, 0⟩ 1
    ⟨.fin 9, .fin 9, .fin 9⟩ ⟨7, 7, 7⟩ ⟨5, 5, 5⟩
    (fun k hk => match k, hk with
      | 0, _ => ⟨⟨0, 0⟩, by decide!, rfl⟩
      | 1, _ => ⟨⟨0, 0⟩, by decide!, rfl⟩
      | _ + 2, hk => absurd (hk 2 (by omega)) (by decide!))

/-- The run of the instance above: two steps, and the call returns the cell
`(2, 0, 0)` and the point `(2, 1/2, 1/2)`. -/
theorem no_hit_run :
    sampleGrid.rayCast sampleK sampleContent sampleExt 3 ⟨1/2, 1/2, 1/2⟩ ⟨1, 0, 0⟩ 1
        ⟨.fin 9, .fin 9, .fin 9⟩ ⟨7, 7, 7⟩ ⟨5, 5, 5⟩ =
      some ⟨none, ⟨.fin 2, .fin (1/2), .fin (1/2)⟩, ⟨0, 0, 0⟩, ⟨2, 0, 0⟩⟩ := by
  decide!

/-! ## Ray casting: the solid hit -/

theorem advance_stepped_eq (c : RayConsts) (s s2 : RayState) (h : s.toObst = s2.toObst) :
    (rayCastAdvance c s).toObst = (rayCastAdvance c s2).toObst ∧
      (rayCastAdvance c s).steppedIndex = (rayCastAdvance c s2).steppedIndex := by
  refine ⟨by rw [advance_toObst, advance_toObst, h], ?_⟩
  have hx : s.txMax = s2.txMax := congrArg ObstState.txMax h
  have hy : s.tyMax = s2.tyMax := congrArg ObstState.tyMax h
  have hz : s.tzMax = s2.tzMax := congrArg ObstState.tzMax h
  unfold rayCastAdvance
  rw [hx, hy, hz]
  split_ifs <;> rfl

theorem body_solid (K : Constants) (content : ContentIndices) (ext : Externals)
    (g : Chunks) (start dir : Vec3) (maxDist : ℚ) (s : RayState) (v : voxel)
    (hget : g.get K s.ix s.iy s.iz = some v)
    (hsel : (content.getBlockDef v.id).selectable = true)
    (hsolid : (content.getBlockDef v.id).solid = true) :
    g.rayCastBody K content ext start dir maxDist s =
      .done ⟨some v, rayPoint start dir s.t, hitNorm (rayCastConsts start dir) s.steppedIndex,
        s.cell⟩ := by
  unfold Chunks.rayCastBody
  simp only [hget, hsel, hsolid, if_true, Bool.not_true, Bool.false_eq_true, if_false]
  rfl

theorem body_done_solid (K : Constants) (content : ContentIndices) (ext : Externals)
    (g : Chunks) (start dir : Vec3) (maxDist : ℚ) (s : RayState) (v : voxel)
    (e : EVec3) (nrm ie : IVec3)
    (h : g.rayCastBody K content ext start dir maxDist s = .done ⟨some v, e, nrm, ie⟩)
    (hsolid : (content.getBlockDef v.id).solid = true) :
    g.get K s.ix s.iy s.iz = some v ∧ (content.getBlockDef v.id).selectable = true ∧
      e = rayPoint start dir s.t ∧ nrm = hitNorm (rayCastConsts start dir) s.steppedIndex ∧
      ie = s.cell := by
  cases hget : g.get K s.ix s.iy s.iz with
  | none =>
    unfold Chunks.rayCastBody at h
    simp only [hget] at h
    cases h
  | some u =>
    by_cases hsel : (content.getBlockDef u.id).selectable = true
    · by_cases hs : (content.getBlockDef u.id).solid = true
      · rw [body_solid K content ext g start dir maxDist s u hget hsel hs] at h
        simp only [RayStep.done.injEq, RayResult.mk.injEq, Option.some.injEq] at h
        obtain ⟨h1, h2, h3, h4⟩ := h
        subst h1
        exact ⟨rfl, hsel, h2.symm, h3.symm, h4.symm⟩
      · unfold Chunks.rayCastBody at h
        simp only [hget, hsel, hs, if_true, Bool.not_false, Bool.not_eq_true] at h
        split_ifs at h
        all_goals first
          | exact RayStep.noConfusion h
          | (simp only [RayStep.done.injEq, RayResult.mk.injEq, Option.some.injEq] at h
             obtain ⟨h1, _⟩ := h
             subst h1
             exact absurd hsolid hs)
    · unfold Chunks.rayCastBody at h
      simp only [hget, hsel, if_false] at h
      cases h

theorem loop_hit (K : Constants) (content : ContentIndices) (ext : Externals)
    (g : Chunks) (start dir : Vec3) (M : ℚ) (end0 : EVec3) (norm0 iend0 : IVec3)
    (v : voxel) (e : EVec3) (nrm ie : IVec3)
    (hsolid : (content.getBlockDef v.id).solid = true) :
    ∀ (fuel k : Nat) (s : RayState),
      s.toObst = (rayCastSteps start dir end0 norm0 iend0 k).toObst →
      s.steppedIndex = (rayCastSteps start dir end0 norm0 iend0 k).steppedIndex →
      g.rayCastLoop K content ext start dir M fuel s = some ⟨some v, e, nrm, ie⟩ →
      ∃ n, (rayCastSteps start dir end0 norm0 iend0 n).t.le (.fin M) = true ∧
        g.get K (rayCastSteps start dir end0 norm0 iend0 n).ix
          (rayCastSteps start dir end0 norm0 iend0 n).iy
          (rayCastSteps start dir end0 norm0 iend0 n).iz = some v ∧
        (content.getBlockDef v.id).selectable = true ∧
        e = rayPoint start dir (rayCastSteps start dir end0 norm0 iend0 n).t ∧
        nrm = hitNorm (rayCastConsts start dir)
          (rayCastSteps start dir end0 norm0 iend0 n).steppedIndex ∧
        ie = (rayCastSteps start dir end0 norm0 iend0 n).cell := by
  intro fuel
  induction fuel with
  | zero =>
    intro k s _ _ h
    simp [Chunks.rayCastLoop] at h
  | succ fuel ih =>
    intro k s h1 h2 h
    have ht : s.t = (rayCastSteps start dir end0 norm0 iend0 k).t := congrArg ObstState.t h1
    have hix : s.ix = (rayCastSteps start dir end0 norm0 iend0 k).ix := congrArg ObstState.ix h1
    have hiy : s.iy = (rayCastSteps start dir end0 norm0 iend0 k).iy := congrArg ObstState.iy h1
    have hiz : s.iz = (rayCastSteps start dir end0 norm0 iend0 k).iz := congrArg ObstState.iz h1
    rw [Chunks.rayCastLoop] at h
    by_cases hle : s.t.le (.fin M) = true
    · rw [if_pos hle] at h
      cases hb : g.rayCastBody K content ext start dir M s with
      | done r =>
        rw [hb] at h
        simp only [Option.some.injEq] at h
        subst h
        obtain ⟨a1, a2, a3, a4, a5⟩ :=
          body_done_solid K content ext g start dir M s v e nrm ie hb hsolid
        refine ⟨k, ?_, ?_, a2, ?_, ?_, ?_⟩
        · rw [← ht]; exact hle
        · rw [← hix, ← hiy, ← hiz]; exact a1
        · rw [← ht]; exact a3
        · rw [← h2]; exact a4
        · rw [a5]
          unfold RayState.cell
          rw [hix, hiy, hiz]
      | next s' =>
        rw [hb] at h
        obtain ⟨sm, b1, b2, b3⟩ := rayCastBody_next K content ext g start dir M s s' hb
        have hc := advance_stepped_eq (rayCastConsts start dir) sm
          (rayCastSteps start dir end0 norm0 iend0 k) (b1.trans h1)
        refine ih (k + 1) s' ?_ ?_ h
        · rw [b3, steps_succ]; exact hc.1
        · rw [b3, steps_succ]; exact hc.2
    · rw [if_neg hle] at h
      simp only [Option.some.injEq, RayResult.mk.injEq] at h
      exact absurd h.1 (by simp)

theorem hitNorm_start (c : RayConsts) : hitNorm c (-1) = ⟨0, 0, 0⟩ := rfl

theorem hitNorm_x (c : RayConsts) : hitNorm c 0 = ⟨-c.stepx, 0, 0⟩ := rfl

theorem hitNorm_y (c : RayConsts) : hitNorm c 1 = ⟨0, -c.stepy, 0⟩ := rfl

theorem hitNorm_z (c : RayConsts) : hitNorm c 2 = ⟨0, 0, -c.stepz⟩ := rfl

theorem moved_zero (d : ℚ) (i i0 : Int)
    (h : (if d > 0 then (1 : Int) else -1) * (i - i0) = 0) : i = i0 := by
  split_ifs at h <;> omega

theorem inv_at_start (start dir : Vec3) (n : Nat) (s : RayState) (h : RayInv start dir n s) :
    n = 0 ↔ s.cell = start.cell := by
  obtain ⟨_, _, _, mx, my, mz, hsum, _⟩ := h
  have mx' : 0 ≤ (if dir.x > 0 then (1 : Int) else -1) * (s.ix - ⌊start.x⌋) := mx
  have my' : 0 ≤ (if dir.y > 0 then (1 : Int) else -1) * (s.iy - ⌊start.y⌋) := my
  have mz' : 0 ≤ (if dir.z > 0 then (1 : Int) else -1) * (s.iz - ⌊start.z⌋) := mz
  have hs : (if dir.x > 0 then (1 : Int) else -1) * (s.ix - ⌊start.x⌋) +
      (if dir.y > 0 then (1 : Int) else -1) * (s.iy - ⌊start.y⌋) +
      (if dir.z > 0 then (1 : Int) else -1) * (s.iz - ⌊start.z⌋) = n := hsum
  constructor
  · intro hn
    subst hn
    have e1 := moved_zero dir.x s.ix ⌊start.x⌋ (by push_cast at hs; omega)
    have e2 := moved_zero dir.y s.iy ⌊start.y⌋ (by push_cast at hs; omega)
    have e3 := moved_zero dir.z s.iz ⌊start.z⌋ (by push_cast at hs; omega)
    unfold RayState.cell Vec3.cell
    rw [e1, e2, e3]
  · intro hc
    unfold RayState.cell Vec3.cell at hc
    simp only [IVec3.mk.injEq] at hc
    obtain ⟨e1, e2, e3⟩ := hc
    rw [e1, e2, e3] at hs
    simp only [sub_self, mul_zero, add_zero] at hs
    exact_mod_cast hs.symm

/-! ## Ray casting: rays along an axis -/

theorem advance_t_mono (start dir : Vec3) (n : Nat) (s : RayState) (h : RayInv start dir n s) :
    s.t.le (rayCastAdvance (rayCastConsts start dir) s).t = true := by
  obtain ⟨hx, hy, hz, _⟩ := h
  unfold rayCastAdvance
  split_ifs
  · exact hx.1
  · exact hz.1
  · exact hy.1
  · exact hz.1

theorem steps_t_mono (start dir : Vec3) (e0 : EVec3) (n0 i0 : IVec3) (j : Nat) :
    ∀ d, (rayCastSteps start dir e0 n0 i0 j).t.le
      (rayCastSteps start dir e0 n0 i0 (j + d)).t = true := by
  intro d
  induction d with
  | zero => exact rayT_le_refl _
  | succ d ih =>
    refine rayT_le_trans _ _ _ ih ?_
    rw [← Nat.add_assoc, steps_succ]
    exact advance_t_mono start dir (j + d) _ (inv_steps start dir e0 n0 i0 (j + d))

theorem run_steps (K : Constants) (content : ContentIndices) (ext : Externals)
    (g : Chunks) (start dir : Vec3) (M : ℚ) (e0 : EVec3) (n0 i0 : IVec3) (n fuel : Nat)
    (h : ∀ j, j < n → (rayCastSteps start dir e0 n0 i0 j).t.le (.fin M) = true ∧
      ∃ v, g.get K (rayCastSteps start dir e0 n0 i0 j).ix (rayCastSteps start dir e0 n0 i0 j).iy
          (rayCastSteps start dir e0 n0 i0 j).iz = some v ∧
        (content.getBlockDef v.id).selectable = false) :
    g.rayCast K content ext (fuel + n) start dir M e0 n0 i0 =
      g.rayCastLoop K content ext start dir M fuel (rayCastSteps start dir e0 n0 i0 n) :=
  loop_run K content ext g start dir M n fuel _ h

theorem loop_solid (K : Constants) (content : ContentIndices) (ext : Externals)
    (g : Chunks) (start dir : Vec3) (M : ℚ) (fuel : Nat) (s : RayState) (v : voxel)
    (hle : s.t.le (.fin M) = true) (hget : g.get K s.ix s.iy s.iz = some v)
    (hsel : (content.getBlockDef v.id).selectable = true)
    (hsolid : (content.getBlockDef v.id).solid = true) :
    g.rayCastLoop K content ext start dir M (fuel + 1) s =
      some ⟨some v, rayPoint start dir s.t, hitNorm (rayCastConsts start dir) s.steppedIndex,
        s.cell⟩ := by
  rw [Chunks.rayCastLoop, if_pos hle, body_solid K content ext g start dir M s v hget hsel hsolid]

theorem hit_after_steps (K : Constants) (content : ContentIndices) (ext : Externals)
    (g : Chunks) (start dir : Vec3) (M : ℚ) (e0 : EVec3) (n0 i0 : IVec3) (n : Nat) (v : voxel)
    (hle : (rayCastSteps start dir e0 n0 i0 n).t.le (.fin M) = true)
    (hcells : ∀ j, j < n →
      ∃ u, g.get K (rayCastSteps start dir e0 n0 i0 j).ix (rayCastSteps start dir e0 n0 i0 j).iy
          (rayCastSteps start dir e0 n0 i0 j).iz = some u ∧
        (content.getBlockDef u.id).selectable = false)
    (hv : g.get K (rayCastSteps start dir e0 n0 i0 n).ix (rayCastSteps start dir e0 n0 i0 n).iy
      (rayCastSteps start dir e0 n0 i0 n).iz = some v)
    (hsel : (content.getBlockDef v.id).selectable = true)
    (hsolid : (content.getBlockDef v.id).solid = true) (fuel : Nat) (hf : n < fuel) :
    g.rayCast K content ext fuel start dir M e0 n0 i0 =
      some ⟨some v, rayPoint start dir (rayCastSteps start dir e0 n0 i0 n).t,
        hitNorm (rayCastConsts start dir) (rayCastSteps start dir e0 n0 i0 n).steppedIndex,
        (rayCastSteps start dir e0 n0 i0 n).cell⟩ := by
  obtain ⟨f, rfl⟩ : ∃ f, fuel = (f + 1) + n := ⟨fuel - n - 1, by omega⟩
  rw [run_steps K content ext g start dir M e0 n0 i0 n (f + 1) (fun j hj => ⟨?_, hcells j hj⟩)]
  · exact loop_solid K content ext g start dir M f _ v hle hv hsel hsolid
  · obtain ⟨d, rfl⟩ : ∃ d, n = j + d := ⟨n - j, by omega⟩
    exact rayT_le_trans _ _ _ (steps_t_mono start dir e0 n0 i0 j d) hle

theorem face_within (p d M : ℚ) (i : Int) (t : RayT) (h : OnEntryFace p d i t)
    (hd : (nearFace d i - p) / d ≤ M) :
    t.le (.fin M) = true ∧ RayT.along p t d = .fin (nearFace d i) := by
  obtain ⟨h0, τ, ht, hτ⟩ := h
  subst ht
  have e : τ = (nearFace d i - p) / d := by
    rw [eq_div_iff h0]
    unfold nearFace
    linarith
  refine ⟨?_, ?_⟩
  · simp only [RayT.le, decide_eq_true_eq]
    rw [e]
    exact hd
  · show ExFloat.fin (p + τ * d) = _
    rw [hτ]
    rfl

theorem along_still (p : ℚ) (t : RayT) (h : ∃ τ, t = .fin τ) : RayT.along p t 0 = .fin p := by
  obtain ⟨τ, rfl⟩ := h
  simp [RayT.along]

theorem advance_x (c : RayConsts) (s : RayState) (h1 : s.txMax.lt s.tyMax = true)
    (h2 : s.txMax.lt s.tzMax = true) :
    rayCastAdvance c s =
      { s with ix := s.ix + c.stepx, t := s.txMax, txMax := s.txMax.add c.txDelta,
               steppedIndex := 0 } := by
  unfold rayCastAdvance
  rw [if_pos h1, if_pos h2]

theorem advance_y (c : RayConsts) (s : RayState) (h1 : s.txMax.lt s.tyMax = false)
    (h2 : s.tyMax.lt s.tzMax = true) :
    rayCastAdvance c s =
      { s with iy := s.iy + c.stepy, t := s.tyMax, tyMax := s.tyMax.add c.tyDelta,
               steppedIndex := 1 } := by
  unfold rayCastAdvance
  rw [if_neg (by simp [h1]), if_pos h2]

theorem advance_z (c : RayConsts) (s : RayState) (h1 : s.txMax.lt s.tyMax = false)
    (h2 : s.tyMax.lt s.tzMax = false) :
    rayCastAdvance c s =
      { s with iz := s.iz + c.stepz, t := s.tzMax, tzMax := s.tzMax.add c.tzDelta,
               steppedIndex := 2 } := by
  unfold rayCastAdvance
  rw [if_neg (by simp [h1]), if_neg (by simp [h2])]

theorem axisInv_still (p : ℚ) (i : Int) (tMax t : RayT) (h : AxisInv p 0 i tMax t) :
    tMax = .inf := by
  rcases h.2 with h | h
  · exact h.2
  · exact absurd rfl h.1

theorem axisInv_moving (p d : ℚ) (i : Int) (tMax t : RayT) (h : AxisInv p d i tMax t)
    (hd : d ≠ 0) : ∃ m, tMax = .fin m := by
  rcases h.2 with h | h
  · exact absurd h.1 hd
  · obtain ⟨_, m, hm, _⟩ := h
    exact ⟨m, hm⟩

theorem axis_x_steps (start dir : Vec3) (e0 : EVec3) (n0 i0 : IVec3) (hx : dir.x ≠ 0)
    (hy : dir.y = 0) (hz : dir.z = 0) :
    ∀ j : Nat, (rayCastSteps start dir e0 n0 i0 j).ix =
        ⌊start.x⌋ + (j : Int) * (rayCastConsts start dir).stepx ∧
      (rayCastSteps start dir e0 n0 i0 j).iy = ⌊start.y⌋ ∧
      (rayCastSteps start dir e0 n0 i0 j).iz = ⌊start.z⌋ ∧
      (0 < j → (rayCastSteps start dir e0 n0 i0 j).steppedIndex = 0) := by
  intro j
  induction j with
  | zero =>
    refine ⟨?_, rfl, rfl, fun h => absurd h (Nat.lt_irrefl 0)⟩
    show ⌊start.x⌋ = ⌊start.x⌋ + ((0 : Nat) : Int) * _
    simp
  | succ j ih =>
    obtain ⟨a1, a2, a3, _⟩ := ih
    obtain ⟨ix, iy, iz, _⟩ := inv_steps start dir e0 n0 i0 j
    rw [hy] at iy
    rw [hz] at iz
    obtain ⟨m, hm⟩ := axisInv_moving _ _ _ _ _ ix hx
    have ty := axisInv_still _ _ _ _ iy
    have tz := axisInv_still _ _ _ _ iz
    rw [steps_succ, advance_x _ _ (by rw [hm, ty]; rfl) (by rw [hm, tz]; rfl)]
    refine ⟨?_, a2, a3, fun _ => rfl⟩
    show (rayCastSteps start dir e0 n0 i0 j).ix + _ = _
    rw [a1]
    push_cast
    ring

theorem axis_y_steps (start dir : Vec3) (e0 : EVec3) (n0 i0 : IVec3) (hx : dir.x = 0)
    (hy : dir.y ≠ 0) (hz : dir.z = 0) :
    ∀ j : Nat, (rayCastSteps start dir e0 n0 i0 j).ix = ⌊start.x⌋ ∧
      (rayCastSteps start dir e0 n0 i0 j).iy =
        ⌊start.y⌋ + (j : Int) * (rayCastConsts start dir).stepy ∧
      (rayCastSteps start dir e0 n0 i0 j).iz = ⌊start.z⌋ ∧
      (0 < j → (rayCastSteps start dir e0 n0 i0 j).steppedIndex = 1) := by
  intro j
  induction j with
  | zero =>
    refine ⟨rfl, ?_, rfl, fun h => absurd h (Nat.lt_irrefl 0)⟩
    show ⌊start.y⌋ = ⌊start.y⌋ + ((0 : Nat) : Int) * _
    simp
  | succ j ih =>
    obtain ⟨a1, a2, a3, _⟩ := ih
    obtain ⟨ix, iy, iz, _⟩ := inv_steps start dir e0 n0 i0 j
    rw [hx] at ix
    rw [hz] at iz
    obtain ⟨m, hm⟩ := axisInv_moving _ _ _ _ _ iy hy
    have tx := axisInv_still _ _ _ _ ix
    have tz := axisInv_still _ _ _ _ iz
    rw [steps_succ, advance_y _ _ (by rw [hm, tx]; rfl) (by rw [hm, tz]; rfl)]
    refine ⟨a1, ?_, a3, fun _ => rfl⟩
    show (rayCastSteps start dir e0 n0 i0 j).iy + _ = _
    rw [a2]
    push_cast
    ring

theorem axis_z_steps (start dir : Vec3) (e0 : EVec3) (n0 i0 : IVec3) (hx : dir.x = 0)
    (hy : dir.y = 0) :
    ∀ j : Nat, (rayCastSteps start dir e0 n0 i0 j).ix = ⌊start.x⌋ ∧
      (rayCastSteps start dir e0 n0 i0 j).iy = ⌊start.y⌋ ∧
      (rayCastSteps start dir e0 n0 i0 j).iz =
        ⌊start.z⌋ + (j : Int) * (rayCastConsts start dir).stepz ∧
      (0 < j → (rayCastSteps start dir e0 n0 i0 j).steppedIndex = 2) := by
  intro j
  induction j with
  | zero =>
    refine ⟨rfl, rfl, ?_, fun h => absurd h (Nat.lt_irrefl 0)⟩
    show ⌊start.z⌋ = ⌊start.z⌋ + ((0 : Nat) : Int) * _
    simp
  | succ j ih =>
    obtain ⟨a1, a2, a3, _⟩ := ih
    obtain ⟨ix, iy, iz, _⟩ := inv_steps start dir e0 n0 i0 j
    rw [hx] at ix
    rw [hy] at iy
    have tx := axisInv_still _ _ _ _ ix
    have ty := axisInv_still _ _ _ _ iy
    rw [steps_succ, advance_z _ _ (by rw [tx, ty]; rfl) (by rw [ty]; rfl)]
    refine ⟨a1, a2, ?_, fun _ => rfl⟩
    show (rayCastSteps start dir e0 n0 i0 j).iz + _ = _
    rw [a3]
    push_cast
    ring

theorem entry_of_index (start dir : Vec3) (n : Nat) (s : RayState) (h : RayInv start dir n s)
    (hn : 0 < n) :
    (s.steppedIndex = 0 → OnEntryFace start.x dir.x s.ix s.t) ∧
    (s.steppedIndex = 1 → OnEntryFace start.y dir.y s.iy s.t) ∧
    (s.steppedIndex = 2 → s.t = .inf ∨ OnEntryFace start.z dir.z s.iz s.t) ∧
    (s.steppedIndex = 0 ∨ s.steppedIndex = 1 ∨ s.steppedIndex = 2) := by
  obtain ⟨_, _, _, _, _, _, _, hl⟩ := h
  rcases hl with ⟨h0, _⟩ | ⟨_, h1, hf⟩ | ⟨_, h1, hf⟩ | ⟨_, h1, hf⟩
  · omega
  · exact ⟨fun _ => hf, fun h => by omega, fun h => by omega, Or.inl h1⟩
  · exact ⟨fun h => by omega, fun _ => hf, fun h => by omega, Or.inr (Or.inl h1)⟩
  · exact ⟨fun h => by omega, fun h => by omega, fun _ => hf, Or.inr (Or.inr h1)⟩

theorem axis_x_hit (K : Constants) (content : ContentIndices) (ext : Externals)
    (g : Chunks) (start dir : Vec3) (M : ℚ) (e0 : EVec3) (n0 i0 : IVec3) (n : Nat) (v : voxel)
    (hx : dir.x ≠ 0) (hy : dir.y = 0) (hz : dir.z = 0) (hn : 0 < n)
    (hcells : ∀ j : Nat, j < n →
      ∃ u, g.get K (⌊start.x⌋ + (j : Int) * (rayCastConsts start dir).stepx) ⌊start.y⌋
          ⌊start.z⌋ = some u ∧ (content.getBlockDef u.id).selectable = false)
    (hv : g.get K (⌊start.x⌋ + (n : Int) * (rayCastConsts start dir).stepx) ⌊start.y⌋
      ⌊start.z⌋ = some v)
    (hsel : (content.getBlockDef v.id).selectable = true)
    (hsolid : (content.getBlockDef v.id).solid = true)
    (hd : (nearFace dir.x (⌊start.x⌋ + (n : Int) * (rayCastConsts start dir).stepx) - start.x) /
      dir.x ≤ M) (fuel : Nat) (hf : n < fuel) :
    g.rayCast K content ext fuel start dir M e0 n0 i0 =
      some ⟨some v,
        ⟨.fin (nearFace dir.x (⌊start.x⌋ + (n : Int) * (rayCastConsts start dir).stepx)),
          .fin start.y, .fin start.z⟩,
        ⟨-(rayCastConsts start dir).stepx, 0, 0⟩,
        ⟨⌊start.x⌋ + (n : Int) * (rayCastConsts start dir).stepx, ⌊start.y⌋, ⌊start.z⌋⟩⟩ := by
  have hs := axis_x_steps start dir e0 n0 i0 hx hy hz
  obtain ⟨a1, a2, a3, a4⟩ := hs n
  have hface := (entry_of_index start dir n _ (inv_steps start dir e0 n0 i0 n) hn).1 (a4 hn)
  rw [a1] at hface
  obtain ⟨hle, hal⟩ := face_within _ _ M _ _ hface hd
  have hfin : ∃ τ, (rayCastSteps start dir e0 n0 i0 n).t = .fin τ := hface.2.imp fun _ h => h.1
  rw [hit_after_steps K content ext g start dir M e0 n0 i0 n v hle
    (fun j hj => by
      obtain ⟨b1, b2, b3, _⟩ := hs j
      rw [b1, b2, b3]
      exact hcells j hj)
    (by rw [a1, a2, a3]; exact hv) hsel hsolid fuel hf]
  unfold rayPoint RayState.cell
  rw [a4 hn, hitNorm_x, a1, a2, a3, hal, hy, hz, along_still _ _ hfin, along_still _ _ hfin]

theorem axis_y_hit (K : Constants) (content : ContentIndices) (ext : Externals)
    (g : Chunks) (start dir : Vec3) (M : ℚ) (e0 : EVec3) (n0 i0 : IVec3) (n : Nat) (v : voxel)
    (hx : dir.x = 0) (hy : dir.y ≠ 0) (hz : dir.z = 0) (hn : 0 < n)
    (hcells : ∀ j : Nat, j < n →
      ∃ u, g.get K ⌊start.x⌋ (⌊start.y⌋ + (j : Int) * (rayCastConsts start dir).stepy)
          ⌊start.z⌋ = some u ∧ (content.getBlockDef u.id).selectable = false)
    (hv : g.get K ⌊start.x⌋ (⌊start.y⌋ + (n : Int) * (rayCastConsts start dir).stepy)
      ⌊start.z⌋ = some v)
    (hsel : (content.getBlockDef v.id).selectable = true)
    (hsolid : (content.getBlockDef v.id).solid = true)
    (hd : (nearFace dir.y (⌊start.y⌋ + (n : Int) * (rayCastConsts start dir).stepy) - start.y) /
      dir.y ≤ M) (fuel : Nat) (hf : n < fuel) :
    g.rayCast K content ext fuel start dir M e0 n0 i0 =
      some ⟨some v,
        ⟨.fin start.x,
          .fin (nearFace dir.y (⌊start.y⌋ + (n : Int) * (rayCastConsts start dir).stepy)),
          .fin start.z⟩,
        ⟨0, -(rayCastConsts start dir).stepy, 0⟩,
        ⟨⌊start.x⌋, ⌊start.y⌋ + (n : Int) * (rayCastConsts start dir).stepy, ⌊start.z⌋⟩⟩ := by
  have hs := axis_y_steps start dir e0 n0 i0 hx hy hz
  obtain ⟨a1, a2, a3, a4⟩ := hs n
  have hface := (entry_of_index start dir n _ (inv_steps start dir e0 n0 i0 n) hn).2.1 (a4 hn)
  rw [a2] at hface
  obtain ⟨hle, hal⟩ := face_within _ _ M _ _ hface hd
  have hfin : ∃ τ, (rayCastSteps start dir e0 n0 i0 n).t = .fin τ := hface.2.imp fun _ h => h.1
  rw [hit_after_steps K content ext g start dir M e0 n0 i0 n v hle
    (fun j hj => by
      obtain ⟨b1, b2, b3, _⟩ := hs j
      rw [b1, b2, b3]
      exact hcells j hj)
    (by rw [a1, a2, a3]; exact hv) hsel hsolid fuel hf]
  unfold rayPoint RayState.cell
  rw [a4 hn, hitNorm_y, a1, a2, a3, hal, hx, hz, along_still _ _ hfin, along_still _ _ hfin]

theorem axis_z_hit (K : Constants) (content : ContentIndices) (ext : Externals)
    (g : Chunks) (start dir : Vec3) (M : ℚ) (e0 : EVec3) (n0 i0 : IVec3) (n : Nat) (v : voxel)
    (hx : dir.x = 0) (hy : dir.y = 0) (hz : dir.z ≠ 0) (hn : 0 < n)
    (hcells : ∀ j : Nat, j < n →
      ∃ u, g.get K ⌊start.x⌋ ⌊start.y⌋
          (⌊start.z⌋ + (j : Int) * (rayCastConsts start dir).stepz) = some u ∧
        (content.getBlockDef u.id).selectable = false)
    (hv : g.get K ⌊start.x⌋ ⌊start.y⌋
      (⌊start.z⌋ + (n : Int) * (rayCastConsts start dir).stepz) = some v)
    (hsel : (content.getBlockDef v.id).selectable = true)
    (hsolid : (content.getBlockDef v.id).solid = true)
    (hd : (nearFace dir.z (⌊start.z⌋ + (n : Int) * (rayCastConsts start dir).stepz) - start.z) /
      dir.z ≤ M) (fuel : Nat) (hf : n < fuel) :
    g.rayCast K content ext fuel start dir M e0 n0 i0 =
      some ⟨some v,
        ⟨.fin start.x, .fin start.y,
          .fin (nearFace dir.z (⌊start.z⌋ + (n : Int) * (rayCastConsts start dir).stepz))⟩,
        ⟨0, 0, -(rayCastConsts start dir).stepz⟩,
        ⟨⌊start.x⌋, ⌊start.y⌋, ⌊start.z⌋ + (n : Int) * (rayCastConsts start dir).stepz⟩⟩ := by
  have hs := axis_z_steps start dir e0 n0 i0 hx hy
  obtain ⟨a1, a2, a3, a4⟩ := hs n
  have hface : OnEntryFace start.z dir.z (rayCastSteps start dir e0 n0 i0 n).iz
      (rayCastSteps start dir e0 n0 i0 n).t := by
    obtain ⟨k, rfl⟩ : ∃ k, n = k + 1 := ⟨n - 1, by omega⟩
    obtain ⟨ix, iy, iz, _⟩ := inv_steps start dir e0 n0 i0 k
    rw [hx] at ix
    rw [hy] at iy
    have tx := axisInv_still _ _ _ _ ix
    have ty := axisInv_still _ _ _ _ iy
    obtain ⟨m, hm⟩ := axisInv_moving _ _ _ _ _ iz hz
    have st := (axisInv_step _ _ _ _ _ iz).2
    rw [steps_succ, advance_z _ _ (by rw [tx, ty]; rfl) (by rw [ty]; rfl)]
    rcases st with h | h
    · rw [hm] at h
      cases h
    · exact h
  rw [a3] at hface
  obtain ⟨hle, hal⟩ := face_within _ _ M _ _ hface hd
  have hfin : ∃ τ, (rayCastSteps start dir e0 n0 i0 n).t = .fin τ := hface.2.imp fun _ h => h.1
  rw [hit_after_steps K content ext g start dir M e0 n0 i0 n v hle
    (fun j hj => by
      obtain ⟨b1, b2, b3, _⟩ := hs j
      rw [b1, b2, b3]
      exact hcells j hj)
    (by rw [a1, a2, a3]; exact hv) hsel hsolid fuel hf]
  unfold rayPoint RayState.cell
  rw [a4 hn, hitNorm_z, a1, a2, a3, hal, hx, hy, along_still _ _ hfin, along_still _ _ hfin]

/-! ## Ray casting: the claim about the solid hit -/

theorem solid_hit_general (K : Constants) (content : ContentIndices) (ext : Externals)
    (g : Chunks) (start dir : Vec3) (maxDist : ℚ) (end0 : EVec3) (norm0 iend0 : IVec3)
    (fuel : Nat) (v : voxel) (e : EVec3) (nrm ie : IVec3)
    (hret : g.rayCast K content ext fuel start dir maxDist end0 norm0 iend0 =
      some ⟨some v, e, nrm, ie⟩)
    (hsolid : (content.getBlockDef v.id).solid = true) :
    (content.getBlockDef v.id).selectable = true ∧
    g.get K ie.x ie.y ie.z = some v ∧
    (ie = start.cell → nrm = ⟨0, 0, 0⟩ ∧ e = ⟨.fin start.x, .fin start.y, .fin start.z⟩) ∧
    (ie ≠ start.cell → ∃ (n : Nat) (τ : ℚ), 0 < n ∧
      ie = (rayCastSteps start dir end0 norm0 iend0 n).cell ∧
      (rayCastSteps start dir end0 norm0 iend0 n).t = .fin τ ∧ τ ≤ maxDist ∧
      e = ⟨.fin (start.x + τ * dir.x), .fin (start.y + τ * dir.y),
        .fin (start.z + τ * dir.z)⟩ ∧
      (((rayCastSteps start dir end0 norm0 iend0 n).steppedIndex = 0 ∧
          nrm = ⟨-(rayCastConsts start dir).stepx, 0, 0⟩ ∧ dir.x ≠ 0 ∧
          start.x + τ * dir.x = nearFace dir.x ie.x) ∨
        ((rayCastSteps start dir end0 norm0 iend0 n).steppedIndex = 1 ∧
          nrm = ⟨0, -(rayCastConsts start dir).stepy, 0⟩ ∧ dir.y ≠ 0 ∧
          start.y + τ * dir.y = nearFace dir.y ie.y) ∨
        ((rayCastSteps start dir end0 norm0 iend0 n).steppedIndex = 2 ∧
          nrm = ⟨0, 0, -(rayCastConsts start dir).stepz⟩ ∧ dir.z ≠ 0 ∧
          start.z + τ * dir.z = nearFace dir.z ie.z))) := by
  obtain ⟨n, hle, hget, hsel, he, hn, hie⟩ :=
    loop_hit K content ext g start dir maxDist end0 norm0 iend0 v e nrm ie hsolid fuel 0
      (rayCastInit start dir end0 norm0 iend0) rfl rfl hret
  have inv := inv_steps start dir end0 norm0 iend0 n
  have hstart := inv_at_start start dir n _ inv
  set s := rayCastSteps start dir end0 norm0 iend0 n with hs
  refine ⟨hsel, by rw [hie]; exact hget, ?_, ?_⟩
  · intro hc
    rw [hie] at hc
    have h0 := hstart.mpr hc
    obtain ⟨_, _, _, _, _, _, _, hl⟩ := inv
    rcases hl with ⟨_, h1, h2⟩ | ⟨h, _⟩ | ⟨h, _⟩ | ⟨h, _⟩
    · rw [hn, he, h1, h2]
      refine ⟨rfl, ?_⟩
      unfold rayPoint
      rw [along_zero, along_zero, along_zero]
    · omega
    · omega
    · omega
  · intro hc
    rw [hie] at hc
    have hpos : 0 < n := Nat.pos_of_ne_zero fun h => hc (hstart.mp h)
    obtain ⟨fx, fy, fz, hidx⟩ := entry_of_index start dir n s inv hpos
    have fin_of : ∀ (p d : ℚ) (i : Int), OnEntryFace p d i s.t →
        ∃ τ, s.t = .fin τ ∧ τ ≤ maxDist ∧ d ≠ 0 ∧ p + τ * d = nearFace d i := by
      intro p d i hf
      obtain ⟨hd, τ, ht, hτ⟩ := hf
      refine ⟨τ, ht, ?_, hd, hτ⟩
      rw [ht] at hle
      simpa [RayT.le] using hle
    have pt : ∀ τ, s.t = .fin τ → e = ⟨.fin (start.x + τ * dir.x), .fin (start.y + τ * dir.y),
        .fin (start.z + τ * dir.z)⟩ := by
      intro τ ht
      rw [he, ht]
      rfl
    rcases hidx with h | h | h
    · obtain ⟨τ, ht, hm, hd, hτ⟩ := fin_of _ _ _ (fx h)
      exact ⟨n, τ, hpos, hie, ht, hm, pt τ ht,
        Or.inl ⟨h, by rw [hn, h, hitNorm_x], hd, by rw [hie]; exact hτ⟩⟩
    · obtain ⟨τ, ht, hm, hd, hτ⟩ := fin_of _ _ _ (fy h)
      exact ⟨n, τ, hpos, hie, ht, hm, pt τ ht,
        Or.inr (Or.inl ⟨h, by rw [hn, h, hitNorm_y], hd, by rw [hie]; exact hτ⟩)⟩
    · rcases fz h with hinf | hf
      · rw [hinf] at hle
        simp [RayT.le] at hle
      · obtain ⟨τ, ht, hm, hd, hτ⟩ := fin_of _ _ _ hf
        exact ⟨n, τ, hpos, hie, ht, hm, pt τ ht,
          Or.inr (Or.inr ⟨h, by rw [hn, h, hitNorm_z], hd, by rw [hie]; exact hτ⟩)⟩

/-- C17: whenever `rayCast` returns a voxel whose block is solid, the block is
selectable, `iend` is the cell of that voxel, a hit in the starting cell has
`norm = (0, 0, 0)` and `end = start`, and any other hit is reached after `n > 0`
steps with a finite `t <= maxDist`, `end = start + t * dir`, `norm` zero but for
minus the step on the axis stepped last, and `end` on the face of the hit cell
that this step crossed.  For a ray along `x`, `y` or `z` that starts `n > 0`
cells before a solid selectable block, over loaded cells that are not
selectable, with the near face of the block within `maxDist`, `rayCast` returns
that block with `norm` minus the step of the axis and `end` on the near face. -/
theorem rayCast_solid_hit (K : Constants) (content : ContentIndices) (ext : Externals)
    (g : Chunks) (start dir : Vec3) (maxDist : ℚ) (end0 : EVec3) (norm0 iend0 : IVec3) :
    (∀ (fuel : Nat) (v : voxel) (e : EVec3) (nrm ie : IVec3),
      g.rayCast K content ext fuel start dir maxDist end0 norm0 iend0 =
        some ⟨some v, e, nrm, ie⟩ →
      (content.getBlockDef v.id).solid = true →
      (content.getBlockDef v.id).selectable = true ∧
      g.get K ie.x ie.y ie.z = some v ∧
      (ie = start.cell → nrm = ⟨0, 0, 0⟩ ∧ e = ⟨.fin start.x, .fin start.y, .fin start.z⟩) ∧
      (ie ≠ start.cell → ∃ (n : Nat) (τ : ℚ), 0 < n ∧
        ie = (rayCastSteps start dir end0 norm0 iend0 n).cell ∧
        (rayCastSteps start dir end0 norm0 iend0 n).t = .fin τ ∧ τ ≤ maxDist ∧
        e = ⟨.fin (start.x + τ * dir.x), .fin (start.y + τ * dir.y),
          .fin (start.z + τ * dir.z)⟩ ∧
        (((rayCastSteps start dir end0 norm0 iend0 n).steppedIndex = 0 ∧
            nrm = ⟨-(rayCastConsts start dir).stepx, 0, 0⟩ ∧ dir.x ≠ 0 ∧
            start.x + τ * dir.x = nearFace dir.x ie.x) ∨
          ((rayCastSteps start dir end0 norm0 iend0 n).steppedIndex = 1 ∧
            nrm = ⟨0, -(rayCastConsts start dir).stepy, 0⟩ ∧ dir.y ≠ 0 ∧
            start.y + τ * dir.y = nearFace dir.y ie.y) ∨
          ((rayCastSteps start dir end0 norm0 iend0 n).steppedIndex = 2 ∧
            nrm = ⟨0, 0, -(rayCastConsts start dir).stepz⟩ ∧ dir.z ≠ 0 ∧
            start.z + τ * dir.z = nearFace dir.z ie.z)))) ∧
    (∀ (n : Nat) (v : voxel), dir.x ≠ 0 → dir.y = 0 → dir.z = 0 → 0 < n →
      (∀ j : Nat, j < n →
        ∃ u, g.get K (⌊start.x⌋ + (j : Int) * (rayCastConsts start dir).stepx) ⌊start.y⌋
            ⌊start.z⌋ = some u ∧ (content.getBlockDef u.id).selectable = false) →
      g.get K (⌊start.x⌋ + (n : Int) * (rayCastConsts start dir).stepx) ⌊start.y⌋
        ⌊start.z⌋ = some v →
      (content.getBlockDef v.id).selectable = true →
      (content.getBlockDef v.id).solid = true →
      (nearFace dir.x (⌊start.x⌋ + (n : Int) * (rayCastConsts start dir).stepx) - start.x) /
        dir.x ≤ maxDist →
      ∀ fuel : Nat, n < fuel →
        g.rayCast K content ext fuel start dir maxDist end0 norm0 iend0 =
          some ⟨some v,
            ⟨.fin (nearFace dir.x (⌊start.x⌋ + (n : Int) * (rayCastConsts start dir).stepx)),
              .fin start.y, .fin start.z⟩,
            ⟨-(rayCastConsts start dir).stepx, 0, 0⟩,
            ⟨⌊start.x⌋ + (n : Int) * (rayCastConsts start dir).stepx, ⌊start.y⌋,
              ⌊start.z⌋⟩⟩) ∧
    (∀ (n : Nat) (v : voxel), dir.x = 0 → dir.y ≠ 0 → dir.z = 0 → 0 < n →
      (∀ j : Nat, j < n →
        ∃ u, g.get K ⌊start.x⌋ (⌊start.y⌋ + (j : Int) * (rayCastConsts start dir).stepy)
            ⌊start.z⌋ = some u ∧ (content.getBlockDef u.id).selectable = false) →
      g.get K ⌊start.x⌋ (⌊start.y⌋ + (n : Int) * (rayCastConsts start dir).stepy)
        ⌊start.z⌋ = some v →
      (content.getBlockDef v.id).selectable = true →
      (content.getBlockDef v.id).solid = true →
      (nearFace dir.y (⌊start.y⌋ + (n : Int) * (rayCastConsts start dir).stepy) - start.y) /
        dir.y ≤ maxDist →
      ∀ fuel : Nat, n < fuel →
        g.rayCast K content ext fuel start dir maxDist end0 norm0 iend0 =
          some ⟨some v,
            ⟨.fin start.x,
              .fin (nearFace dir.y (⌊start.y⌋ + (n : Int) * (rayCastConsts start dir).stepy)),
              .fin start.z⟩,
            ⟨0, -(rayCastConsts start dir).stepy, 0⟩,
            ⟨⌊start.x⌋, ⌊start.y⌋ + (n : Int) * (rayCastConsts start dir).stepy,
              ⌊start.z⌋⟩⟩) ∧
    (∀ (n : Nat) (v : voxel), dir.x = 0 → dir.y = 0 → dir.z ≠ 0 → 0 < n →
      (∀ j : Nat, j < n →
        ∃ u, g.get K ⌊start.x⌋ ⌊start.y⌋
            (⌊start.z⌋ + (j : Int) * (rayCastConsts start dir).stepz) = some u ∧
          (content.getBlockDef u.id).selectable = false) →
      g.get K ⌊start.x⌋ ⌊start.y⌋
        (⌊start.z⌋ + (n : Int) * (rayCastConsts start dir).stepz) = some v →
      (content.getBlockDef v.id).selectable = true →
      (content.getBlockDef v.id).solid = true →
      (nearFace dir.z (⌊start.z⌋ + (n : Int) * (rayCastConsts start dir).stepz) - start.z) /
        dir.z ≤ maxDist →
      ∀ fuel : Nat, n < fuel →
        g.rayCast K content ext fuel start dir maxDist end0 norm0 iend0 =
          some ⟨some v,
            ⟨.fin start.x, .fin start.y,
              .fin (nearFace dir.z (⌊start.z⌋ + (n : Int) * (rayCastConsts start dir).stepz))⟩,
            ⟨0, 0, -(rayCastConsts start dir).stepz⟩,
            ⟨⌊start.x⌋, ⌊start.y⌋,
              ⌊start.z⌋ + (n : Int) * (rayCastConsts start dir).stepz⟩⟩) :=
  ⟨fun fuel v e nrm ie hret hsolid =>
      solid_hit_general K content ext g start dir maxDist end0 norm0 iend0 fuel v e nrm ie hret
        hsolid,
    fun n v hx hy hz hn hcells hv hsel hsolid hd fuel hf =>
      axis_x_hit K content ext g start dir maxDist end0 norm0 iend0 n v hx hy hz hn hcells hv
        hsel hsolid hd fuel hf,
    fun n v hx hy hz hn hcells hv hsel hsolid hd fuel hf =>
      axis_y_hit K content ext g start dir maxDist end0 norm0 iend0 n v hx hy hz hn hcells hv
        hsel hsolid hd fuel hf,
    fun n v hx hy hz hn hcells hv hsel hsolid hd fuel hf =>
      axis_z_hit K content ext g start dir maxDist end0 norm0 iend0 n v hx hy hz hn hcells hv
        hsel hsolid hd fuel hf⟩

/-- Instance of C17: the ray from `(1/2, 1/2, 1/2)` upwards meets the stone at
the top of the tower after two steps, on its lower face `y = 2`, with the
normal `(0, -1, 0)`. -/
theorem rayCast_solid_hit_witness :
    towerGrid.rayCast towerK stoneContent sampleExt 3 ⟨1/2, 1/2, 1/2⟩ ⟨0, 1, 0⟩ 5
        ⟨.fin 9, .fin 9, .fin 9⟩ ⟨7, 7, 7⟩ ⟨5, 5, 5⟩ =
      some ⟨some ⟨5, 0⟩, ⟨.fin (1/2), .fin 2, .fin (1/2)⟩, ⟨0, -1, 0⟩, ⟨0, 2, 0⟩⟩ := by
  have h := (rayCast_solid_hit towerK stoneContent sampleExt towerGrid ⟨1/2, 1/2, 1/2⟩
    ⟨0, 1, 0⟩ 5 ⟨.fin 9, .fin 9, .fin 9⟩ ⟨7, 7, 7⟩ ⟨5, 5, 5⟩).2.2.1 2 ⟨5, 0⟩ rfl (by decide!)
    rfl (by decide)
    (fun j hj => match j, hj with
      | 0, _ => ⟨⟨0, 0⟩, by decide!, rfl⟩
      | 1, _ => ⟨⟨0, 0⟩, by decide!, rfl⟩
      | _ + 2, hj => absurd hj (by omega))
    (by decide!) rfl rfl (by decide!) 3 (by decide)
  rw [h]
  decide!

/-- The general part of C17 on the same ray: the returned cell holds the
returned voxel and is not the starting cell. -/
theorem solid_hit_run :
    towerGrid.get towerK 0 2 0 = some ⟨5, 0⟩ ∧
    (⟨0, 2, 0⟩ : IVec3) ≠ Vec3.cell ⟨1/2, 1/2, 1/2⟩ ∧
    (rayCastSteps ⟨1/2, 1/2, 1/2⟩ ⟨0, 1, 0⟩ ⟨.fin 9, .fin 9, .fin 9⟩ ⟨7, 7, 7⟩ ⟨5, 5, 5⟩ 2).t =
      .fin (3/2) ∧
    (rayCastSteps ⟨1/2, 1/2, 1/2⟩ ⟨0, 1, 0⟩ ⟨.fin 9, .fin 9, .fin 9⟩ ⟨7, 7, 7⟩
      ⟨5, 5, 5⟩ 2).steppedIndex = 1 := by
  refine ⟨by decide!, by decide!, by decide!, by decide!⟩

/-! ## The occupied range after a write of a block -/

theorem levelOf_voxIndex (K : Constants) (lx y lz : Int)
    (hx0 : 0 ≤ lx) (hx1 : lx < K.CHUNK_W) (hy0 : 0 ≤ y)
    (hz0 : 0 ≤ lz) (hz1 : lz < K.CHUNK_D) :
    levelOf K (voxIndex K lx y lz) = y := by
  unfold levelOf voxIndex
  have hW : 0 < K.CHUNK_W := by omega
  have hD : 0 < K.CHUNK_D := by omega
  have h0 : 0 ≤ lz * K.CHUNK_W + lx := by nlinarith
  have h1 : lz * K.CHUNK_W + lx < K.CHUNK_D * K.CHUNK_W := by nlinarith
  have h2 : 0 ≤ (y * K.CHUNK_D + lz) * K.CHUNK_W + lx := by nlinarith
  rw [Int.toNat_of_nonneg h2]
  have e : (y * K.CHUNK_D + lz) * K.CHUNK_W + lx =
      (lz * K.CHUNK_W + lx) + (K.CHUNK_D * K.CHUNK_W) * y := by ring
  rw [e, Int.add_mul_ediv_left _ _ (by positivity), Int.ediv_eq_zero_of_lt h0 h1]
  ring

theorem getD_set_voxel (l : List voxel) (i j : Nat) (v : voxel) (h : i ≠ j) :
    (l.set i v).getD j ⟨0, 0⟩ = l.getD j ⟨0, 0⟩ := by
  simp only [List.getD_eq_getElem?_getD, List.getElem?_set_ne h]

theorem getD_set_self (l : List voxel) (i : Nat) (v : voxel) (h : i < l.length) :
    (l.set i v).getD i ⟨0, 0⟩ = v := by
  simp [List.getD_eq_getElem?_getD, List.getElem?_set_self, h]

theorem stored_voxels (K : Constants) (content : ContentIndices) (c : Chunk)
    (lx y lz : Int) (id states : Nat) :
    (c.stored K content lx y lz id states).voxels =
      c.voxels.set (voxIndex K lx y lz) ⟨id, states⟩ := by
  unfold Chunk.stored Chunk.setModified Chunk.setUnsaved Chunk.removeBlockInventory
  simp only []
  split_ifs <;> rfl

theorem write_block (K : Constants) (content : ContentIndices) (c : Chunk)
    (lx y lz : Int) (id states : Nat) (hid : id ≠ 0) :
    c.write K content lx y lz id states =
      if y < c.bottom then { c.stored K content lx y lz id states with bottom := y }
      else if c.top < y + 1 then { c.stored K content lx y lz id states with top := y + 1 }
      else c.stored K content lx y lz id states := by
  obtain ⟨b1, b2, _⟩ := stored_bounds K content c lx y lz id states
  rw [write_eq_stored]
  unfold Chunk.setHeights
  by_cases h1 : y < c.bottom
  · rw [if_pos h1, if_pos (by rw [b1]; exact h1)]
  · rw [if_neg h1, if_neg (by rw [b1]; exact h1)]
    by_cases h2 : c.top < y + 1
    · rw [if_pos h2, if_pos (by rw [b2]; exact h2)]
    · rw [if_neg h2, if_neg (by rw [b2]; exact h2), if_neg hid]

theorem write_block_range (K : Constants) (content : ContentIndices) (c : Chunk)
    (lx y lz : Int) (id states : Nat) (hid : id ≠ 0) (hbt : c.bottom ≤ c.top) :
    (c.write K content lx y lz id states).bottom ≤ y ∧
    y < (c.write K content lx y lz id states).top ∧
    (c.write K content lx y lz id states).bottom ≤ c.bottom ∧
    c.top ≤ (c.write K content lx y lz id states).top := by
  obtain ⟨b1, b2, _⟩ := stored_bounds K content c lx y lz id states
  rw [write_block K content c lx y lz id states hid]
  split_ifs with h1 h2
  · simp only [b2]
    omega
  · simp only [b1]
    omega
  · rw [b1, b2]
    omega

theorem write_block_covers (K : Constants) (content : ContentIndices) (c : Chunk)
    (lx y lz : Int) (id states : Nat) (hid : id ≠ 0) (hbt : c.bottom ≤ c.top)
    (hx0 : 0 ≤ lx) (hx1 : lx < K.CHUNK_W) (hy0 : 0 ≤ y)
    (hz0 : 0 ≤ lz) (hz1 : lz < K.CHUNK_D) (hcov : c.RangeCovers K) :
    (c.write K content lx y lz id states).RangeCovers K := by
  obtain ⟨r1, r2, r3, r4⟩ := write_block_range K content c lx y lz id states hid hbt
  intro i hi hne
  rw [write_voxels] at hi hne
  rw [List.length_set] at hi
  by_cases hidx : voxIndex K lx y lz = i
  · subst hidx
    rw [levelOf_voxIndex K lx y lz hx0 hx1 hy0 hz0 hz1]
    exact ⟨r1, r2⟩
  · rw [getD_set_voxel _ _ _ _ hidx] at hne
    obtain ⟨c1, c2⟩ := hcov i hi hne
    exact ⟨le_trans r3 c1, lt_of_lt_of_le c2 r4⟩

/-- C21: an accepted `set` of a block (`id != 0`) on a column with
`bottom <= top` leaves the column with `bottom <= y < top`, with a `bottom`
not above and a `top` not below the old one, and without a height rescan: the
column is the written column with `bottom` lowered to `y`, or `top` raised to
`y + 1`, or neither.  If every non-air voxel lay in `[bottom, top)` before,
every non-air voxel lies in `[bottom, top)` after. -/
theorem set_block_range (K : Constants) (content : ContentIndices) (g : Chunks)
    (x y z : Int) (id states : Nat) (chunk : Chunk)
    (hW : 0 < K.CHUNK_W) (hD : 0 < K.CHUNK_D)
    (hy0 : 0 ≤ y) (hy1 : y < K.CHUNK_H)
    (hc : g.getChunk (x / K.CHUNK_W) (z / K.CHUNK_D) = some chunk)
    (hid : id ≠ 0) (hbt : chunk.bottom ≤ chunk.top) :
    ∃ c', (g.set K content x y z id states).getChunk (x / K.CHUNK_W) (z / K.CHUNK_D) = some c' ∧
      c'.bottom ≤ y ∧ y < c'.top ∧ c'.bottom ≤ chunk.bottom ∧ chunk.top ≤ c'.top ∧
      c' = (if y < chunk.bottom then
          { chunk.stored K content (x % K.CHUNK_W) y (z % K.CHUNK_D) id states with bottom := y }
        else if chunk.top < y + 1 then
          { chunk.stored K content (x % K.CHUNK_W) y (z % K.CHUNK_D) id states with
            top := y + 1 }
        else chunk.stored K content (x % K.CHUNK_W) y (z % K.CHUNK_D) id states) ∧
      (chunk.RangeCovers K → c'.RangeCovers K) := by
  obtain ⟨r1, r2, r3, r4⟩ :=
    write_block_range K content chunk (x % K.CHUNK_W) y (z % K.CHUNK_D) id states hid hbt
  refine ⟨chunk.write K content (x % K.CHUNK_W) y (z % K.CHUNK_D) id states, ?_, r1, r2, r3, r4,
    write_block K content chunk _ y _ id states hid, ?_⟩
  · rw [set_getChunk K content g x y z id states chunk hW hD hy0 hy1 hc, if_pos ⟨rfl, rfl⟩]
  · exact write_block_covers K content chunk _ y _ id states hid hbt
      (Int.emod_nonneg _ hW.ne') (Int.emod_lt_of_pos _ hW) hy0
      (Int.emod_nonneg _ hD.ne') (Int.emod_lt_of_pos _ hD)

/-- Instance of C21: a block written at the bottom of the tower column, whose
range `[2, 3)` becomes `[0, 3)`. -/
theorem set_block_range_witness :
    ∃ c', (towerGrid.set towerK sampleContent 0 0 0 7 0).getChunk (0 / towerK.CHUNK_W)
        (0 / towerK.CHUNK_D) = some c' ∧
      c'.bottom ≤ 0 ∧ 0 < c'.top ∧ c'.bottom ≤ towerColumn.bottom ∧ towerColumn.top ≤ c'.top ∧
      c' = (if 0 < towerColumn.bottom then
          { towerColumn.stored towerK sampleContent (0 % towerK.CHUNK_W) 0 (0 % towerK.CHUNK_D)
              7 0 with bottom := 0 }
        else if towerColumn.top < 0 + 1 then
          { towerColumn.stored towerK sampleContent (0 % towerK.CHUNK_W) 0 (0 % towerK.CHUNK_D)
              7 0 with top := 0 + 1 }
        else towerColumn.stored towerK sampleContent (0 % towerK.CHUNK_W) 0
          (0 % towerK.CHUNK_D) 7 0) ∧
      (towerColumn.RangeCovers towerK → c'.RangeCovers towerK) :=
  set_block_range towerK sampleContent towerGrid 0 0 0 7 0 towerColumn (by decide) (by decide)
    (by decide) (by decide) (by decide) (by decide) (by decide)

/-! ## The voxels a write leaves alone -/

theorem get_via_getChunk (K : Constants) (g : Chunks) (x y z : Int)
    (hW : 0 < K.CHUNK_W) (hH : 0 < K.CHUNK_H) (hD : 0 < K.CHUNK_D) :
    g.get K x y z =
      if y < 0 ∨ y ≥ K.CHUNK_H then none
      else (g.getChunk (x / K.CHUNK_W) (z / K.CHUNK_D)).map
        (fun c => c.voxels.getD (voxIndex K (x % K.CHUNK_W) y (z % K.CHUNK_D)) ⟨0, 0⟩) := by
  rw [get_eq K g x y z hW hH hD, getChunk_eq]
  split_ifs with h1 h2
  · rfl
  · rfl
  · cases g.at (g.slotOf (x / K.CHUNK_W) (z / K.CHUNK_D)) <;> rfl

theorem lin_inj (W a a' r r' : Int) (hr0 : 0 ≤ r) (hr1 : r < W) (hr0' : 0 ≤ r') (hr1' : r' < W)
    (h : a * W + r = a' * W + r') : a = a' ∧ r = r' := by
  have hW : 0 < W := by omega
  rcases lt_trichotomy a a' with h1 | h1 | h1
  · exfalso
    have : (a + 1) * W ≤ a' * W := mul_le_mul_of_nonneg_right (by omega) hW.le
    nlinarith
  · subst h1
    exact ⟨rfl, by omega⟩
  · exfalso
    have : (a' + 1) * W ≤ a * W := mul_le_mul_of_nonneg_right (by omega) hW.le
    nlinarith

theorem voxIndex_inj (K : Constants) (lx ly lz lx' ly' lz' : Int)
    (hx0 : 0 ≤ lx) (hx1 : lx < K.CHUNK_W) (hy0 : 0 ≤ ly) (hz0 : 0 ≤ lz) (hz1 : lz < K.CHUNK_D)
    (hx0' : 0 ≤ lx') (hx1' : lx' < K.CHUNK_W) (hy0' : 0 ≤ ly') (hz0' : 0 ≤ lz')
    (hz1' : lz' < K.CHUNK_D)
    (h : voxIndex K lx ly lz = voxIndex K lx' ly' lz') : lx = lx' ∧ ly = ly' ∧ lz = lz' := by
  unfold voxIndex at h
  have n1 : 0 ≤ ly * K.CHUNK_D + lz := by nlinarith
  have n2 : 0 ≤ ly' * K.CHUNK_D + lz' := by nlinarith
  have m1 : 0 ≤ (ly * K.CHUNK_D + lz) * K.CHUNK_W + lx := by nlinarith
  have m2 : 0 ≤ (ly' * K.CHUNK_D + lz') * K.CHUNK_W + lx' := by nlinarith
  have e : (ly * K.CHUNK_D + lz) * K.CHUNK_W + lx = (ly' * K.CHUNK_D + lz') * K.CHUNK_W + lx' := by
    omega
  obtain ⟨e1, e2⟩ := lin_inj _ _ _ _ _ hx0 hx1 hx0' hx1' e
  obtain ⟨e3, e4⟩ := lin_inj _ _ _ _ _ hz0 hz1 hz0' hz1' e1
  exact ⟨e2, e3, e4⟩

theorem ediv_emod_eq (a b W : Int) (h1 : a / W = b / W) (h2 : a % W = b % W) : a = b := by
  rw [← Int.ediv_add_emod a W, ← Int.ediv_add_emod b W, h1, h2]

/-- C22: a `set` at `(x, y, z)` leaves `get` at every other world coordinate as it
was: the voxel returned has the same id and states, and it is absent after the
write exactly when it was absent before. -/
theorem set_frame (K : Constants) (content : ContentIndices) (g : Chunks)
    (x y z : Int) (id states : Nat) (x' y' z' : Int)
    (hW : 0 < K.CHUNK_W) (hH : 0 < K.CHUNK_H) (hD : 0 < K.CHUNK_D)
    (hne : ¬ (x' = x ∧ y' = y ∧ z' = z)) :
    (g.set K content x y z id states).get K x' y' z' = g.get K x' y' z' := by
  by_cases hacc : (y < 0 ∨ y ≥ K.CHUNK_H) ∨ g.outsideWindow (x / K.CHUNK_W) (z / K.CHUNK_D) ∨
      g.at (g.slotOf (x / K.CHUNK_W) (z / K.CHUNK_D)) = none
  · rw [set_refused K content g x y z id states hW hD hacc]
  · have hy : ¬ (y < 0 ∨ y ≥ K.CHUNK_H) := fun h => hacc (Or.inl h)
    have ho : ¬ g.outsideWindow (x / K.CHUNK_W) (z / K.CHUNK_D) := fun h => hacc (Or.inr (Or.inl h))
    obtain ⟨chunk, hat⟩ : ∃ chunk, g.at (g.slotOf (x / K.CHUNK_W) (z / K.CHUNK_D)) = some chunk :=
      Option.ne_none_iff_exists'.mp fun h => hacc (Or.inr (Or.inr h))
    have hc : g.getChunk (x / K.CHUNK_W) (z / K.CHUNK_D) = some chunk := by
      rw [getChunk_eq, if_neg ho, hat]
    rw [get_via_getChunk K _ x' y' z' hW hH hD, get_via_getChunk K g x' y' z' hW hH hD]
    by_cases hy' : y' < 0 ∨ y' ≥ K.CHUNK_H
    · rw [if_pos hy', if_pos hy']
    · rw [if_neg hy', if_neg hy',
        set_getChunk K content g x y z id states chunk hW hD (by omega) (by omega) hc]
      split_ifs with h1 h2
      · obtain ⟨e1, e2⟩ := h1
        rw [e1, e2, hc]
        simp only [Option.map_some']
        rw [write_voxels, getD_set_voxel]
        intro hidx
        obtain ⟨a1, a2, a3⟩ := voxIndex_inj K _ _ _ _ _ _
          (Int.emod_nonneg _ hW.ne') (Int.emod_lt_of_pos _ hW) (by omega)
          (Int.emod_nonneg _ hD.ne') (Int.emod_lt_of_pos _ hD)
          (Int.emod_nonneg _ hW.ne') (Int.emod_lt_of_pos _ hW) (by omega)
          (Int.emod_nonneg _ hD.ne') (Int.emod_lt_of_pos _ hD) hidx
        exact hne ⟨ediv_emod_eq _ _ _ e1 a1.symm, a2.symm, ediv_emod_eq _ _ _ e2 a3.symm⟩
      · cases g.getChunk (x' / K.CHUNK_W) (z' / K.CHUNK_D) <;> rfl
      · rfl

/-- Instance of C22: a write at `(0, 0, 0)` of the sample grid and the voxel at
`(1, 0, 0)`. -/
theorem set_frame_witness :
    (sampleGrid.set sampleK sampleContent 0 0 0 3 1).get sampleK 1 0 0 =
      sampleGrid.get sampleK 1 0 0 :=
  set_frame sampleK sampleContent sampleGrid 0 0 0 3 1 1 0 0 (by decide) (by decide) (by decide)
    (by decide)

/-! ## Counting occupied slots -/

theorem count_bij {α : Type} [DecidableEq α] (L1 L2 : List α) (f1 f2 : α → Bool) (σ : α → α)
    (n1 : L1.Nodup) (n2 : L2.Nodup)
    (hinj : ∀ p, p ∈ L1 → f1 p = true → ∀ q, q ∈ L1 → f1 q = true → σ p = σ q → p = q)
    (hmem : ∀ q, (q ∈ L2 ∧ f2 q = true) ↔ ∃ p, p ∈ L1 ∧ f1 p = true ∧ σ p = q) :
    L1.countP f1 = L2.countP f2 := by
  rw [List.countP_eq_length_filter, List.countP_eq_length_filter, ← List.length_map _ σ]
  apply List.Perm.length_eq
  rw [List.perm_ext_iff_of_nodup]
  · intro q
    rw [List.mem_map, List.mem_filter]
    constructor
    · rintro ⟨p, hp, rfl⟩
      rw [List.mem_filter] at hp
      exact (hmem _).mpr ⟨p, hp.1, hp.2, rfl⟩
    · intro h
      obtain ⟨p, h1, h2, h3⟩ := (hmem q).mp h
      exact ⟨p, List.mem_filter.mpr ⟨h1, h2⟩, h3⟩
  · refine List.Nodup.map_on ?_ (n1.filter _)
    intro p hp q hq h
    rw [List.mem_filter] at hp hq
    exact hinj p hp.1 hp.2 q hq.1 hq.2 h
  · exact n2.filter _

theorem count_split {α : Type} (L : List α) (f q : α → Bool) :
    L.countP f = L.countP (fun p => f p && q p) + L.countP (fun p => f p && !q p) := by
  induction L with
  | nil => rfl
  | cons a L ih =>
    simp only [List.countP_cons, ih]
    cases f a <;> cases q a <;> simp <;> omega

theorem length_filterMap_count {α β : Type} (L : List α) (h : α → Option β) :
    (L.filterMap h).length = L.countP (fun p => (h p).isSome) := by
  induction L with
  | nil => rfl
  | cons a L ih =>
    rw [List.filterMap_cons, List.countP_cons]
    cases h a <;> simp [ih]

theorem count_update {α : Type} [DecidableEq α] (L : List α) (f f' : α → Bool) (p0 : α)
    (n : L.Nodup) (hp : p0 ∈ L) (hoff : ∀ p, p ∈ L → p ≠ p0 → f' p = f p) (hon : f' p0 = true) :
    L.countP f' = L.countP f + (if f p0 = true then 0 else 1) := by
  induction L with
  | nil => cases hp
  | cons a L ih =>
    rw [List.nodup_cons] at n
    rw [List.countP_cons, List.countP_cons]
    by_cases ha : a = p0
    · subst ha
      have hrest : L.countP f' = L.countP f :=
        List.countP_congr fun p hp' => by
          rw [hoff p (List.mem_cons_of_mem _ hp') (fun h => n.1 (h ▸ hp'))]
      rw [hrest, hon]
      cases f a <;> simp
    · have hp' : p0 ∈ L := by
        rcases List.mem_cons.mp hp with h | h
        · exact absurd h.symm ha
        · exact h
      rw [ih n.2 hp' (fun p hp'' hne => hoff p (List.mem_cons_of_mem _ hp'') hne),
        hoff a (List.mem_cons_self _ _) ha]
      omega

theorem toNat_slot (a b : Int) (w : Nat) (ha : 0 ≤ a) (hb : 0 ≤ b) :
    (a * w + b).toNat = a.toNat * w + b.toNat := by
  lift a to Nat using ha
  lift b to Nat using hb
  norm_cast

theorem occupied_eq (g : Chunks) :
    g.occupied = (slotPairs g.w g.d).countP (fun p => (g.at (p.1 * g.w + p.2)).isSome) := rfl

theorem evicted_length (g : Chunks) (dx dz : Int) :
    (g.evicted dx dz).length = (slotPairs g.w g.d).countP
      (fun p => (g.at (p.1 * g.w + p.2)).isSome && decide (g.leaves dx dz p)) := by
  unfold Chunks.evicted
  rw [length_filterMap_count]
  apply List.countP_congr
  intro p _
  unfold Chunks.evictedAt
  cases g.at (p.1 * g.w + p.2) with
  | none => simp
  | some c => by_cases h : g.leaves dx dz p <;> simp [h]

theorem occupied_translate (g : Chunks) (dx dz : Int) (hs : g.Sized) :
    (g.translate dx dz).occupied + (g.evicted dx dz).length = g.occupied := by
  obtain ⟨_, _, a3, a4, _⟩ := translate_fields g dx dz
  rw [evicted_length, occupied_eq, occupied_eq, a3, a4,
    count_split (slotPairs g.w g.d) (fun p => (g.at (p.1 * g.w + p.2)).isSome)
      (fun p => decide (g.leaves dx dz p)), Nat.add_comm]
  congr 1
  have hcongr : (slotPairs g.w g.d).countP
        (fun p => ((g.translate dx dz).at (p.1 * g.w + p.2)).isSome) =
      (slotPairs g.w g.d).countP (fun p =>
        decide (0 ≤ (p.2 : Int) + dx ∧ (p.2 : Int) + dx < g.w ∧ 0 ≤ (p.1 : Int) + dz ∧
          (p.1 : Int) + dz < g.d) &&
        (g.at (((p.1 : Int) + dz).toNat * g.w + ((p.2 : Int) + dx).toNat)).isSome) := by
    apply List.countP_congr
    intro p hp
    rw [mem_slotPairs] at hp
    rw [translate_at g dx dz hs p.2 p.1 hp.2 hp.1]
    by_cases h : 0 ≤ (p.2 : Int) + dx ∧ (p.2 : Int) + dx < g.w ∧ 0 ≤ (p.1 : Int) + dz ∧
        (p.1 : Int) + dz < g.d
    · rw [if_pos h, toNat_slot _ _ _ h.2.2.1 h.1]
      simp [h]
    · rw [if_neg h]
      simp [h]
  rw [hcongr]
  refine count_bij _ _ _ _ (fun p => (((p.1 : Int) + dz).toNat, ((p.2 : Int) + dx).toNat))
    (nodup_slotPairs _ _) (nodup_slotPairs _ _) ?_ ?_
  · intro p _ hp q _ hq h
    simp only [Bool.and_eq_true, decide_eq_true_eq] at hp hq
    simp only [Prod.mk.injEq] at h
    obtain ⟨h1, h2⟩ := h
    apply Prod.ext <;> omega
  · intro q
    simp only [mem_slotPairs, Bool.and_eq_true, decide_eq_true_eq, Bool.not_eq_true',
      decide_eq_false_iff_not, Chunks.leaves]
    constructor
    · rintro ⟨⟨q1, q2⟩, hsome, hnl⟩
      refine ⟨(((q.1 : Int) - dz).toNat, ((q.2 : Int) - dx).toNat), ⟨by omega, by omega⟩,
        ⟨by omega, ?_⟩, ?_⟩
      · have e1 : ((((q.1 : Int) - dz).toNat : Nat) : Int) + dz = q.1 := by omega
        have e2 : ((((q.2 : Int) - dx).toNat : Nat) : Int) + dx = q.2 := by omega
        simp only [e1, e2, Int.toNat_ofNat]
        exact hsome
      · apply Prod.ext <;> simp only [] <;> omega
    · rintro ⟨p, ⟨p1, p2⟩, ⟨hin, hsome⟩, rfl⟩
      refine ⟨⟨by omega, by omega⟩, hsome, by omega⟩

/-! ## The live count and the occupied slots, operation by operation -/

theorem touchNeighbour_count (g : Chunks) (b : Bool) (x z : Int) :
    (g.touchNeighbour b x z).chunksCount = g.chunksCount := by
  unfold Chunks.touchNeighbour
  split_ifs
  · split <;> rfl
  · rfl

theorem touchNeighbour_isSome (g : Chunks) (b : Bool) (x z : Int) (i : Nat) :
    ((g.touchNeighbour b x z).at i).isSome = (g.at i).isSome := by
  have h := congrArg Option.isSome (touchNeighbour_voxels g b x z i)
  simpa using h

theorem set_count (K : Constants) (content : ContentIndices) (g : Chunks)
    (x y z : Int) (id states : Nat) :
    (g.set K content x y z id states).chunksCount = g.chunksCount := by
  simp only [Chunks.set]
  split_ifs
  · rfl
  · rfl
  · split
    · rfl
    · simp only [touchNeighbour_count]

theorem set_isSome (K : Constants) (content : ContentIndices) (g : Chunks)
    (x y z : Int) (id states : Nat) (i : Nat) :
    ((g.set K content x y z id states).at i).isSome = (g.at i).isSome := by
  simp only [Chunks.set]
  split_ifs
  · rfl
  · rfl
  · split
    · rfl
    · rename_i chunk hc
      simp only [touchNeighbour_isSome]
      simp only [Chunks.at, getD_set_slot]
      split_ifs with h
      · obtain ⟨h1, _⟩ := h
        rw [← h1]
        simp only [Chunks.at] at hc
        rw [hc]
        rfl
      · rfl

theorem set_size (K : Constants) (content : ContentIndices) (g : Chunks)
    (x y z : Int) (id states : Nat) :
    (g.set K content x y z id states).w = g.w ∧ (g.set K content x y z id states).d = g.d := by
  obtain ⟨h1, h2, _⟩ := keeps_set K content g x y z id states
  exact ⟨h1, h2⟩

theorem occupied_set (K : Constants) (content : ContentIndices) (g : Chunks)
    (x y z : Int) (id states : Nat) :
    (g.set K content x y z id states).occupied = g.occupied := by
  obtain ⟨h1, h2⟩ := set_size K content g x y z id states
  rw [occupied_eq, occupied_eq, h1, h2]
  exact List.countP_congr fun p _ => by rw [set_isSome]

theorem excess_translate (g : Chunks) (dx dz : Int) (hs : g.Sized) :
    (g.translate dx dz).chunksCount - ((g.translate dx dz).occupied : Int) =
      g.chunksCount - (g.occupied : Int) := by
  obtain ⟨_, _, _, _, _, _, _, _, _, _, hc⟩ := translate_fields g dx dz
  have h := occupied_translate g dx dz hs
  rw [hc]
  omega

theorem saveSlot_chunks (g g' : Chunks) (i : Nat) (h : g.saveSlot i = some g') :
    g'.chunks = g.chunks.set i none := by
  cases hc : g.at i with
  | none =>
    simp only [Chunks.saveSlot, hc, Option.some.injEq] at h
    rw [← h]
  | some c =>
    cases hw : g.worldFiles with
    | none =>
      simp only [Chunks.saveSlot, hc, hw] at h
      split_ifs at h <;> (rw [Option.some.injEq] at h; rw [← h])
    | some wf =>
      simp only [Chunks.saveSlot, hc, hw] at h
      split_ifs at h <;> (rw [Option.some.injEq] at h; rw [← h])

theorem saveLoop_chunks (L : List Nat) (g g' : Chunks)
    (h : L.foldlM (fun (g : Chunks) i => g.saveSlot i) g = some g') :
    g'.chunks = L.foldl (fun l i => l.set i none) g.chunks := by
  induction L generalizing g with
  | nil =>
    simp only [List.foldlM_nil] at h
    have : g = g' := Option.some.inj h
    rw [← this]
    rfl
  | cons i L ih =>
    rw [List.foldlM_cons] at h
    cases h1 : g.saveSlot i with
    | none => rw [h1] at h; exact absurd h (by simp)
    | some g1 =>
      rw [h1] at h
      rw [ih g1 h, saveSlot_chunks g g1 i h1]
      rfl

theorem saveAndClear_empty (g g' : Chunks) (hs : g.Sized) (h : g.saveAndClear = some g') :
    g'.chunksCount = 0 ∧ g'.occupied = 0 := by
  obtain ⟨k1, k2, _⟩ := keeps_saveAndClear g g' h
  unfold Chunks.saveAndClear at h
  cases h1 : (List.range g.volume).foldlM (fun (g : Chunks) i => g.saveSlot i) g with
  | none => rw [h1] at h; exact absurd h (by simp)
  | some g1 =>
    rw [h1, Option.map_some', Option.some.injEq] at h
    have hch := saveLoop_chunks _ g g1 h1
    have hat : ∀ i, i < g.w * g.d → g'.at i = none := by
      intro i hi
      rw [← h]
      show g1.chunks.getD i none = none
      rw [hch, clear_getD, if_pos (by rw [hs.2.2]; exact hi)]
    refine ⟨by rw [← h], ?_⟩
    rw [occupied_eq, k1, k2, List.countP_eq_zero]
    intro p hp
    rw [mem_slotPairs] at hp
    rw [hat _ (slot_lt g.w g.d p.2 p.1 hp.2 hp.1)]
    simp

theorem excess_putChunk (g : Chunks) (chunk : Chunk) (hs : g.Sized) :
    (g.putChunk chunk).2.chunksCount - ((g.putChunk chunk).2.occupied : Int) =
      g.chunksCount - (g.occupied : Int) +
        (if (g.putChunk chunk).1 = true ∧ (g.getChunk chunk.x chunk.z).isSome = true then 1
          else 0) := by
  obtain ⟨hiff, hacc, hrej⟩ := putChunk_spec g chunk hs.1
  by_cases ht : (g.putChunk chunk).1 = true
  · obtain ⟨hget, hoth, hcnt, hw, hd, hox, hoz⟩ := hacc ht
    have hwin := hiff.mp ht
    have ho : ¬ g.outsideWindow chunk.x chunk.z := by
      simp only [Chunks.outsideWindow]
      omega
    have ho' : ¬ (g.putChunk chunk).2.outsideWindow chunk.x chunk.z := by
      simp only [Chunks.outsideWindow, hw, hd, hox, hoz]
      omega
    obtain ⟨e, b1, b2, e1, e2⟩ := slotOf_nat g _ _ ho
    have hslot' : (g.putChunk chunk).2.slotOf chunk.x chunk.z = g.slotOf chunk.x chunk.z := by
      simp only [Chunks.slotOf, hw, hox, hoz]
    rw [getChunk_eq, if_neg ho', hslot', e] at hget
    have hocc : (g.putChunk chunk).2.occupied =
        g.occupied + (if (g.at (g.slotOf chunk.x chunk.z)).isSome = true then 0 else 1) := by
      rw [occupied_eq, occupied_eq, hw, hd, e]
      refine count_update _ _ _ ((chunk.z - g.oz).toNat, (chunk.x - g.ox).toNat)
        (nodup_slotPairs _ _) ((mem_slotPairs _ _ _).mpr ⟨b2, b1⟩) ?_ ?_
      · intro p hp hne
        rw [mem_slotPairs] at hp
        rw [hoth]
        rw [e]
        intro hidx
        exact hne (copy_index_inj g.w p _ hp.2 b1 hidx)
      · simp only []
        rw [hget]
        rfl
    rw [hcnt, hocc, getChunk_eq, if_neg ho]
    by_cases hsome : (g.at (g.slotOf chunk.x chunk.z)).isSome = true
    · rw [if_pos hsome, if_pos ⟨ht, hsome⟩]
      push_cast
      ring
    · rw [if_neg hsome, if_neg (fun h => hsome h.2)]
      push_cast
      ring
  · rw [hrej (by simpa using ht), if_neg (fun h => ht h.1)]
    ring

/-! ## The live count through `resize` -/

theorem translate_tail_x (g : Chunks) (dx dz : Int) (hs : g.Sized) (x z : Nat)
    (hx : x < g.w) (hz : z < g.d) (h : (g.w : Int) ≤ (x : Int) + dx) :
    (g.translate dx dz).at (z * g.w + x) = none := by
  rw [translate_at g dx dz hs x z hx hz, if_neg (by omega)]

theorem translate_tail_z (g : Chunks) (dx dz : Int) (hs : g.Sized) (x z : Nat)
    (hx : x < g.w) (hz : z < g.d) (h : (g.d : Int) ≤ (z : Int) + dz) :
    (g.translate dx dz).at (z * g.w + x) = none := by
  rw [translate_at g dx dz hs x z hx hz, if_neg (by omega)]

theorem translate_size (g : Chunks) (dx dz : Int) :
    (g.translate dx dz).w = g.w ∧ (g.translate dx dz).d = g.d := by
  obtain ⟨_, _, a3, a4, _⟩ := translate_fields g dx dz
  exact ⟨a3, a4⟩

theorem translate_keeps_column (g : Chunks) (dz : Int) (hs : g.Sized) (x : Nat) (hx : x < g.w)
    (h : ∀ z, z < g.d → g.at (z * g.w + x) = none) :
    ∀ z, z < (g.translate 0 dz).d →
      (g.translate 0 dz).at (z * (g.translate 0 dz).w + x) = none := by
  intro z hz
  rw [(translate_size g 0 dz).2] at hz
  rw [(translate_size g 0 dz).1, translate_at g 0 dz hs x z hx hz]
  split_ifs with hc
  · have e := toNat_slot ((z : Int) + dz) ((x : Int) + 0) g.w hc.2.2.1 hc.1
    rw [e]
    have e2 : ((x : Int) + 0).toNat = x := by omega
    rw [e2]
    exact h _ (by omega)
  · rfl

theorem shrinkW_count (g : Chunks) (newW : Nat) (hs : g.Sized) :
    (g.shrinkW newW).Sized ∧ (g.shrinkW newW).w = g.w ∧ (g.shrinkW newW).d = g.d ∧
    (g.shrinkW newW).chunksCount - ((g.shrinkW newW).occupied : Int) =
      g.chunksCount - (g.occupied : Int) ∧
    (∀ x z, x < g.w → z < g.d → newW ≤ x → (g.shrinkW newW).at (z * g.w + x) = none) := by
  unfold Chunks.shrinkW
  by_cases h : newW < g.w
  · rw [if_pos h]
    simp only []
    have s1 := translate_sized g (Int.tdiv ((g.w : Int) - (newW : Int)) 2) 0 hs
    have s2 := translate_sized _ (-((g.w : Int) - (newW : Int))) 0 s1
    have s3 := translate_sized _ ((g.w : Int) - (newW : Int)) 0 s2
    obtain ⟨w1, d1⟩ := translate_size g (Int.tdiv ((g.w : Int) - (newW : Int)) 2) 0
    obtain ⟨w2, d2⟩ := translate_size
      (g.translate (Int.tdiv ((g.w : Int) - (newW : Int)) 2) 0) (-((g.w : Int) - (newW : Int))) 0
    obtain ⟨w3, d3⟩ := translate_size
      ((g.translate (Int.tdiv ((g.w : Int) - (newW : Int)) 2) 0).translate
        (-((g.w : Int) - (newW : Int))) 0) ((g.w : Int) - (newW : Int)) 0
    refine ⟨s3, by rw [w3, w2, w1], by rw [d3, d2, d1], ?_, ?_⟩
    · rw [excess_translate _ _ _ s2, excess_translate _ _ _ s1, excess_translate _ _ _ hs]
    · intro x z hx hz hn
      have := translate_tail_x
        ((g.translate (Int.tdiv ((g.w : Int) - (newW : Int)) 2) 0).translate
          (-((g.w : Int) - (newW : Int))) 0) ((g.w : Int) - (newW : Int)) 0 s2 x z
        (by rw [w2, w1]; exact hx) (by rw [d2, d1]; exact hz) (by rw [w2, w1]; omega)
      rw [w2, w1] at this
      exact this
  · rw [if_neg h]
    exact ⟨hs, rfl, rfl, rfl, fun x z hx hz hn => absurd hx (by omega)⟩

theorem shrinkD_count (g : Chunks) (newD : Nat) (hs : g.Sized) :
    (g.shrinkD newD).Sized ∧ (g.shrinkD newD).w = g.w ∧ (g.shrinkD newD).d = g.d ∧
    (g.shrinkD newD).chunksCount - ((g.shrinkD newD).occupied : Int) =
      g.chunksCount - (g.occupied : Int) ∧
    (∀ x z, x < g.w → z < g.d → newD ≤ z → (g.shrinkD newD).at (z * g.w + x) = none) ∧
    (∀ x, x < g.w → (∀ z, z < g.d → g.at (z * g.w + x) = none) →
      ∀ z, z < g.d → (g.shrinkD newD).at (z * g.w + x) = none) := by
  unfold Chunks.shrinkD
  by_cases h : newD < g.d
  · rw [if_pos h]
    simp only []
    have s1 := translate_sized g 0 (Int.tdiv ((g.d : Int) - (newD : Int)) 2) hs
    have s2 := translate_sized _ 0 (-((g.d : Int) - (newD : Int))) s1
    have s3 := translate_sized _ 0 ((g.d : Int) - (newD : Int)) s2
    obtain ⟨w1, d1⟩ := translate_size g 0 (Int.tdiv ((g.d : Int) - (newD : Int)) 2)
    obtain ⟨w2, d2⟩ := translate_size
      (g.translate 0 (Int.tdiv ((g.d : Int) - (newD : Int)) 2)) 0 (-((g.d : Int) - (newD : Int)))
    obtain ⟨w3, d3⟩ := translate_size
      ((g.translate 0 (Int.tdiv ((g.d : Int) - (newD : Int)) 2)).translate 0
        (-((g.d : Int) - (newD : Int)))) 0 ((g.d : Int) - (newD : Int))
    refine ⟨s3, by rw [w3, w2, w1], by rw [d3, d2, d1], ?_, ?_, ?_⟩
    · rw [excess_translate _ _ _ s2, excess_translate _ _ _ s1, excess_translate _ _ _ hs]
    · intro x z hx hz hn
      have := translate_tail_z
        ((g.translate 0 (Int.tdiv ((g.d : Int) - (newD : Int)) 2)).translate 0
          (-((g.d : Int) - (newD : Int)))) 0 ((g.d : Int) - (newD : Int)) s2 x z
        (by rw [w2, w1]; exact hx) (by rw [d2, d1]; exact hz) (by rw [d2, d1]; omega)
      rw [w2, w1] at this
      exact this
    · intro x hx hcol z hz
      have c1 := translate_keeps_column g (Int.tdiv ((g.d : Int) - (newD : Int)) 2) hs x hx hcol
      have c2 := translate_keeps_column _ (-((g.d : Int) - (newD : Int))) s1 x
        (by rw [w1]; exact hx) c1
      have c3 := translate_keeps_column _ ((g.d : Int) - (newD : Int)) s2 x
        (by rw [w2, w1]; exact hx) c2 z (by rw [d3, d2, d1]; exact hz)
      rw [w3, w2, w1] at c3
      exact c3
  · rw [if_neg h]
    exact ⟨hs, rfl, rfl, rfl, fun x z hx hz hn => absurd hz (by omega), fun x hx hcol => hcol⟩

theorem occupied_reallocate (g : Chunks) (newW newD : Nat) (he : g.EmptyBeyond newW newD) :
    (g.reallocate newW newD).occupied = g.occupied := by
  rw [occupied_eq, occupied_eq]
  show (slotPairs newW newD).countP
      (fun p => ((g.resizeCopy newW newD).getD (p.1 * newW + p.2) none).isSome) = _
  have hcongr : (slotPairs newW newD).countP
        (fun p => ((g.resizeCopy newW newD).getD (p.1 * newW + p.2) none).isSome) =
      (slotPairs newW newD).countP
        (fun p => decide (p.2 < g.w ∧ p.1 < g.d) && (g.at (p.1 * g.w + p.2)).isSome) := by
    apply List.countP_congr
    intro p hp
    rw [mem_slotPairs] at hp
    rw [resizeCopy_getD g newW newD p.2 p.1 hp.2 hp.1]
    by_cases h : p.2 < g.w ∧ p.1 < g.d
    · rw [if_pos h]; simp [h]
    · rw [if_neg h]; simp [h]
  rw [hcongr]
  refine count_bij _ _ _ _ id (nodup_slotPairs _ _) (nodup_slotPairs _ _)
    (fun p _ _ q _ _ h => h) ?_
  intro q
  simp only [mem_slotPairs, Bool.and_eq_true, decide_eq_true_eq, id]
  constructor
  · rintro ⟨⟨q1, q2⟩, hsome⟩
    have hx : q.2 < newW := by
      by_contra hn
      rw [he q.2 q.1 q2 q1 (Or.inl (by omega))] at hsome
      simp at hsome
    have hz : q.1 < newD := by
      by_contra hn
      rw [he q.2 q.1 q2 q1 (Or.inr (by omega))] at hsome
      simp at hsome
    exact ⟨q, ⟨hz, hx⟩, ⟨⟨q2, q1⟩, hsome⟩, rfl⟩
  · rintro ⟨p, ⟨p1, p2⟩, ⟨⟨p3, p4⟩, hsome⟩, rfl⟩
    exact ⟨⟨p4, p3⟩, hsome⟩

theorem excess_resize (g : Chunks) (newW newD : Nat) (hs : g.Sized) :
    (g.resize newW newD).chunksCount - ((g.resize newW newD).occupied : Int) =
      g.chunksCount - (g.occupied : Int) := by
  obtain ⟨s1, w1, d1, e1, t1⟩ := shrinkW_count g newW hs
  obtain ⟨s2, w2, d2, e2, t2, c2⟩ := shrinkD_count (g.shrinkW newW) newD s1
  unfold Chunks.resize
  have he : ((g.shrinkW newW).shrinkD newD).EmptyBeyond newW newD := by
    intro x z hx hz hb
    rw [w2] at hx ⊢
    rw [d2] at hz
    rcases hb with hb | hb
    · refine c2 x hx (fun z' hz' => ?_) z hz
      rw [w1]
      exact t1 x z' (by rw [← w1]; exact hx) (by rw [← d1]; exact hz') hb
    · exact t2 x z hx hz hb
  rw [occupied_reallocate _ newW newD he]
  show ((g.shrinkW newW).shrinkD newD).chunksCount - _ = _
  rw [e2, e1]

theorem excess_setCenter (K : Constants) (g : Chunks) (x z : Int) (hs : g.Sized) :
    (g.setCenter K x z).chunksCount - ((g.setCenter K x z).occupied : Int) =
      g.chunksCount - (g.occupied : Int) := by
  rcases setCenter_cases K g x z with h | ⟨dx, dz, h⟩
  · rw [h]
  · rw [h, excess_translate g dx dz hs]

theorem occupied_new (w d : Nat) (ox oz : Int) (wfile : Option WorldFiles) :
    (Chunks.new w d ox oz wfile).occupied = 0 := by
  rw [occupied_eq, List.countP_eq_zero]
  intro p _
  rw [new_at]
  simp

theorem occupied_le_count (K : Constants) (content : ContentIndices) (g : Chunks)
    (h : Reachable K content g) : (g.occupied : Int) ≤ g.chunksCount := by
  induction h with
  | fresh w d ox oz wfile =>
    rw [occupied_new]
    exact le_refl _
  | putChunk g chunk hg ih =>
    have e := excess_putChunk g chunk (reachable_invariant K content g hg).1
    split_ifs at e <;> omega
  | set g x y z id states hg ih =>
    rw [occupied_set, set_count]
    exact ih
  | setCenter g x z hg ih =>
    have e := excess_setCenter K g x z (reachable_invariant K content g hg).1
    omega
  | translate g dx dz hg ih =>
    have e := excess_translate g dx dz (reachable_invariant K content g hg).1
    omega
  | resize g newW newD hg ih =>
    have e := excess_resize g newW newD (reachable_invariant K content g hg).1
    omega
  | saveAndClear g g' hg hsave ih =>
    obtain ⟨e1, e2⟩ := saveAndClear_empty g g' (reachable_invariant K content g hg).1 hsave
    rw [e1, e2]
    exact le_refl _

/-! ## The live count -/

/-- C23 (amended): in every state reachable from a fresh grid by `putChunk`,
`set`, `setCenter`, `translate`, `resize` and `saveAndClear`, the number of
occupied slots is at most `chunksCount`.  The difference `chunksCount -
occupied` is `0` for a fresh grid and after `saveAndClear`; `set`, `setCenter`,
`translate` and `resize` leave it as it is; `putChunk` leaves it as it is when
it is refused or fills an empty slot and raises it by one when it overwrites an
occupied slot. -/
theorem live_count_reachable (K : Constants) (content : ContentIndices) (g : Chunks)
    (h : Reachable K content g) :
    (g.occupied : Int) ≤ g.chunksCount ∧
    (∀ (w d : Nat) (ox oz : Int) (wfile : Option WorldFiles),
      (Chunks.new w d ox oz wfile).chunksCount = 0 ∧ (Chunks.new w d ox oz wfile).occupied = 0) ∧
    (∀ (x y z : Int) (id states : Nat),
      (g.set K content x y z id states).chunksCount -
          ((g.set K content x y z id states).occupied : Int) =
        g.chunksCount - (g.occupied : Int)) ∧
    (∀ x z : Int,
      (g.setCenter K x z).chunksCount - ((g.setCenter K x z).occupied : Int) =
        g.chunksCount - (g.occupied : Int)) ∧
    (∀ dx dz : Int,
      (g.translate dx dz).chunksCount - ((g.translate dx dz).occupied : Int) =
        g.chunksCount - (g.occupied : Int)) ∧
    (∀ newW newD : Nat,
      (g.resize newW newD).chunksCount - ((g.resize newW newD).occupied : Int) =
        g.chunksCount - (g.occupied : Int)) ∧
    (∀ g', g.saveAndClear = some g' → g'.chunksCount = 0 ∧ g'.occupied = 0) ∧
    (∀ chunk : Chunk,
      (g.putChunk chunk).2.chunksCount - ((g.putChunk chunk).2.occupied : Int) =
        g.chunksCount - (g.occupied : Int) +
          (if (g.putChunk chunk).1 = true ∧ (g.getChunk chunk.x chunk.z).isSome = true then 1
            else 0)) := by
  have hs := (reachable_invariant K content g h).1
  refine ⟨occupied_le_count K content g h, fun w d ox oz wfile => ⟨rfl, occupied_new w d ox oz wfile⟩,
    fun x y z id states => by rw [occupied_set, set_count],
    fun x z => excess_setCenter K g x z hs, fun dx dz => excess_translate g dx dz hs,
    fun newW newD => excess_resize g newW newD hs,
    fun g' hg' => saveAndClear_empty g g' hs hg', fun chunk => excess_putChunk g chunk hs⟩

/-- Instance of C23 (amended): the sample grid, and a second `putChunk` at its
loaded column. -/
theorem live_count_reachable_witness :
    (sampleGrid.occupied : Int) ≤ sampleGrid.chunksCount ∧
    (sampleGrid.putChunk (sampleColumn 0 0)).2.chunksCount -
        ((sampleGrid.putChunk (sampleColumn 0 0)).2.occupied : Int) =
      sampleGrid.chunksCount - (sampleGrid.occupied : Int) +
        (if (sampleGrid.putChunk (sampleColumn 0 0)).1 = true ∧
            (sampleGrid.getChunk (sampleColumn 0 0).x (sampleColumn 0 0).z).isSome = true then 1
          else 0) :=
  ⟨(live_count_reachable sampleK sampleContent sampleGrid sampleGrid_reachable).1,
    (live_count_reachable sampleK sampleContent sampleGrid sampleGrid_reachable).2.2.2.2.2.2.2
      (sampleColumn 0 0)⟩

/-- Counterexample to C23 as stated: a second `putChunk` of the column `(0, 0)`
into the sample grid gives a reachable state with `chunksCount = 2` and one
occupied slot. -/
theorem second_put_overcounts :
    Reachable sampleK sampleContent (sampleGrid.putChunk (sampleColumn 0 0)).2 ∧
    (sampleGrid.putChunk (sampleColumn 0 0)).2.chunksCount = 2 ∧
    (sampleGrid.putChunk (sampleColumn 0 0)).2.occupied = 1 ∧
    ((sampleGrid.putChunk (sampleColumn 0 0)).2.occupied : Int) ≠
      (sampleGrid.putChunk (sampleColumn 0 0)).2.chunksCount :=
  ⟨Reachable.putChunk _ _ sampleGrid_reachable, by decide, by decide, by decide⟩

/-! ## `saveAndClear` with and without a store -/

end VoxelEngine
